import Mathlib

/-!
# Library Management System: lending-state engine

A shallow embedding of `src/header/LibrarySystem.h` and `src/src/LibrarySystem.cpp`.

Modelling conventions
* `std::unordered_map<int, T>` is an association list `List (Int × T)`; `find` reads the first
  entry with a key and a write through an iterator changes that entry.
* `std::unique_ptr<Account>` is `Option Account`; `none` is the null pointer that
  `accounts[userID]` default-inserts for an absent key.
* `std::queue<int>` is a `List Int` whose head is `front()`; `push` appends at the end.
* `chrono::system_clock::time_point` is an `Int` number of clock ticks (nanoseconds);
  the clock readings `chrono::system_clock::now()` of an operation are parameters.
  The engine adds and subtracts time points as mathematical integers. The machine does it
  in 64 bits: the section on time points of 64 bits has `Account.addBorrow64`,
  `Library.borrowBook64`, `Library.returnBook64` and `run64` with wrap-around, and
  `run64_eq_run` shows that both agree when every clock reading is at or after the epoch
  and the reading that `borrowBook` adds the 30 days to is at least 30 days before the
  largest time point.
* `double` amounts are exact rationals `ℚ`: rounding, infinities and NaN are not modelled.
* `int` identifiers are unbounded `Int`: the engine does no arithmetic on them.
* An operation that dereferences a null pointer returns `none`.
* `saveState()` is `const`: it writes files and leaves the in-memory state as it is, so the
  operations below do not mention it.
-/

set_option linter.dupNamespace false

namespace LibrarySystem

/-! ## `std::unordered_map<int, T>` -/

namespace UMap

variable {α : Type}

/-- Lookup `m.find(k)`: the mapped value, `none` for `m.end()`. -/
def find (m : List (Int × α)) (k : Int) : Option α :=
  List.lookup k m

/-- Removal `m.erase(k)`: the map without the key `k`. -/
def erase (m : List (Int × α)) (k : Int) : List (Int × α) :=
  m.filter (fun p => !(p.1 == k))

/-- Writing through an iterator or pointer obtained for the key `k`: the mapped value of
the entry that `find` reads is replaced. -/
def update : List (Int × α) → Int → α → List (Int × α)
  | [], _, _ => []
  | (k', v') :: m, k, v => if k' == k then (k', v) :: m else (k', v') :: update m k v

/-- Subscript `m[k]` used as an rvalue: an absent key is inserted with the default value `dflt`. -/
def index (m : List (Int × α)) (k : Int) (dflt : α) : List (Int × α) :=
  match find m k with
  | some _ => m
  | none => m ++ [(k, dflt)]

/-- Assignment `m[k] = v`: overwrite the mapped value, inserting the key when it is absent. -/
def assign (m : List (Int × α)) (k : Int) (v : α) : List (Int × α) :=
  match find m k with
  | some _ => update m k v
  | none => m ++ [(k, v)]

end UMap

/-! ## Time -/

/-- Ticks of `chrono::system_clock` in one second. -/
def ticksPerSecond : Int := 1000000000

/-- The duration `chrono::hours(n)` in clock ticks. -/
def hours (n : Int) : Int := n * (3600 * ticksPerSecond)

/-- The count of `chrono::duration_cast<chrono::hours>(d)`: truncation toward zero. -/
def durationCastHours (d : Int) : Int := Int.tdiv d (3600 * ticksPerSecond)

/-- The smallest count of ticks that a time point of 64 bits holds. -/
def int64Min : Int := -9223372036854775808

/-- The largest count of ticks that a time point of 64 bits holds. -/
def int64Max : Int := 9223372036854775807

/-- The content of a signed 64-bit register that receives the integer `x`: wrap-around. -/
def wrap64 (x : Int) : Int :=
  (x + 9223372036854775808) % 18446744073709551616 - 9223372036854775808

/-! ## Book -/

/-- Class `Book`. -/
structure Book where
  bookID : Int
  title : String
  author : String
  publisher : String
  year : Int
  ISBN : String
  available : Bool
  reservationQueue : List Int
  deriving DecidableEq

namespace Book

/-- Constructor `Book::Book`: a new book is available and has no reservation. -/
def Book (id : Int) (title author publisher : String) (year : Int) (isbn : String) :
    LibrarySystem.Book :=
  { bookID := id, title := title, author := author, publisher := publisher,
    year := year, ISBN := isbn, available := true, reservationQueue := [] }

def getBookID (b : LibrarySystem.Book) : Int := b.bookID

def getTitle (b : LibrarySystem.Book) : String := b.title

def isAvailable (b : LibrarySystem.Book) : Bool := b.available

def setAvailable (b : LibrarySystem.Book) (status : Bool) : LibrarySystem.Book :=
  { b with available := status }

/-- Method `Book::isReservedBy`: scans a copy of the queue from the front. -/
def isReservedBy (b : LibrarySystem.Book) (userID : Int) : Bool :=
  b.reservationQueue.any (fun x => x == userID)

/-- Method `Book::reserve`: refuses a duplicate, and enqueues only while the book is not
available. -/
def reserve (b : LibrarySystem.Book) (userID : Int) : Bool × LibrarySystem.Book :=
  if b.isReservedBy userID then (false, b)
  else if !b.available then
    (true, { b with reservationQueue := b.reservationQueue ++ [userID] })
  else (false, b)

/-- Method `Book::cancelReservation`: rebuilds the queue without `userID`, keeping the order. -/
def cancelReservation (b : LibrarySystem.Book) (userID : Int) : Bool × LibrarySystem.Book :=
  if b.reservationQueue.isEmpty || !b.isReservedBy userID then (false, b)
  else
    (b.reservationQueue.any (fun x => x == userID),
      { b with reservationQueue := b.reservationQueue.filter (fun x => x != userID) })

def isReserved (b : LibrarySystem.Book) : Bool := !b.reservationQueue.isEmpty

/-- Method `Book::getNextReservation`: pops and returns the front, `-1` on an empty queue. -/
def getNextReservation (b : LibrarySystem.Book) : Int × LibrarySystem.Book :=
  match b.reservationQueue with
  | [] => (-1, b)
  | nextUser :: rest => (nextUser, { b with reservationQueue := rest })

/-- Method `Book::isAvailableFor`. -/
def isAvailableFor (b : LibrarySystem.Book) (userID : Int) : Bool :=
  if !b.available then false
  else match b.reservationQueue with
    | [] => true
    | front :: _ => front == userID

end Book

/-! ## Account -/

/-- Struct `BorrowRecord`. -/
structure BorrowRecord where
  bookID : Int
  borrowDate : Int
  dueDate : Int
  deriving DecidableEq

/-- Class `Account`. -/
structure Account where
  userID : Int
  currentBorrows : List BorrowRecord
  borrowHistory : List BorrowRecord
  totalFine : ℚ
  deriving DecidableEq

namespace Account

/-- Constructor `Account::Account`. -/
def Account (id : Int) : LibrarySystem.Account :=
  { userID := id, currentBorrows := [], borrowHistory := [], totalFine := 0 }

/-- Method `Account::addBorrow`; `t1` and `t2` are its two successive readings of the clock.
The sum is the one of the integers; `addBorrow64` takes it in 64 bits. -/
def addBorrow (a : LibrarySystem.Account) (bookID : Int) (t1 t2 : Int) : LibrarySystem.Account :=
  { a with currentBorrows :=
      a.currentBorrows ++ [{ bookID := bookID, borrowDate := t1, dueDate := t2 + hours (24 * 30) }] }

/-- Method `Account::removeBorrow`: the first record of the book moves to the history. -/
def removeBorrow (a : LibrarySystem.Account) (bookID : Int) : LibrarySystem.Account :=
  match a.currentBorrows.find? (fun record => record.bookID == bookID) with
  | some record =>
    { a with
      borrowHistory := a.borrowHistory ++ [record]
      currentBorrows := a.currentBorrows.eraseP (fun record => record.bookID == bookID) }
  | none => a

def getCurrentBorrows (a : LibrarySystem.Account) : List BorrowRecord := a.currentBorrows

def getBorrowHistory (a : LibrarySystem.Account) : List BorrowRecord := a.borrowHistory

def getTotalFine (a : LibrarySystem.Account) : ℚ := a.totalFine

def addFine (a : LibrarySystem.Account) (amount : ℚ) : LibrarySystem.Account :=
  { a with totalFine := a.totalFine + amount }

def payFine (a : LibrarySystem.Account) (amount : ℚ) : LibrarySystem.Account :=
  { a with totalFine := max 0 (a.totalFine - amount) }

def addToBorrowHistory (a : LibrarySystem.Account) (record : BorrowRecord) :
    LibrarySystem.Account :=
  { a with borrowHistory := a.borrowHistory ++ [record] }

end Account

/-! ## User and its three subclasses -/

/-- The dynamic class of a `User` object. -/
inductive UserClass where
  | Student
  | Faculty
  | Librarian
  deriving DecidableEq

/-- Class `User`; `cls` is the subclass that the virtual functions dispatch on. -/
structure User where
  userID : Int
  name : String
  password : String
  department : String
  role : String
  cls : UserClass
  deriving DecidableEq

/-- Constructor `Student::Student`. -/
def Student (id : Int) (name password : String) : User :=
  { userID := id, name := name, password := password, department := "",
    role := "Student", cls := UserClass.Student }

/-- Constructor `Faculty::Faculty`. -/
def Faculty (id : Int) (name password : String) : User :=
  { userID := id, name := name, password := password, department := "",
    role := "Faculty", cls := UserClass.Faculty }

/-- Constructor `Librarian::Librarian`. -/
def Librarian (id : Int) (name password : String) : User :=
  { userID := id, name := name, password := password, department := "",
    role := "Librarian", cls := UserClass.Librarian }

namespace User

def getUserID (u : User) : Int := u.userID

def getRole (u : User) : String := u.role

def setDepartment (u : User) (dept : String) : User := { u with department := dept }

def verifyPassword (u : User) (pwd : String) : Bool := u.password == pwd

def canBorrow (u : User) : Bool :=
  match u.cls with
  | UserClass.Student => true
  | UserClass.Faculty => true
  | UserClass.Librarian => false

def canManageBooks (u : User) : Bool :=
  match u.cls with
  | UserClass.Student => false
  | UserClass.Faculty => true
  | UserClass.Librarian => true

def canManageUsers (u : User) : Bool :=
  match u.cls with
  | UserClass.Student => false
  | UserClass.Faculty => false
  | UserClass.Librarian => true

/-- Virtual `getMaxBooks`: `Student::MAX_BOOKS`, `Faculty::MAX_BOOKS`, and 0 for a librarian. -/
def getMaxBooks (u : User) : Nat :=
  match u.cls with
  | UserClass.Student => 3
  | UserClass.Faculty => 5
  | UserClass.Librarian => 0

/-- Virtual `getMaxDays`: `Student::MAX_DAYS`, `Faculty::MAX_DAYS`, and 0 for a librarian. -/
def getMaxDays (u : User) : Int :=
  match u.cls with
  | UserClass.Student => 15
  | UserClass.Faculty => 30
  | UserClass.Librarian => 0

/-- Virtual `getFineRate`: `Student::FINE_RATE`, `Faculty::FINE_RATE`, and 0.0 for a librarian. -/
def getFineRate (u : User) : ℚ :=
  match u.cls with
  | UserClass.Student => 10
  | UserClass.Faculty => 0
  | UserClass.Librarian => 0

end User

/-! ## Library -/

/-- Class `Library`: the catalog `books`, the directory `users` and the ledger `accounts`. -/
structure Library where
  books : List (Int × Book)
  users : List (Int × User)
  accounts : List (Int × Option Account)
  deriving DecidableEq

namespace Library

/-- The default-constructed library: three empty maps. -/
def empty : Library := { books := [], users := [], accounts := [] }

/-- Method `Library::addBook`. -/
def addBook (lib : Library) (book : Book) : Bool × Library :=
  let bookID := book.getBookID
  match UMap.find lib.books bookID with
  | some _ => (false, lib)
  | none => (true, { lib with books := UMap.assign lib.books bookID book })

/-- Method `Library::removeBook`. -/
def removeBook (lib : Library) (bookID : Int) : Bool × Library :=
  ((UMap.find lib.books bookID).isSome, { lib with books := UMap.erase lib.books bookID })

/-- Method `Library::addUser`. -/
def addUser (lib : Library) (user : User) : Bool × Library :=
  let userID := user.getUserID
  match UMap.find lib.users userID with
  | some _ => (false, lib)
  | none =>
    (true, { lib with
      accounts := UMap.assign lib.accounts userID (some (Account.Account userID))
      users := UMap.assign lib.users userID user })

/-- Method `Library::removeUser`. -/
def removeUser (lib : Library) (userID : Int) : Bool × Library :=
  ((UMap.find lib.users userID).isSome,
    { lib with
      accounts := UMap.erase lib.accounts userID
      users := UMap.erase lib.users userID })

/-- Method `Library::getBook`. -/
def getBook (lib : Library) (bookID : Int) : Option Book := UMap.find lib.books bookID

/-- Method `Library::getUser`. -/
def getUser (lib : Library) (userID : Int) : Option User := UMap.find lib.users userID

/-- Method `Library::getAccount`: `it->second.get()`, so a null entry reads as no account. -/
def getAccount (lib : Library) (userID : Int) : Option Account :=
  match UMap.find lib.accounts userID with
  | some p => p
  | none => none

/-- Method `Library::borrowBook`; `t1` and `t2` are the clock readings of `Account::addBorrow`.
`none` is the dereference of the null pointer that `accounts[userID]` yields when the
user has no account. -/
def borrowBook (lib : Library) (userID bookID : Int) (t1 t2 : Int) : Option (Bool × Library) :=
  match UMap.find lib.users userID, UMap.find lib.books bookID with
  | some user, some book =>
    if !user.canBorrow then some (false, lib)
    else if !book.isAvailable then some (false, lib)
    else
      let accounts1 := UMap.index lib.accounts userID none
      match UMap.find accounts1 userID with
      | some (some account) =>
        if account.getCurrentBorrows.length ≥ user.getMaxBooks then
          some (false, { lib with accounts := accounts1 })
        else if account.getCurrentBorrows.any (fun borrow => borrow.bookID == bookID) then
          some (false, { lib with accounts := accounts1 })
        else if account.getTotalFine > 0 then
          some (false, { lib with accounts := accounts1 })
        else
          some (true, { lib with
            books := UMap.update lib.books bookID (book.setAvailable false)
            accounts := UMap.update accounts1 userID (some (account.addBorrow bookID t1 t2)) })
      | _ => none
  | _, _ => some (false, lib)

/-- The fine loop of `Library::returnBook`: the first active record of the book that is
overdue at `now` adds `overdueHours * fineRate` to the balance. -/
def chargeOverdue (account : Account) (user : User) (bookID : Int) (now : Int) : Account :=
  match account.getCurrentBorrows.find?
      (fun borrow => borrow.bookID == bookID && decide (now > borrow.dueDate)) with
  | some borrow =>
    let overdueHours := durationCastHours (now - borrow.dueDate)
    let fine : ℚ := (overdueHours : ℚ) * user.getFineRate
    account.addFine fine
  | none => account

/-- The steps of `Library::returnBook` on the book: it is set available, and when it has
reservations the front is popped and handed to `Book::reserve`. -/
def releaseBook (book : Book) : Book :=
  let book1 := book.setAvailable true
  if book1.isReserved then
    let next := book1.getNextReservation
    (next.2.reserve next.1).2
  else book1

/-- Method `Library::returnBook`; `now` is its reading of the clock. -/
def returnBook (lib : Library) (userID bookID : Int) (now : Int) : Bool × Library :=
  match UMap.find lib.users userID, UMap.find lib.books bookID with
  | some user, some book =>
    let accounts1 := UMap.index lib.accounts userID none
    match UMap.find accounts1 userID with
    | some (some account) =>
      let hasBorrowed := account.getCurrentBorrows.any (fun borrow => borrow.bookID == bookID)
      if !hasBorrowed then (false, { lib with accounts := accounts1 })
      else
        let account1 := chargeOverdue account user bookID now
        let account2 := account1.removeBorrow bookID
        (true, { lib with
          books := UMap.update lib.books bookID (releaseBook book)
          accounts := UMap.update accounts1 userID (some account2) })
    | _ => (false, { lib with accounts := accounts1 })
  | _, _ => (false, lib)

/-- Method `Library::authenticateUser`. -/
def authenticateUser (lib : Library) (userID : Int) (password : String) : Bool :=
  match UMap.find lib.users userID with
  | some user => user.verifyPassword password
  | none => false

/-- Method `Library::payFine`; `none` is the dereference of a null account pointer. -/
def payFine (lib : Library) (userID : Int) (amount : ℚ) : Option (Bool × Library) :=
  match UMap.find lib.accounts userID with
  | none => some (false, lib)
  | some none => none
  | some (some account) =>
    some (true, { lib with
      accounts := UMap.update lib.accounts userID (some (account.payFine amount)) })

/-- Method `Library::reserveBook`. -/
def reserveBook (lib : Library) (userID bookID : Int) : Bool × Library :=
  match UMap.find lib.books bookID with
  | none => (false, lib)
  | some book =>
    let r := book.reserve userID
    (r.1, { lib with books := UMap.update lib.books bookID r.2 })

/-- Method `Library::cancelReservation`. -/
def cancelReservation (lib : Library) (userID bookID : Int) : Bool × Library :=
  match UMap.find lib.books bookID with
  | none => (false, lib)
  | some book =>
    let r := book.cancelReservation userID
    (r.1, { lib with books := UMap.update lib.books bookID r.2 })

end Library

/-! ## Sequences of engine calls -/

/-- The object that `handleAddUser` builds: the constructor of the chosen subclass followed
by `setDepartment`. -/
def makeUser (cls : UserClass) (id : Int) (name password department : String) : User :=
  match cls with
  | UserClass.Student => (Student id name password).setDepartment department
  | UserClass.Faculty => (Faculty id name password).setDepartment department
  | UserClass.Librarian => (Librarian id name password).setDepartment department

/-- One call of a mutating operation of `Library` with its arguments. Books and users are
passed as their constructors build them; `t1`, `t2` and `now` are the clock readings of the
call and `amount` is the payment. -/
inductive Op where
  | addBook (id : Int) (title author publisher : String) (year : Int) (isbn : String)
  | removeBook (bookID : Int)
  | addUser (cls : UserClass) (id : Int) (name password department : String)
  | removeUser (userID : Int)
  | borrowBook (userID bookID : Int) (t1 t2 : Int)
  | returnBook (userID bookID : Int) (now : Int)
  | reserveBook (userID bookID : Int)
  | cancelReservation (userID bookID : Int)
  | payFine (userID : Int) (amount : ℚ)
  deriving DecidableEq

namespace Op

def isRemoveBook : Op → Bool
  | removeBook _ => true
  | _ => false

def isRemoveUser : Op → Bool
  | removeUser _ => true
  | _ => false

end Op

/-- The state after one call; `none` when the call dereferences a null pointer. -/
def step (lib : Library) : Op → Option Library
  | Op.addBook id title author publisher year isbn =>
    some (lib.addBook (Book.Book id title author publisher year isbn)).2
  | Op.removeBook bookID => some (lib.removeBook bookID).2
  | Op.addUser cls id name password department =>
    some (lib.addUser (makeUser cls id name password department)).2
  | Op.removeUser userID => some (lib.removeUser userID).2
  | Op.borrowBook userID bookID t1 t2 => (lib.borrowBook userID bookID t1 t2).map Prod.snd
  | Op.returnBook userID bookID now => some (lib.returnBook userID bookID now).2
  | Op.reserveBook userID bookID => some (lib.reserveBook userID bookID).2
  | Op.cancelReservation userID bookID => some (lib.cancelReservation userID bookID).2
  | Op.payFine userID amount => (lib.payFine userID amount).map Prod.snd

/-- The state after a sequence of calls, `none` as soon as one of them faults. -/
def run (lib : Library) : List Op → Option Library
  | [] => some lib
  | op :: ops => (step lib op).bind (fun lib1 => run lib1 ops)

/-- States reachable from the empty library by calls that all satisfy `allowed`. -/
def ReachableBy (allowed : Op → Bool) (lib : Library) : Prop :=
  ∃ ops : List Op, ops.all allowed = true ∧ run Library.empty ops = some lib

/-- States reachable from the empty library by any sequence of calls. -/
def Reachable (lib : Library) : Prop :=
  ReachableBy (fun _ => true) lib

/-! ## Scenarios -/

/-- Item 7 is lent to holder 1, holders 2 and 4 reserve it in this order, holder 1 returns
it; holder 3 never reserves it. -/
def reservedScenario : List Op :=
  [Op.addBook 7 "Title" "Author" "Publisher" 2020 "ISBN-7",
   Op.addUser UserClass.Student 1 "A" "pw1" "CS",
   Op.addUser UserClass.Student 2 "B" "pw2" "CS",
   Op.addUser UserClass.Student 3 "C" "pw3" "CS",
   Op.addUser UserClass.Student 4 "D" "pw4" "CS",
   Op.borrowBook 1 7 0 0,
   Op.reserveBook 2 7,
   Op.reserveBook 4 7,
   Op.returnBook 1 7 (hours 24)]

/-- Item 7 is lent to holder 1 and holder 2 reserves it; holder 3 is a third holder. -/
def lentReservedScenario : List Op :=
  [Op.addBook 7 "Title" "Author" "Publisher" 2020 "ISBN-7",
   Op.addUser UserClass.Student 1 "A" "pw1" "CS",
   Op.addUser UserClass.Student 2 "B" "pw2" "CS",
   Op.addUser UserClass.Student 3 "C" "pw3" "CS",
   Op.borrowBook 1 7 0 0,
   Op.reserveBook 2 7]

/-- Student 111 borrows the available item 50 at time `t`. -/
def studentScenario (t : Int) : List Op :=
  [Op.addBook 50 "Title" "Author" "Publisher" 2020 "ISBN-50",
   Op.addUser UserClass.Student 111 "S" "test123" "CS",
   Op.borrowBook 111 50 t t]

/-- The state that `studentScenario t` ends in. -/
def studentLoanState (t : Int) : Library :=
  { books := [(50, { bookID := 50, title := "Title", author := "Author", publisher := "Publisher",
                     year := 2020, ISBN := "ISBN-50", available := false,
                     reservationQueue := [] })]
    users := [(111, { userID := 111, name := "S", password := "test123", department := "CS",
                      role := "Student", cls := UserClass.Student })]
    accounts := [(111, some { userID := 111,
                              currentBorrows :=
                                [{ bookID := 50, borrowDate := t, dueDate := t + hours (24 * 30) }]
                              borrowHistory := []
                              totalFine := 0 })] }

/-- The state before the loan of `studentScenario`: item 50 is available and Student 111
has an empty account. -/
def studentReadyState : Library :=
  { books := [(50, Book.Book 50 "Title" "Author" "Publisher" 2020 "ISBN-50")]
    users := [(111, makeUser UserClass.Student 111 "S" "test123" "CS")]
    accounts := [(111, some (Account.Account 111))] }

/-! ## The lending invariants -/

/-- The item ids of the account's active loans, in order. -/
def Account.loanIDs (a : LibrarySystem.Account) : List Int :=
  a.currentBorrows.map BorrowRecord.bookID

namespace Library

/-- The account of `userID` lists `bookID` among its active loans. -/
def holdsActive (lib : Library) (userID bookID : Int) : Prop :=
  ∃ account, lib.getAccount userID = some account ∧ bookID ∈ account.loanIDs

/-- Exactly one account lists `bookID` among its active loans. -/
def exactlyOneHolder (lib : Library) (bookID : Int) : Prop :=
  ∃ userID, lib.holdsActive userID bookID ∧
    ∀ userID', lib.holdsActive userID' bookID → userID' = userID

/-- Every item of the catalog is unavailable if and only if exactly one account lists it
among its active loans. -/
def AvailabilityMatchesLoans (lib : Library) : Prop :=
  ∀ bookID book, UMap.find lib.books bookID = some book →
    (book.available = false ↔ lib.exactlyOneHolder bookID)

/-- No item id is in the active loans of two different accounts. -/
def LoansExclusive (lib : Library) : Prop :=
  ∀ userID1 userID2 bookID,
    lib.holdsActive userID1 bookID → lib.holdsActive userID2 bookID → userID1 = userID2

/-- Every holder has at most `getMaxBooks` active loans, and no account has two active
records of the same item. -/
def LoansWithinLimit (lib : Library) : Prop :=
  (∀ userID user account, UMap.find lib.users userID = some user →
    lib.getAccount userID = some account →
    account.currentBorrows.length ≤ user.getMaxBooks) ∧
  (∀ userID account, lib.getAccount userID = some account → account.loanIDs.Nodup)

end Library

/-- What the lending invariants see of a library: the availability flag of each item, the
loaned item ids of each account and the loan limit of each holder. -/
structure View where
  avail : Int → Option Bool
  loans : Int → Option (List Int)
  limit : Int → Option Nat

/-- The view of a library. -/
def view (lib : Library) : View :=
  { avail := fun bookID => (UMap.find lib.books bookID).map Book.available
    loans := fun userID => (lib.getAccount userID).map Account.loanIDs
    limit := fun userID => (UMap.find lib.users userID).map User.getMaxBooks }

/-- The changes of the view that one call can make; `rb` and `ru` tell whether the call may
be a `removeBook` or a `removeUser`. -/
inductive Effect (rb ru : Bool) : View → View → Prop where
  | same (v : View) : Effect rb ru v v
  | addBook (v : View) (i : Int) (h : v.avail i = none) :
      Effect rb ru v { v with avail := Function.update v.avail i (some true) }
  | removeBook (v : View) (i : Int) (h : rb = true) :
      Effect rb ru v { v with avail := Function.update v.avail i none }
  | addUser (v : View) (k : Int) (m : Nat) (h : v.limit k = none) :
      Effect rb ru v { v with
        limit := Function.update v.limit k (some m)
        loans := Function.update v.loans k (some []) }
  | removeUser (v : View) (k : Int) (h : ru = true) :
      Effect rb ru v { v with
        limit := Function.update v.limit k none
        loans := Function.update v.loans k none }
  | borrow (v : View) (k i : Int) (l : List Int) (m : Nat) (hl : v.loans k = some l)
      (hm : v.limit k = some m) (hlt : l.length < m) (hni : i ∉ l)
      (hav : v.avail i = some true) :
      Effect rb ru v { v with
        avail := Function.update v.avail i (some false)
        loans := Function.update v.loans k (some (l ++ [i])) }
  | giveBack (v : View) (k i : Int) (l : List Int) (hl : v.loans k = some l) (hi : i ∈ l)
      (hav : v.avail i ≠ none) :
      Effect rb ru v { v with
        avail := Function.update v.avail i (some true)
        loans := Function.update v.loans k (some (l.erase i)) }

/-- Loans within the limit, on the view. -/
def View.WithinLimit (v : View) : Prop :=
  ∀ k l, v.loans k = some l → l.Nodup ∧ ∀ m, v.limit k = some m → l.length ≤ m

/-- Exclusive loans of unavailable catalog items, on the view. -/
def View.Exclusive (v : View) : Prop :=
  (∀ k l, v.loans k = some l → l.Nodup) ∧
  (∀ k l i, v.loans k = some l → i ∈ l → v.avail i = some false) ∧
  (∀ k k' l l' i, v.loans k = some l → v.loans k' = some l' → i ∈ l → i ∈ l' → k = k')

/-- Every unavailable item is held, and only holders have accounts, on the view. -/
def View.Held (v : View) : Prop :=
  (∀ i, v.avail i = some false → ∃ k l, v.loans k = some l ∧ i ∈ l) ∧
  (∀ k l, v.loans k = some l → v.limit k ≠ none)

/-- Holder 1 borrows item 1 and is then removed from the directory. -/
def orphanLoanScenario : List Op :=
  [Op.addBook 1 "Title" "Author" "Publisher" 2020 "ISBN-1",
   Op.addUser UserClass.Student 1 "A" "pw1" "CS",
   Op.borrowBook 1 1 0 0,
   Op.removeUser 1]

/-- Holder 1 borrows item 1; the item is removed from the catalog and added again. -/
def reAddedBookScenario : List Op :=
  [Op.addBook 1 "Title" "Author" "Publisher" 2020 "ISBN-1",
   Op.addUser UserClass.Student 1 "A" "pw1" "CS",
   Op.borrowBook 1 1 0 0,
   Op.removeBook 1,
   Op.addBook 1 "Title" "Author" "Publisher" 2020 "ISBN-1"]

/-- Holder 1 borrows item 1; the item is removed from the catalog, added again and
borrowed by holder 2. -/
def doubleLoanScenario : List Op :=
  [Op.addBook 1 "Title" "Author" "Publisher" 2020 "ISBN-1",
   Op.addUser UserClass.Student 1 "A" "pw1" "CS",
   Op.addUser UserClass.Student 2 "B" "pw2" "CS",
   Op.borrowBook 1 1 0 0,
   Op.removeBook 1,
   Op.addBook 1 "Title" "Author" "Publisher" 2020 "ISBN-1",
   Op.borrowBook 2 1 5 5]

/-! ## Scenarios and invariants of the ledger -/

/-- Item 50 is added to the catalog and Student 111 to the directory. -/
def readyScenario : List Op :=
  [Op.addBook 50 "Title" "Author" "Publisher" 2020 "ISBN-50",
   Op.addUser UserClass.Student 111 "S" "test123" "CS"]

/-- Student 111 borrows item 50 at time 0 and returns it 35 days later, 5 days late; then
pays more than the fine, and pays a negative amount. -/
def lateReturnScenario : List Op :=
  [Op.addBook 50 "Title" "Author" "Publisher" 2020 "ISBN-50",
   Op.addUser UserClass.Student 111 "S" "test123" "CS",
   Op.borrowBook 111 50 0 0,
   Op.returnBook 111 50 (hours (24 * 35)),
   Op.payFine 111 2000,
   Op.payFine 111 (-7)]

namespace Library

/-- Every account has a fine balance greater than or equal to zero. -/
def FinesNonneg (lib : Library) : Prop :=
  ∀ userID account, lib.getAccount userID = some account → 0 ≤ account.totalFine

/-- The ledger has an entry exactly for the ids of the directory, and no entry is a null
pointer. -/
def Lockstep (lib : Library) : Prop :=
  ∀ userID,
    (UMap.find lib.users userID ≠ none ↔ UMap.find lib.accounts userID ≠ none) ∧
    UMap.find lib.accounts userID ≠ some none

end Library

/-! ## Text, numbers and files

Conventions of the persistence model
* A file is its text, a `String`; `getline(file, line)` is the same loop as `Library::split`
  with the line feed as delimiter. A file that cannot be opened for reading behaves in the
  source like an empty file; every file is taken to open for writing.
* The files are the ones `saveState` writes: the catalog, one file for each role and one
  file for each account, keyed by the id in its path.
* The conversions between `double` and text, `ostream << double` and `std::stod`, are
  parameters `showDouble` and `stod`; `stod` returns `none` when it throws.
* `std::stoi` and `std::stoll` return `none` when they throw; an uncaught exception and a
  read past the end of a vector make the loading function return `none`.
* The n-th reading of the clock during a load is `clock n`.
-/

/-- The line feed. -/
def lineFeed : Char := Char.ofNat 10

/-- The loop `while (getline(stream, token, delim)) tokens.push_back(token)`: `token` holds
the characters of the current `getline` in reverse and `extracted` tells whether it has
extracted any character; at the end of the text a `getline` that extracted nothing fails
and ends the loop. -/
def splitAux (delim : Char) : List Char → List Char → Bool → List String
  | [], token, extracted => if extracted then [String.mk token.reverse] else []
  | c :: cs, token, _ =>
    if c == delim then String.mk token.reverse :: splitAux delim cs [] false
    else splitAux delim cs (c :: token) true

/-- Method `Library::split` (and the free function `split` of main.cpp). -/
def Library.split (str : String) (delim : Char) : List String :=
  splitAux delim str.data [] false

/-- The lines that `while (getline(file, line))` reads from a file. -/
def fileLines (text : String) : List String :=
  Library.split text lineFeed

/-- The function `isspace` of the C locale. -/
def isSpace (c : Char) : Bool :=
  c == ' ' || (9 ≤ c.toNat && c.toNat ≤ 13)

/-- The value of a sequence of decimal digits. -/
def digitsValue (ds : List Char) : Nat :=
  ds.foldl (fun acc d => acc * 10 + (d.toNat - 48)) 0

/-- The conversion of `strtol` and `strtoll` in base 10: leading white space, an optional
sign and the longest run of digits; `none` when there is no digit. -/
def parseInteger (cs : List Char) : Option Int :=
  let cs1 := cs.dropWhile isSpace
  let negative := cs1.head? == some '-'
  let cs2 := match cs1 with
    | '-' :: rest => rest
    | '+' :: rest => rest
    | _ => cs1
  let ds := cs2.takeWhile Char.isDigit
  if ds.isEmpty then none
  else some (if negative then -(digitsValue ds : Int) else (digitsValue ds : Int))

/-- The function `std::stoi`: `none` for `std::invalid_argument` and `std::out_of_range`. -/
def stoi (s : String) : Option Int :=
  match parseInteger s.data with
  | none => none
  | some v => if -2147483648 ≤ v ∧ v ≤ 2147483647 then some v else none

/-- The function `std::stoll`: `none` for `std::invalid_argument` and
`std::out_of_range`. -/
def stoll (s : String) : Option Int :=
  match parseInteger s.data with
  | none => none
  | some v => if -9223372036854775808 ≤ v ∧ v ≤ 9223372036854775807 then some v else none

/-- The conversion `chrono::system_clock::to_time_t`: whole seconds, truncated. -/
def to_time_t (t : Int) : Int := Int.tdiv t ticksPerSecond

/-- The conversion `chrono::system_clock::from_time_t`: the seconds times the ticks of one
second, a product of 64 bits. -/
def from_time_t (seconds : Int) : Int := wrap64 (seconds * ticksPerSecond)

/-- Running a loop body over the lines of a file until one of them faults. -/
def foldLines {σ α : Type} (f : σ → α → Option σ) : σ → List α → Option σ
  | st, [] => some st
  | st, line :: rest =>
    match f st line with
    | none => none
    | some st1 => foldLines f st1 rest

/-- The files that `saveState` writes. -/
structure Files where
  books : String
  students : String
  faculty : String
  librarians : String
  accounts : List (Int × String)

namespace Library

/-- The record that `saveState` writes for a book. -/
def bookLine (id : Int) (book : Book) : String :=
  toString id ++ "|" ++ book.getTitle ++ "|" ++ book.author ++ "|" ++ book.publisher ++ "|" ++
    toString book.year ++ "|" ++ book.ISBN ++ "|" ++ (if book.isAvailable then "1" else "0") ++
    String.singleton lineFeed

/-- The record `userLine` that `saveState` writes for a user. -/
def userLine (id : Int) (user : User) : String :=
  toString id ++ "|" ++ user.name ++ "|" ++ user.password ++ "|" ++ user.department ++
    String.singleton lineFeed

/-- The `BORROW` or `HISTORY` record that `saveState` writes for a loan. -/
def recordLine (tag : String) (record : BorrowRecord) : String :=
  tag ++ "|" ++ toString record.bookID ++ "|" ++ toString (to_time_t record.borrowDate) ++ "|" ++
    toString (to_time_t record.dueDate) ++ String.singleton lineFeed

/-- The text that `saveState` writes into the file of an account. -/
def accountText (showDouble : ℚ → String) (account : Account) : String :=
  String.join (account.getCurrentBorrows.map (recordLine "BORROW")) ++
    String.join (account.getBorrowHistory.map (recordLine "HISTORY")) ++
    "FINE|" ++ showDouble account.getTotalFine ++ String.singleton lineFeed

/-- The loop of `saveState` over the accounts: each account file is written under the
account's id; `none` is the dereference of a null account pointer. -/
def saveAccounts (showDouble : ℚ → String) :
    List (Int × Option Account) → List (Int × String) → Option (List (Int × String))
  | [], written => some written
  | (_, none) :: _, _ => none
  | (id, some account) :: rest, written =>
    saveAccounts showDouble rest (UMap.assign written id (accountText showDouble account))

/-- The text of the file of one role: the records of the users whose `getRole` is `role`. -/
def roleText (users : List (Int × User)) (role : String) : String :=
  String.join ((users.filter (fun pair => pair.2.getRole == role)).map
    (fun pair => userLine pair.1 pair.2))

/-- Method `Library::saveState`: the files it writes. -/
def saveState (lib : Library) (showDouble : ℚ → String) : Option Files :=
  match saveAccounts showDouble lib.accounts [] with
  | none => none
  | some accountFiles =>
    some { books := String.join (lib.books.map (fun pair => bookLine pair.1 pair.2))
           students := roleText lib.users "Student"
           faculty := roleText lib.users "Faculty"
           librarians := roleText lib.users "Librarian"
           accounts := accountFiles }

/-- Method `Library::readDataFile`: the split records handed to the callback. -/
def readDataFile (text : String) : List (List String) :=
  (fileLines text).map (fun line => split line '|')

/-- The body of the loop of `loadAccountInfo` for one line; the state is the library, the
account under construction and the number of clock readings so far. -/
def loadAccountLine (stod : String → Option ℚ) (clock : Nat → Int)
    (st : Library × LibrarySystem.Account × Nat) (line : String) :
    Option (Library × LibrarySystem.Account × Nat) :=
  let parts := split line '|'
  if parts.length < 2 then some st
  else if parts[0]? == some "BORROW" then
    match (parts[1]?).bind stoi, (parts[2]?).bind stoll, (parts[3]?).bind stoll with
    | some bookID, some _, some _ =>
      let account := st.2.1.addBorrow bookID (clock st.2.2) (clock (st.2.2 + 1))
      let lib1 := match st.1.getBook bookID with
        | some book =>
          { st.1 with books := UMap.update st.1.books bookID (book.setAvailable false) }
        | none => st.1
      some (lib1, account, st.2.2 + 2)
    | _, _, _ => none
  else if parts[0]? == some "HISTORY" then
    match (parts[1]?).bind stoi, (parts[2]?).bind stoll, (parts[3]?).bind stoll with
    | some bookID, some borrowTime, some dueTime =>
      let record : BorrowRecord :=
        { bookID := bookID, borrowDate := from_time_t borrowTime,
          dueDate := from_time_t dueTime }
      some (st.1, st.2.1.addToBorrowHistory record, st.2.2)
    | _, _, _ => none
  else if parts[0]? == some "FINE" then
    match (parts[1]?).bind stod with
    | some fine => some (st.1, st.2.1.addFine fine, st.2.2)
    | none => none
  else some st

/-- Method `Library::loadAccountInfo`; `file` is the text of the account file, `none` when
it cannot be opened, and `n` the number of clock readings so far. -/
def loadAccountInfo (stod : String → Option ℚ) (clock : Nat → Int) (lib : Library) (n : Nat)
    (userID : Int) (file : Option String) : Option (Library × Nat) :=
  match file with
  | none =>
    let account := LibrarySystem.Account.Account userID
    some ({ lib with accounts := UMap.assign lib.accounts userID (some account) }, n)
  | some text =>
    match foldLines (loadAccountLine stod clock) (lib, LibrarySystem.Account.Account userID, n)
        (fileLines text) with
    | none => none
    | some st =>
      some ({ st.1 with accounts := UMap.assign st.1.accounts userID (some st.2.1) }, st.2.2)

/-- The callback of `loadState` for a record of the catalog file. -/
def loadBookParts (lib : Library) (parts : List String) : Option Library :=
  match parts with
  | [p0, p1, p2, p3, p4, p5, p6] =>
    match stoi p0, stoi p4 with
    | some id, some year =>
      some (lib.addBook ((Book.Book id p1 p2 p3 year p5).setAvailable (p6 == "1"))).2
    | _, _ => none
  | _ => some lib

/-- The callback of `loadState` for a record of the file of one role; `make` is the
constructor of the role's class. -/
def loadUserParts (stod : String → Option ℚ) (clock : Nat → Int) (files : Files)
    (make : Int → String → String → User) (st : Library × Nat) (parts : List String) :
    Option (Library × Nat) :=
  match parts with
  | [p0, p1, p2, p3] =>
    match stoi p0 with
    | some id =>
      loadAccountInfo stod clock (st.1.addUser ((make id p1 p2).setDepartment p3)).2 st.2 id
        (UMap.find files.accounts id)
    | none => none
  | _ => some st

/-- Method `Library::loadState`: the three maps are cleared, then the catalog, the students,
the faculty and the librarians are read. -/
def loadState (stod : String → Option ℚ) (clock : Nat → Int) (files : Files) :
    Option (Library × Nat) :=
  match foldLines loadBookParts Library.empty (readDataFile files.books) with
  | none => none
  | some lib1 =>
    match foldLines (loadUserParts stod clock files Student) (lib1, 0)
        (readDataFile files.students) with
    | none => none
    | some st2 =>
      match foldLines (loadUserParts stod clock files Faculty) st2
          (readDataFile files.faculty) with
      | none => none
      | some st3 =>
        foldLines (loadUserParts stod clock files Librarian) st3
          (readDataFile files.librarians)

/-- The function `std::string::find` from position 0: the least index at which `needle`
occurs in the text, counted from `i`; `none` is `npos`. -/
def stringFind (needle : List Char) : List Char → Nat → Option Nat
  | [], i => if needle.isPrefixOf [] then some i else none
  | c :: cs, i => if needle.isPrefixOf (c :: cs) then some i else stringFind needle cs (i + 1)

/-- The call `transform(s.begin(), s.end(), s.begin(), ::tolower)`. -/
def toLower (s : String) : String :=
  String.mk (s.data.map Char.toLower)

/-- Method `Library::searchBooks`: the entries of the catalog whose lower-cased title
contains the lower-cased query, in the order of the iteration. -/
def searchBooks (lib : Library) (query : String) : List (Int × Book) :=
  let lowerQuery := toLower query
  lib.books.filter (fun pair =>
    (stringFind lowerQuery.data (toLower pair.2.getTitle).data 0).isSome)

end Library

namespace Main

/-- The function `readDataFile` of main.cpp: empty lines and lines that start with `#` are
skipped. -/
def readDataFile (text : String) : List (List String) :=
  ((fileLines text).filter (fun line => !(line.data.isEmpty || line.data.head? == some '#'))).map
    (fun line => Library.split line '|')

/-- The function `initializeLibrary` of main.cpp. -/
def initializeLibrary (stod : String → Option ℚ) (clock : Nat → Int) (files : Files)
    (lib : Library) : Option (Library × Nat) :=
  match foldLines Library.loadBookParts lib (readDataFile files.books) with
  | none => none
  | some lib1 =>
    match foldLines (Library.loadUserParts stod clock files Student) (lib1, 0)
        (readDataFile files.students) with
    | none => none
    | some st2 =>
      match foldLines (Library.loadUserParts stod clock files Faculty) st2
          (readDataFile files.faculty) with
      | none => none
      | some st3 =>
        foldLines (Library.loadUserParts stod clock files Librarian) st3
          (readDataFile files.librarians)

/-- The function `handlePayFine` of main.cpp; `amount` is the number read from the input
and passed to `payFine` as it is. -/
def handlePayFine (lib : Library) (userID : Int) (amount : ℚ) : Option Library :=
  match lib.getAccount userID with
  | none => some lib
  | some account =>
    if account.getTotalFine = 0 then some lib
    else (lib.payFine userID amount).map Prod.snd

end Main

/-! ## Scenarios of the persistence claims -/

/-- The state after Student 111 returned item 50 five days late: the balance is 1200. -/
def lateReturnState : Library :=
  ((studentLoanState 0).returnBook 111 50 (hours (24 * 35))).2

/-- The directory holds Student 5 as the constructor builds the object, without a call of
`setDepartment`: the department is the empty string. -/
def noDepartmentState : Library :=
  (Library.empty.addUser (Student 5 "A" "p")).2

/-- The account of Student 111 after the loan of item 50 at the time of one hour, a whole
number of seconds. -/
def savedAccount : Account :=
  { userID := 111
    currentBorrows := [{ bookID := 50, borrowDate := hours 1, dueDate := hours 1 + hours (24 * 30) }]
    borrowHistory := []
    totalFine := 0 }

namespace Library

/-- The item id that a line of an account file names as an active loan: the split record
has at least two fields, the first one is `BORROW` and `stoi` converts the second one. -/
def borrowLineID (line : String) : Option Int :=
  let parts := split line '|'
  if parts.length < 2 then none
  else if parts[0]? == some "BORROW" then (parts[1]?).bind stoi
  else none

/-- The item ids named by the `BORROW` lines of an account file. -/
def borrowedIDs (text : String) : List Int :=
  (fileLines text).filterMap borrowLineID

end Library

/-! ## Time points of 64 bits

A `chrono::system_clock::time_point` and a `chrono::nanoseconds` duration hold a signed count
of ticks in 64 bits. The engine above adds and subtracts them as mathematical integers. The
definitions of this section are the same methods with the sum of `Account::addBorrow` and the
difference of `Library::returnBook` reduced to 64 bits with wrap-around, as the machine
computes them; every other step is the one of the engine above. -/

namespace Account

/-- Method `Account::addBorrow` with the sum `now() + chrono::hours(24*30)` in 64 bits. -/
def addBorrow64 (a : LibrarySystem.Account) (bookID : Int) (t1 t2 : Int) :
    LibrarySystem.Account :=
  { a with currentBorrows :=
      a.currentBorrows ++
        [{ bookID := bookID, borrowDate := t1, dueDate := wrap64 (t2 + hours (24 * 30)) }] }

end Account

namespace Library

/-- Method `Library::borrowBook` with the due date of `Account.addBorrow64`. -/
def borrowBook64 (lib : Library) (userID bookID : Int) (t1 t2 : Int) : Option (Bool × Library) :=
  match UMap.find lib.users userID, UMap.find lib.books bookID with
  | some user, some book =>
    if !user.canBorrow then some (false, lib)
    else if !book.isAvailable then some (false, lib)
    else
      let accounts1 := UMap.index lib.accounts userID none
      match UMap.find accounts1 userID with
      | some (some account) =>
        if account.getCurrentBorrows.length ≥ user.getMaxBooks then
          some (false, { lib with accounts := accounts1 })
        else if account.getCurrentBorrows.any (fun borrow => borrow.bookID == bookID) then
          some (false, { lib with accounts := accounts1 })
        else if account.getTotalFine > 0 then
          some (false, { lib with accounts := accounts1 })
        else
          some (true, { lib with
            books := UMap.update lib.books bookID (book.setAvailable false)
            accounts := UMap.update accounts1 userID (some (account.addBorrow64 bookID t1 t2)) })
      | _ => none
  | _, _ => some (false, lib)

/-- The fine loop of `Library::returnBook` with the difference `now - borrow.dueDate` in
64 bits. -/
def chargeOverdue64 (account : Account) (user : User) (bookID : Int) (now : Int) : Account :=
  match account.getCurrentBorrows.find?
      (fun borrow => borrow.bookID == bookID && decide (now > borrow.dueDate)) with
  | some borrow =>
    let overdueHours := durationCastHours (wrap64 (now - borrow.dueDate))
    let fine : ℚ := (overdueHours : ℚ) * user.getFineRate
    account.addFine fine
  | none => account

/-- Method `Library::returnBook` with the fine loop `chargeOverdue64`. -/
def returnBook64 (lib : Library) (userID bookID : Int) (now : Int) : Bool × Library :=
  match UMap.find lib.users userID, UMap.find lib.books bookID with
  | some user, some book =>
    let accounts1 := UMap.index lib.accounts userID none
    match UMap.find accounts1 userID with
    | some (some account) =>
      let hasBorrowed := account.getCurrentBorrows.any (fun borrow => borrow.bookID == bookID)
      if !hasBorrowed then (false, { lib with accounts := accounts1 })
      else
        let account1 := chargeOverdue64 account user bookID now
        let account2 := account1.removeBorrow bookID
        (true, { lib with
          books := UMap.update lib.books bookID (releaseBook book)
          accounts := UMap.update accounts1 userID (some account2) })
    | _ => (false, { lib with accounts := accounts1 })
  | _, _ => (false, lib)

/-- Every due date of an active loan is a time point at or after the epoch. -/
def DuesInRange (lib : Library) : Prop :=
  ∀ userID account, lib.getAccount userID = some account →
    ∀ record ∈ account.currentBorrows, 0 ≤ record.dueDate ∧ record.dueDate ≤ int64Max

end Library

/-- The state after one call, with the time points of `borrowBook` and `returnBook` in
64 bits; `none` when the call dereferences a null pointer. -/
def step64 (lib : Library) : Op → Option Library
  | Op.borrowBook userID bookID t1 t2 => (lib.borrowBook64 userID bookID t1 t2).map Prod.snd
  | Op.returnBook userID bookID now => some (lib.returnBook64 userID bookID now).2
  | op => step lib op

/-- The state after a sequence of calls with time points of 64 bits. -/
def run64 (lib : Library) : List Op → Option Library
  | [] => some lib
  | op :: ops => (step64 lib op).bind (fun lib1 => run64 lib1 ops)

namespace Op

/-- The clock readings of the call are time points at or after the epoch, and a reading
that `borrowBook` adds 30 days to is at least 30 days before the largest time point. -/
def timesInRange : Op → Bool
  | borrowBook _ _ t1 t2 =>
    decide (0 ≤ t1) && decide (t1 ≤ int64Max) && decide (0 ≤ t2) &&
      decide (t2 + hours (24 * 30) ≤ int64Max)
  | returnBook _ _ now => decide (0 ≤ now) && decide (now ≤ int64Max)
  | _ => true

end Op

/-- A reading of the clock in the last second before the largest time point. -/
def lateClock : Int := 9223372036000000000

/-- Student 111 borrows item 50 at the reading `lateClock` and returns it half a second
later. -/
def overflowScenario : List Op :=
  [Op.addBook 50 "Title" "Author" "Publisher" 2020 "ISBN-50",
   Op.addUser UserClass.Student 111 "S" "test123" "CS",
   Op.borrowBook 111 50 lateClock lateClock,
   Op.returnBook 111 50 (lateClock + 500000000)]

/-! ## Facts about the map operations -/

namespace UMap

variable {α : Type}

theorem find_cons (k' : Int) (v : α) (m : List (Int × α)) (k : Int) :
    find ((k', v) :: m) k = if k = k' then some v else find m k := by
  unfold find
  rw [List.lookup_cons]
  by_cases h : k = k'
  · simp [h]
  · have hb : (k == k') = false := by simpa using h
    simp [h, hb]

theorem find_update (m : List (Int × α)) (k : Int) (v : α) (k' : Int) :
    find (update m k v) k' = if k' = k then (find m k).map (fun _ => v) else find m k' := by
  induction m with
  | nil => simp [update, find]
  | cons p m ih =>
    obtain ⟨k0, v0⟩ := p
    by_cases h0 : k0 = k
    · subst h0
      by_cases h1 : k' = k0
      · simp [update, find_cons, h1]
      · simp [update, find_cons, h1]
    · have hb : (k0 == k) = false := by simpa using h0
      have h0' : ¬ k = k0 := fun e => h0 e.symm
      by_cases h1 : k' = k
      · subst h1
        simp [update, hb, find_cons, h0', ih]
      · by_cases h2 : k' = k0
        · subst h2
          simp [update, hb, find_cons, h0]
        · simp [update, hb, find_cons, h1, h2, ih]

theorem find_erase (m : List (Int × α)) (k k' : Int) :
    find (erase m k) k' = if k' = k then none else find m k' := by
  induction m with
  | nil => simp [erase, find]
  | cons p m ih =>
    obtain ⟨k0, v0⟩ := p
    have ih' : find (List.filter (fun p => !(p.1 == k)) m) k' =
        if k' = k then none else find m k' := ih
    by_cases h0 : k0 = k
    · subst h0
      by_cases h1 : k' = k0
      · subst h1
        simpa [erase] using ih'
      · simp [erase, find_cons, h1, ih']
    · have hb : (k0 == k) = false := by simpa using h0
      by_cases h1 : k' = k
      · subst h1
        have h0' : ¬ k' = k0 := fun e => h0 e.symm
        simp [erase, List.filter_cons, hb, find_cons, h0', ih']
      · by_cases h2 : k' = k0
        · subst h2
          simp [erase, List.filter_cons, hb, find_cons, h0]
        · simp [erase, List.filter_cons, hb, find_cons, h1, h2, ih']

theorem find_append_single (m : List (Int × α)) (k : Int) (v : α) (k' : Int) :
    find (m ++ [(k, v)]) k' =
      match find m k' with
      | some x => some x
      | none => if k' = k then some v else none := by
  induction m with
  | nil =>
    rw [List.nil_append, find_cons]
    rfl
  | cons p m ih =>
    obtain ⟨k0, v0⟩ := p
    by_cases h2 : k' = k0
    · simp [find_cons, h2]
    · simp only [List.cons_append, find_cons, h2, if_false]
      exact ih

theorem find_assign (m : List (Int × α)) (k : Int) (v : α) (k' : Int) :
    find (assign m k v) k' = if k' = k then some v else find m k' := by
  unfold assign
  cases h : find m k with
  | some x =>
    simp only [find_update, h]
    by_cases h1 : k' = k <;> simp [h1]
  | none =>
    simp only [find_append_single]
    by_cases h1 : k' = k
    · subst h1
      simp [h]
    · cases h2 : find m k' <;> simp [h1]

theorem index_eq_self {m : List (Int × α)} {k : Int} {x : α} (h : find m k = some x) (d : α) :
    index m k d = m := by
  simp [index, h]

theorem find_index (m : List (Int × α)) (k : Int) (d : α) (k' : Int) :
    find (index m k d) k' = if k' = k then some ((find m k).getD d) else find m k' := by
  unfold index
  cases h : find m k with
  | some x =>
    by_cases h1 : k' = k
    · subst h1
      simp [h]
    · simp [h1]
  | none =>
    simp only [find_append_single]
    by_cases h1 : k' = k
    · subst h1
      simp [h]
    · cases h2 : find m k' <;> simp [h1]

theorem update_eq_self {m : List (Int × α)} {k : Int} {v : α} (h : find m k = some v) :
    update m k v = m := by
  induction m with
  | nil => rfl
  | cons p m ih =>
    obtain ⟨k0, v0⟩ := p
    by_cases h0 : k0 = k
    · subst h0
      simp [find_cons] at h
      simp [update, h]
    · have hb : (k0 == k) = false := by simpa using h0
      have h0' : ¬ k = k0 := fun e => h0 e.symm
      simp [find_cons, h0'] at h
      simp [update, hb, ih h]

end UMap

/-! ## The operations, case by case -/

namespace Library

theorem borrowBook_eval {lib : Library} {userID bookID : Int} {user : User} {book : Book}
    {account : Account} (t1 t2 : Int)
    (hu : UMap.find lib.users userID = some user)
    (hb : UMap.find lib.books bookID = some book)
    (ha : UMap.find lib.accounts userID = some (some account)) :
    lib.borrowBook userID bookID t1 t2 =
      if user.canBorrow = false then some (false, lib)
      else if book.available = false then some (false, lib)
      else if account.currentBorrows.length ≥ user.getMaxBooks then some (false, lib)
      else if account.currentBorrows.any (fun borrow => borrow.bookID == bookID) = true then
        some (false, lib)
      else if account.totalFine > 0 then some (false, lib)
      else some (true, { lib with
        books := UMap.update lib.books bookID (book.setAvailable false)
        accounts := UMap.update lib.accounts userID (some (account.addBorrow bookID t1 t2)) }) := by
  unfold borrowBook
  simp only [hu, hb, UMap.index_eq_self ha, ha, Book.isAvailable, Account.getCurrentBorrows,
    Account.getTotalFine]
  cases hc : user.canBorrow <;> cases hv : book.available <;> simp

theorem returnBook_eval {lib : Library} {userID bookID : Int} {user : User} {book : Book}
    {account : Account} (now : Int)
    (hu : UMap.find lib.users userID = some user)
    (hb : UMap.find lib.books bookID = some book)
    (ha : UMap.find lib.accounts userID = some (some account)) :
    lib.returnBook userID bookID now =
      if account.currentBorrows.any (fun borrow => borrow.bookID == bookID) = true then
        (true, { lib with
          books := UMap.update lib.books bookID (releaseBook book)
          accounts := UMap.update lib.accounts userID
            (some ((chargeOverdue account user bookID now).removeBorrow bookID)) })
      else (false, lib) := by
  unfold returnBook
  simp only [hu, hb, UMap.index_eq_self ha, ha, Account.getCurrentBorrows]
  cases hc : account.currentBorrows.any (fun borrow => borrow.bookID == bookID) <;> simp

end Library

/-! ## Facts about the account and book steps of `returnBook` -/

namespace Library

theorem chargeOverdue_currentBorrows (account : Account) (user : User) (bookID now : Int) :
    (chargeOverdue account user bookID now).currentBorrows = account.currentBorrows := by
  unfold chargeOverdue
  split <;> rfl

theorem chargeOverdue_borrowHistory (account : Account) (user : User) (bookID now : Int) :
    (chargeOverdue account user bookID now).borrowHistory = account.borrowHistory := by
  unfold chargeOverdue
  split <;> rfl

/-- When the book has a single active record, the fine loop looks at that record only. -/
theorem chargeOverdue_of_unique {account : Account} (user : User) {bookID : Int} (now : Int)
    {r : BorrowRecord}
    (hr : account.currentBorrows.filter (fun borrow => borrow.bookID == bookID) = [r]) :
    chargeOverdue account user bookID now =
      if now > r.dueDate then
        account.addFine ((durationCastHours (now - r.dueDate) : ℚ) * user.getFineRate)
      else account := by
  unfold chargeOverdue
  have hfind : account.getCurrentBorrows.find?
      (fun borrow => borrow.bookID == bookID && decide (now > borrow.dueDate)) =
      [r].find? (fun borrow => decide (now > borrow.dueDate)) := by
    rw [← hr, List.find?_filter]
    unfold Account.getCurrentBorrows
    congr 1
    funext a
    by_cases h1 : a.bookID = bookID <;> by_cases h2 : now > a.dueDate <;> simp [h1, h2]
  rw [hfind]
  by_cases h : now > r.dueDate
  · simp [List.find?_cons, h]
  · simp [List.find?_cons, h]

/-- The book step of `returnBook` sets the flag and drops the front of the queue: the
popped holder is never enqueued again, because `Book::reserve` refuses an available book. -/
theorem releaseBook_eq (book : Book) :
    releaseBook book =
      { book with available := true, reservationQueue := book.reservationQueue.tail } := by
  unfold releaseBook
  cases hq : book.reservationQueue with
  | nil => simp [Book.isReserved, Book.setAvailable, hq]
  | cons x rest =>
    simp only [Book.isReserved, Book.setAvailable, hq, Book.getNextReservation, Book.reserve,
      Book.isReservedBy]
    cases hx : rest.any (fun y => y == x) <;> simp [hx]

end Library

namespace Library

theorem getAccount_eq_some {lib : Library} {userID : Int} {account : Account} :
    lib.getAccount userID = some account ↔
      UMap.find lib.accounts userID = some (some account) := by
  unfold getAccount
  cases h : UMap.find lib.accounts userID with
  | none => simp
  | some p => simp

theorem removeBorrow_totalFine (account : Account) (bookID : Int) :
    (account.removeBorrow bookID).totalFine = account.totalFine := by
  unfold Account.removeBorrow
  split <;> rfl

/-- On a positive duration the truncating cast to hours is the floor of the quotient by one
hour. -/
theorem durationCastHours_eq_floor {d : Int} (h : 0 < d) :
    durationCastHours d = d / hours 1 := by
  unfold durationCastHours hours
  rw [Int.tdiv_eq_ediv (le_of_lt h) (by decide), one_mul]

/-- A call of `returnBook` that returns true found the user, the book and an account that
lists the book, and produced the state described by `returnBook_eval`. -/
theorem returnBook_true {lib lib' : Library} {userID bookID now : Int}
    (hret : lib.returnBook userID bookID now = (true, lib')) :
    ∃ user book account,
      UMap.find lib.users userID = some user ∧
      UMap.find lib.books bookID = some book ∧
      UMap.find lib.accounts userID = some (some account) ∧
      account.currentBorrows.any (fun borrow => borrow.bookID == bookID) = true ∧
      lib' = { lib with
        books := UMap.update lib.books bookID (releaseBook book)
        accounts := UMap.update lib.accounts userID
          (some ((chargeOverdue account user bookID now).removeBorrow bookID)) } := by
  cases hu : UMap.find lib.users userID with
  | none => simp [returnBook, hu] at hret
  | some user =>
    cases hb : UMap.find lib.books bookID with
    | none => simp [returnBook, hu, hb] at hret
    | some book =>
      cases ha : UMap.find lib.accounts userID with
      | none =>
        have hf : UMap.find (UMap.index lib.accounts userID none) userID = some none := by
          simp [UMap.find_index, ha]
        simp [returnBook, hu, hb, hf] at hret
      | some oa =>
        cases oa with
        | none =>
          simp [returnBook, hu, hb, UMap.index_eq_self ha, ha] at hret
        | some account =>
          rw [returnBook_eval now hu hb ha] at hret
          by_cases hany : account.currentBorrows.any (fun borrow => borrow.bookID == bookID) = true
          · rw [if_pos hany] at hret
            exact ⟨user, book, account, rfl, rfl, rfl, hany, (Prod.mk.inj hret).2.symm⟩
          · rw [if_neg hany] at hret
            simp at hret

end Library

namespace Library

/-- The record that `find_if` returns splits the vector: no earlier record matches, and
`erase` closes the gap. -/
theorem find?_split {α : Type} (p : α → Bool) {l : List α} {r : α} (h : l.find? p = some r) :
    ∃ pre post, l = pre ++ r :: post ∧ (∀ x ∈ pre, p x = false) ∧ p r = true ∧
      l.eraseP p = pre ++ post := by
  induction l with
  | nil => simp at h
  | cons a l ih =>
    cases hp : p a with
    | true =>
      rw [List.find?_cons, hp] at h
      cases Option.some.inj h
      exact ⟨[], l, rfl, by simp, hp, by simp [List.eraseP_cons, hp]⟩
    | false =>
      rw [List.find?_cons, hp] at h
      obtain ⟨pre, post, hl, hpre, hr, he⟩ := ih h
      refine ⟨a :: pre, post, by simp [hl], ?_, hr, ?_⟩
      · intro x hx
        rcases List.mem_cons.mp hx with rfl | hx
        · exact hp
        · exact hpre x hx
      · simp [List.eraseP_cons, hp, he]

theorem removeBorrow_of_find {account : Account} {bookID : Int} {r : BorrowRecord}
    (h : account.currentBorrows.find? (fun record => record.bookID == bookID) = some r) :
    account.removeBorrow bookID =
      { account with
        borrowHistory := account.borrowHistory ++ [r]
        currentBorrows := account.currentBorrows.eraseP (fun record => record.bookID == bookID) } := by
  unfold Account.removeBorrow
  rw [h]

/-- A call of `borrowBook` that returns true passed every check and produced the state
described by `borrowBook_eval`. -/
theorem borrowBook_true {lib lib' : Library} {userID bookID t1 t2 : Int}
    (hbor : lib.borrowBook userID bookID t1 t2 = some (true, lib')) :
    ∃ user book account,
      UMap.find lib.users userID = some user ∧
      UMap.find lib.books bookID = some book ∧
      UMap.find lib.accounts userID = some (some account) ∧
      user.canBorrow = true ∧ book.available = true ∧
      account.currentBorrows.length < user.getMaxBooks ∧
      account.currentBorrows.any (fun borrow => borrow.bookID == bookID) = false ∧
      account.totalFine ≤ 0 ∧
      lib' = { lib with
        books := UMap.update lib.books bookID (book.setAvailable false)
        accounts := UMap.update lib.accounts userID (some (account.addBorrow bookID t1 t2)) } := by
  cases hu : UMap.find lib.users userID with
  | none => simp [borrowBook, hu] at hbor
  | some user =>
    cases hb : UMap.find lib.books bookID with
    | none => simp [borrowBook, hu, hb] at hbor
    | some book =>
      cases hc : user.canBorrow with
      | false => simp [borrowBook, hu, hb, hc] at hbor
      | true =>
        cases hv : book.available with
        | false => simp [borrowBook, hu, hb, hc, hv, Book.isAvailable] at hbor
        | true =>
          cases ha : UMap.find lib.accounts userID with
          | none =>
            have hf : UMap.find (UMap.index lib.accounts userID none) userID = some none := by
              simp [UMap.find_index, ha]
            simp [borrowBook, hu, hb, hc, hv, Book.isAvailable, hf] at hbor
          | some oa =>
            cases oa with
            | none =>
              simp [borrowBook, hu, hb, hc, hv, Book.isAvailable, UMap.index_eq_self ha, ha] at hbor
            | some account =>
              rw [borrowBook_eval t1 t2 hu hb ha] at hbor
              simp only [hc, hv, Bool.true_eq_false, if_false] at hbor
              split_ifs at hbor with h1 h2 h3
              · simp at hbor
              · simp at hbor
              · simp at hbor
              · refine ⟨user, book, account, rfl, rfl, rfl, hc, hv, by omega, by simpa using h2,
                  le_of_not_lt h3, ?_⟩
                exact (Prod.mk.inj (Option.some.inj hbor)).2.symm

/-- A call of `borrowBook` that returns false leaves the library as it was. -/
theorem borrowBook_false {lib lib' : Library} {userID bookID t1 t2 : Int}
    (hbor : lib.borrowBook userID bookID t1 t2 = some (false, lib')) : lib' = lib := by
  cases hu : UMap.find lib.users userID with
  | none =>
    simp [borrowBook, hu] at hbor
    exact hbor.symm
  | some user =>
    cases hb : UMap.find lib.books bookID with
    | none =>
      simp [borrowBook, hu, hb] at hbor
      exact hbor.symm
    | some book =>
      cases hc : user.canBorrow with
      | false =>
        simp [borrowBook, hu, hb, hc] at hbor
        exact hbor.symm
      | true =>
        cases hv : book.available with
        | false =>
          simp [borrowBook, hu, hb, hc, hv, Book.isAvailable] at hbor
          exact hbor.symm
        | true =>
          cases ha : UMap.find lib.accounts userID with
          | none =>
            have hf : UMap.find (UMap.index lib.accounts userID none) userID = some none := by
              simp [UMap.find_index, ha]
            simp [borrowBook, hu, hb, hc, hv, Book.isAvailable, hf] at hbor
          | some oa =>
            cases oa with
            | none =>
              simp [borrowBook, hu, hb, hc, hv, Book.isAvailable, UMap.index_eq_self ha, ha] at hbor
            | some account =>
              rw [borrowBook_eval t1 t2 hu hb ha] at hbor
              simp only [hc, hv, Bool.true_eq_false, if_false] at hbor
              split_ifs at hbor with h1 h2 h3
              · exact (Prod.mk.inj (Option.some.inj hbor)).2.symm
              · exact (Prod.mk.inj (Option.some.inj hbor)).2.symm
              · exact (Prod.mk.inj (Option.some.inj hbor)).2.symm
              · simp at hbor

end Library

/-! ## The effect of one call on the view -/

namespace Library

theorem eraseP_map_bookID (l : List BorrowRecord) (bookID : Int) :
    (l.eraseP (fun record => record.bookID == bookID)).map BorrowRecord.bookID =
      (l.map BorrowRecord.bookID).erase bookID := by
  induction l with
  | nil => rfl
  | cons a l ih =>
    by_cases h : a.bookID = bookID
    · simp [List.eraseP_cons, h]
    · have hb : (a.bookID == bookID) = false := by simpa using h
      simp [List.eraseP_cons, List.erase_cons, hb, ih]

theorem removeBorrow_loanIDs (account : Account) (bookID : Int) :
    (account.removeBorrow bookID).loanIDs = account.loanIDs.erase bookID := by
  unfold Account.removeBorrow Account.loanIDs
  cases h : account.currentBorrows.find? (fun record => record.bookID == bookID) with
  | some r => exact eraseP_map_bookID _ _
  | none =>
    rw [← eraseP_map_bookID, List.eraseP_of_forall_not]
    intro a ha
    exact List.find?_eq_none.mp h a ha

theorem addBorrow_loanIDs (account : Account) (bookID t1 t2 : Int) :
    (account.addBorrow bookID t1 t2).loanIDs = account.loanIDs ++ [bookID] := by
  simp [Account.addBorrow, Account.loanIDs]

theorem chargeOverdue_loanIDs (account : Account) (user : User) (bookID now : Int) :
    (chargeOverdue account user bookID now).loanIDs = account.loanIDs := by
  unfold Account.loanIDs
  rw [chargeOverdue_currentBorrows]

theorem any_bookID_iff (account : Account) (bookID : Int) :
    account.currentBorrows.any (fun borrow => borrow.bookID == bookID) = true ↔
      bookID ∈ account.loanIDs := by
  simp [Account.loanIDs, List.any_eq_true]

/-- A call of `returnBook` that returns false changes neither the catalog nor the directory,
and no account reads differently afterwards. -/
theorem returnBook_false {lib lib' : Library} {userID bookID now : Int}
    (hret : lib.returnBook userID bookID now = (false, lib')) :
    lib'.books = lib.books ∧ lib'.users = lib.users ∧
      ∀ k, lib'.getAccount k = lib.getAccount k := by
  have hsame : ∀ k, ({ lib with accounts := UMap.index lib.accounts userID none } :
      Library).getAccount k = lib.getAccount k := by
    intro k
    unfold getAccount
    simp only [UMap.find_index]
    by_cases hk : k = userID
    · subst hk
      cases h : UMap.find lib.accounts k <;> simp
    · simp [hk]
  cases hu : UMap.find lib.users userID with
  | none =>
    simp [returnBook, hu] at hret
    subst hret
    exact ⟨rfl, rfl, fun _ => rfl⟩
  | some user =>
    cases hb : UMap.find lib.books bookID with
    | none =>
      simp [returnBook, hu, hb] at hret
      subst hret
      exact ⟨rfl, rfl, fun _ => rfl⟩
    | some book =>
      simp only [returnBook, hu, hb] at hret
      split at hret
      · split_ifs at hret
        · cases (Prod.mk.inj hret).2
          exact ⟨rfl, rfl, hsame⟩
        · simp at hret
      · cases (Prod.mk.inj hret).2
        exact ⟨rfl, rfl, hsame⟩

end Library

theorem view_eq_of {lib lib' : Library} (hb : lib'.books = lib.books)
    (hu : lib'.users = lib.users) (ha : ∀ k, lib'.getAccount k = lib.getAccount k) :
    view lib' = view lib := by
  unfold view
  rw [hb, hu]
  congr 1
  funext k
  rw [ha]

theorem reserve_available (book : Book) (userID : Int) :
    (book.reserve userID).2.available = book.available := by
  unfold Book.reserve
  split_ifs <;> rfl

theorem cancelReservation_available (book : Book) (userID : Int) :
    (book.cancelReservation userID).2.available = book.available := by
  unfold Book.cancelReservation
  split_ifs <;> rfl

/-- Replacing a book by one with the same flag does not change the view. -/
theorem view_update_book {lib : Library} {bookID : Int} {book book' : Book}
    (hb : UMap.find lib.books bookID = some book) (hv : book'.available = book.available) :
    view { lib with books := UMap.update lib.books bookID book' } = view lib := by
  unfold view
  congr 1
  funext j
  simp only [UMap.find_update]
  by_cases hj : j = bookID
  · subst hj
    simp [hb, hv]
  · simp [hj]

/-- Replacing an account by one with the same active loans does not change the view. -/
theorem view_update_account {lib : Library} {userID : Int} {account account' : Account}
    (ha : UMap.find lib.accounts userID = some (some account))
    (hl : account'.loanIDs = account.loanIDs) :
    view { lib with accounts := UMap.update lib.accounts userID (some account') } = view lib := by
  unfold view
  congr 1
  funext k
  unfold Library.getAccount
  simp only [UMap.find_update]
  by_cases hk : k = userID
  · subst hk
    simp [ha, hl]
  · simp [hk]

theorem view_addBook (lib : Library) {book : Book} (hv : book.available = true) :
    view { lib with books := UMap.assign lib.books book.bookID book } =
      { view lib with avail := Function.update (view lib).avail book.bookID (some true) } := by
  unfold view
  congr 1
  funext j
  simp only [UMap.find_assign, Function.update_apply]
  by_cases hj : j = book.bookID
  · simp [hj, hv]
  · simp [hj]

theorem view_removeBook (lib : Library) (bookID : Int) :
    view { lib with books := UMap.erase lib.books bookID } =
      { view lib with avail := Function.update (view lib).avail bookID none } := by
  unfold view
  congr 1
  funext j
  simp only [UMap.find_erase, Function.update_apply]
  by_cases hj : j = bookID
  · simp [hj]
  · simp [hj]

theorem view_addUser (lib : Library) (user : User) :
    view { lib with
        accounts := UMap.assign lib.accounts user.userID (some (Account.Account user.userID))
        users := UMap.assign lib.users user.userID user } =
      { view lib with
        limit := Function.update (view lib).limit user.userID (some user.getMaxBooks)
        loans := Function.update (view lib).loans user.userID (some []) } := by
  unfold view
  congr 1
  · funext k
    unfold Library.getAccount
    simp only [UMap.find_assign, Function.update_apply]
    by_cases hk : k = user.userID
    · simp [hk, Account.Account, Account.loanIDs]
    · simp [hk]
  · funext k
    simp only [UMap.find_assign, Function.update_apply]
    by_cases hk : k = user.userID
    · simp [hk]
    · simp [hk]

theorem view_removeUser (lib : Library) (userID : Int) :
    view { lib with
        accounts := UMap.erase lib.accounts userID
        users := UMap.erase lib.users userID } =
      { view lib with
        limit := Function.update (view lib).limit userID none
        loans := Function.update (view lib).loans userID none } := by
  unfold view
  congr 1
  · funext k
    unfold Library.getAccount
    simp only [UMap.find_erase, Function.update_apply]
    by_cases hk : k = userID
    · simp [hk]
    · simp [hk]
  · funext k
    simp only [UMap.find_erase, Function.update_apply]
    by_cases hk : k = userID
    · simp [hk]
    · simp [hk]

/-- The view after replacing a book and an account that are both present. -/
theorem view_update_both {lib : Library} {userID bookID : Int} {book book' : Book}
    {account account' : Account}
    (hb : UMap.find lib.books bookID = some book)
    (ha : UMap.find lib.accounts userID = some (some account)) :
    view { lib with
        books := UMap.update lib.books bookID book'
        accounts := UMap.update lib.accounts userID (some account') } =
      { view lib with
        avail := Function.update (view lib).avail bookID (some book'.available)
        loans := Function.update (view lib).loans userID (some account'.loanIDs) } := by
  unfold view
  congr 1
  · funext j
    simp only [UMap.find_update, Function.update_apply]
    by_cases hj : j = bookID
    · simp [hj, hb]
    · simp [hj]
  · funext k
    unfold Library.getAccount
    simp only [UMap.find_update, Function.update_apply]
    by_cases hk : k = userID
    · simp [hk, ha]
    · simp [hk]

theorem Effect.of_eq {rb ru : Bool} {v w w' : View} (h : Effect rb ru v w) (e : w = w') :
    Effect rb ru v w' := by
  subst e
  exact h

/-- Every call changes the view by one of the effects. -/
theorem step_effect {lib lib' : Library} {op : Op} (h : step lib op = some lib') :
    Effect op.isRemoveBook op.isRemoveUser (view lib) (view lib') := by
  cases op with
  | addBook id title author publisher year isbn =>
    simp only [step, Library.addBook, Book.getBookID] at h
    cases hf : UMap.find lib.books (Book.Book id title author publisher year isbn).bookID with
    | some b =>
      rw [hf] at h
      cases Option.some.inj h
      exact Effect.same _
    | none =>
      rw [hf] at h
      cases Option.some.inj h
      refine (Effect.addBook (view lib) id ?_).of_eq
        (@view_addBook lib (Book.Book id title author publisher year isbn) rfl).symm
      have : UMap.find lib.books id = none := hf
      simp [view, this]
  | removeBook bookID =>
    simp only [step, Library.removeBook] at h
    cases Option.some.inj h
    exact (Effect.removeBook (view lib) bookID rfl).of_eq (view_removeBook lib bookID).symm
  | addUser cls id name password department =>
    simp only [step, Library.addUser, User.getUserID] at h
    cases hf : UMap.find lib.users (makeUser cls id name password department).userID with
    | some u =>
      rw [hf] at h
      cases Option.some.inj h
      exact Effect.same _
    | none =>
      rw [hf] at h
      cases Option.some.inj h
      refine (Effect.addUser (view lib) _ _ ?_).of_eq (view_addUser lib _).symm
      simp [view, hf]
  | removeUser userID =>
    simp only [step, Library.removeUser] at h
    cases Option.some.inj h
    exact (Effect.removeUser (view lib) userID rfl).of_eq (view_removeUser lib userID).symm
  | borrowBook userID bookID t1 t2 =>
    simp only [step] at h
    cases hbor : lib.borrowBook userID bookID t1 t2 with
    | none => simp [hbor] at h
    | some res =>
      obtain ⟨b, lib1⟩ := res
      rw [hbor] at h
      cases Option.some.inj h
      cases b with
      | false =>
        rw [Library.borrowBook_false hbor]
        exact Effect.same _
      | true =>
        obtain ⟨user, book, account, hu, hb, ha, -, hv, hlt, hany, -, hlib⟩ :=
          Library.borrowBook_true hbor
        rw [hlib]
        have hni : bookID ∉ account.loanIDs := by
          rw [← Library.any_bookID_iff, hany]
          simp
        refine (Effect.borrow (view lib) userID bookID account.loanIDs user.getMaxBooks ?_ ?_ ?_
          hni ?_).of_eq ?_
        · simp [view, Library.getAccount_eq_some.mpr ha]
        · simp [view, hu]
        · simpa [Account.loanIDs] using hlt
        · simp [view, hb, hv]
        · rw [view_update_both hb ha, Library.addBorrow_loanIDs]
          rfl
  | returnBook userID bookID now =>
    simp only [step] at h
    cases hret : lib.returnBook userID bookID now with
    | mk b lib1 =>
      rw [hret] at h
      cases Option.some.inj h
      cases b with
      | false =>
        obtain ⟨h1, h2, h3⟩ := Library.returnBook_false hret
        rw [view_eq_of h1 h2 h3]
        exact Effect.same _
      | true =>
        obtain ⟨user, book, account, hu, hb, ha, hany, hlib⟩ := Library.returnBook_true hret
        rw [hlib]
        refine (Effect.giveBack (view lib) userID bookID account.loanIDs ?_
          ((Library.any_bookID_iff _ _).mp hany) ?_).of_eq ?_
        · simp [view, Library.getAccount_eq_some.mpr ha]
        · simp [view, hb]
        · rw [view_update_both hb ha, Library.removeBorrow_loanIDs, Library.chargeOverdue_loanIDs,
            Library.releaseBook_eq]
  | reserveBook userID bookID =>
    simp only [step, Library.reserveBook] at h
    cases hb : UMap.find lib.books bookID with
    | none =>
      rw [hb] at h
      cases Option.some.inj h
      exact Effect.same _
    | some book =>
      rw [hb] at h
      cases Option.some.inj h
      rw [view_update_book hb (reserve_available book userID)]
      exact Effect.same _
  | cancelReservation userID bookID =>
    simp only [step, Library.cancelReservation] at h
    cases hb : UMap.find lib.books bookID with
    | none =>
      rw [hb] at h
      cases Option.some.inj h
      exact Effect.same _
    | some book =>
      rw [hb] at h
      cases Option.some.inj h
      rw [view_update_book hb (cancelReservation_available book userID)]
      exact Effect.same _
  | payFine userID amount =>
    simp only [step, Library.payFine] at h
    cases ha : UMap.find lib.accounts userID with
    | none =>
      rw [ha] at h
      cases Option.some.inj h
      exact Effect.same _
    | some oa =>
      cases oa with
      | none =>
        rw [ha] at h
        simp at h
      | some account =>
        rw [ha] at h
        cases Option.some.inj h
        exact (Effect.same _).of_eq
          (@view_update_account lib userID account (account.payFine amount) ha rfl).symm

/-! ## The invariants are kept by every effect -/

theorem Effect.withinLimit {rb ru : Bool} {v w : View} (e : Effect rb ru v w)
    (hv : v.WithinLimit) : w.WithinLimit := by
  cases e with
  | same => exact hv
  | addBook i h => exact hv
  | removeBook i h => exact hv
  | addUser k0 m0 h =>
    intro k l hl
    simp only [Function.update_apply] at hl ⊢
    split_ifs at hl ⊢ with hk
    · cases Option.some.inj hl
      exact ⟨List.nodup_nil, fun m _ => Nat.zero_le _⟩
    · exact hv k l hl
  | removeUser k0 h =>
    intro k l hl
    simp only [Function.update_apply] at hl ⊢
    split_ifs at hl ⊢ with hk
    exact hv k l hl
  | borrow k0 i0 l0 m0 hl0 hm0 hlt hni hav =>
    intro k l hl
    simp only [Function.update_apply] at hl
    split_ifs at hl with hk
    · cases Option.some.inj hl
      subst hk
      refine ⟨?_, ?_⟩
      · exact List.Nodup.append (hv k l0 hl0).1 (List.nodup_singleton _)
          (by simpa using hni)
      · intro m hm
        have hm' : v.limit k = some m := hm
        rw [hm0] at hm'
        cases Option.some.inj hm'
        simp
        omega
    · exact hv k l hl
  | giveBack k0 i0 l0 hl0 hi hav =>
    intro k l hl
    simp only [Function.update_apply] at hl
    split_ifs at hl with hk
    · cases Option.some.inj hl
      subst hk
      refine ⟨(hv k l0 hl0).1.erase _, ?_⟩
      intro m hm
      have h1 := (hv k l0 hl0).2 m hm
      have h2 := List.length_erase_of_mem hi
      omega
    · exact hv k l hl

theorem Effect.exclusive {ru : Bool} {v w : View} (e : Effect false ru v w)
    (hv : v.Exclusive) : w.Exclusive := by
  obtain ⟨hN, hR, hX⟩ := hv
  cases e with
  | same => exact ⟨hN, hR, hX⟩
  | addBook i0 h =>
    refine ⟨hN, ?_, hX⟩
    intro k l i hl hi
    have hold := hR k l i hl hi
    have hne : i ≠ i0 := by
      rintro rfl
      rw [h] at hold
      cases hold
    simp [Function.update_apply, hne, hold]
  | removeBook i h => cases h
  | addUser k0 m0 h =>
    refine ⟨?_, ?_, ?_⟩
    · intro k l hl
      simp only [Function.update_apply] at hl
      split_ifs at hl with hk
      · cases Option.some.inj hl
        exact List.nodup_nil
      · exact hN k l hl
    · intro k l i hl hi
      simp only [Function.update_apply] at hl
      split_ifs at hl with hk
      · cases Option.some.inj hl
        cases hi
      · exact hR k l i hl hi
    · intro k k' l l' i hl hl' hi hi'
      simp only [Function.update_apply] at hl hl'
      by_cases hk : k = k0 <;> by_cases hk' : k' = k0
      · rw [hk, hk']
      · rw [if_pos hk] at hl
        cases Option.some.inj hl
        cases hi
      · rw [if_pos hk'] at hl'
        cases Option.some.inj hl'
        cases hi'
      · rw [if_neg hk] at hl
        rw [if_neg hk'] at hl'
        exact hX k k' l l' i hl hl' hi hi'
  | removeUser k0 h =>
    refine ⟨?_, ?_, ?_⟩
    · intro k l hl
      simp only [Function.update_apply] at hl
      split_ifs at hl with hk
      exact hN k l hl
    · intro k l i hl hi
      simp only [Function.update_apply] at hl
      split_ifs at hl with hk
      exact hR k l i hl hi
    · intro k k' l l' i hl hl' hi hi'
      simp only [Function.update_apply] at hl hl'
      by_cases hk : k = k0
      · rw [if_pos hk] at hl
        cases hl
      · by_cases hk' : k' = k0
        · rw [if_pos hk'] at hl'
          cases hl'
        · rw [if_neg hk] at hl
          rw [if_neg hk'] at hl'
          exact hX k k' l l' i hl hl' hi hi'
  | borrow k0 i0 l0 m0 hl0 hm0 hlt hni hav =>
    have hfree : ∀ k l, v.loans k = some l → i0 ∉ l := by
      intro k l hl hi
      have := hR k l i0 hl hi
      rw [hav] at this
      cases this
    refine ⟨?_, ?_, ?_⟩
    · intro k l hl
      simp only [Function.update_apply] at hl
      split_ifs at hl with hk
      · cases Option.some.inj hl
        exact List.Nodup.append (hN k0 l0 hl0) (List.nodup_singleton _) (by simpa using hni)
      · exact hN k l hl
    · intro k l i hl hi
      simp only [Function.update_apply] at hl ⊢
      by_cases hi0 : i = i0
      · simp [hi0]
      · rw [if_neg hi0]
        split_ifs at hl with hk
        · cases Option.some.inj hl
          rcases List.mem_append.mp hi with h1 | h1
          · exact hR k0 l0 i hl0 h1
          · exact absurd (List.mem_singleton.mp h1) hi0
        · exact hR k l i hl hi
    · intro k k' l l' i hl hl' hi hi'
      simp only [Function.update_apply] at hl hl'
      by_cases hk : k = k0 <;> by_cases hk' : k' = k0
      · rw [hk, hk']
      · rw [if_pos hk] at hl
        rw [if_neg hk'] at hl'
        cases Option.some.inj hl
        rw [hk]
        rcases List.mem_append.mp hi with h1 | h1
        · exact hX k0 k' l0 l' i hl0 hl' h1 hi'
        · rw [List.mem_singleton.mp h1] at hi'
          exact absurd hi' (hfree k' l' hl')
      · rw [if_neg hk] at hl
        rw [if_pos hk'] at hl'
        cases Option.some.inj hl'
        rw [hk']
        rcases List.mem_append.mp hi' with h1 | h1
        · exact hX k k0 l l0 i hl hl0 hi h1
        · rw [List.mem_singleton.mp h1] at hi
          exact absurd hi (hfree k l hl)
      · rw [if_neg hk] at hl
        rw [if_neg hk'] at hl'
        exact hX k k' l l' i hl hl' hi hi'
  | giveBack k0 i0 l0 hl0 hi0 hav =>
    have hnd := hN k0 l0 hl0
    refine ⟨?_, ?_, ?_⟩
    · intro k l hl
      simp only [Function.update_apply] at hl
      split_ifs at hl with hk
      · cases Option.some.inj hl
        exact hnd.erase _
      · exact hN k l hl
    · intro k l i hl hi
      simp only [Function.update_apply] at hl ⊢
      split_ifs at hl with hk
      · cases Option.some.inj hl
        have hmem := (List.Nodup.mem_erase_iff hnd).mp hi
        rw [if_neg hmem.1]
        exact hR k0 l0 i hl0 hmem.2
      · have hne : i ≠ i0 := by
          rintro rfl
          exact hk (hX k k0 l l0 i hl hl0 hi hi0)
        rw [if_neg hne]
        exact hR k l i hl hi
    · intro k k' l l' i hl hl' hi hi'
      simp only [Function.update_apply] at hl hl'
      by_cases hk : k = k0 <;> by_cases hk' : k' = k0
      · rw [hk, hk']
      · rw [if_pos hk] at hl
        rw [if_neg hk'] at hl'
        cases Option.some.inj hl
        rw [hk]
        exact hX k0 k' l0 l' i hl0 hl' (List.mem_of_mem_erase hi) hi'
      · rw [if_neg hk] at hl
        rw [if_pos hk'] at hl'
        cases Option.some.inj hl'
        rw [hk']
        exact hX k k0 l l0 i hl hl0 hi (List.mem_of_mem_erase hi')
      · rw [if_neg hk] at hl
        rw [if_neg hk'] at hl'
        exact hX k k' l l' i hl hl' hi hi'

theorem Effect.held {v w : View} (e : Effect false false v w) (hx : v.Exclusive)
    (hv : v.Held) : w.Held := by
  obtain ⟨hF, hA⟩ := hv
  obtain ⟨hN, hR, hX⟩ := hx
  cases e with
  | same => exact ⟨hF, hA⟩
  | addBook i0 h =>
    refine ⟨?_, hA⟩
    intro i hi
    simp only [Function.update_apply] at hi
    by_cases hi0 : i = i0
    · rw [if_pos hi0] at hi
      cases hi
    · rw [if_neg hi0] at hi
      exact hF i hi
  | removeBook i h => cases h
  | removeUser k h => cases h
  | addUser k0 m0 h =>
    have hnone : v.loans k0 = none := by
      cases hl : v.loans k0 with
      | none => rfl
      | some l => exact absurd h (hA k0 l hl)
    refine ⟨?_, ?_⟩
    · intro i hi
      obtain ⟨k, l, hl, hmem⟩ := hF i hi
      have hk : k ≠ k0 := by
        rintro rfl
        rw [hnone] at hl
        cases hl
      exact ⟨k, l, by simp [Function.update_apply, hk, hl], hmem⟩
    · intro k l hl
      simp only [Function.update_apply] at hl ⊢
      by_cases hk : k = k0
      · simp [hk]
      · rw [if_neg hk] at hl ⊢
        exact hA k l hl
  | borrow k0 i0 l0 m0 hl0 hm0 hlt hni hav =>
    refine ⟨?_, ?_⟩
    · intro i hi
      simp only [Function.update_apply] at hi
      by_cases hi0 : i = i0
      · exact ⟨k0, l0 ++ [i0], by simp [Function.update_apply], by simp [hi0]⟩
      · rw [if_neg hi0] at hi
        obtain ⟨k, l, hl, hmem⟩ := hF i hi
        by_cases hk : k = k0
        · subst hk
          rw [hl0] at hl
          cases Option.some.inj hl
          exact ⟨k, l0 ++ [i0], by simp [Function.update_apply], by simp [hmem]⟩
        · exact ⟨k, l, by simp [Function.update_apply, hk, hl], hmem⟩
    · intro k l hl
      simp only [Function.update_apply] at hl
      by_cases hk : k = k0
      · subst hk
        exact hA k l0 hl0
      · rw [if_neg hk] at hl
        exact hA k l hl
  | giveBack k0 i0 l0 hl0 hi0 hav =>
    refine ⟨?_, ?_⟩
    · intro i hi
      simp only [Function.update_apply] at hi
      by_cases hii : i = i0
      · rw [if_pos hii] at hi
        cases hi
      · rw [if_neg hii] at hi
        obtain ⟨k, l, hl, hmem⟩ := hF i hi
        by_cases hk : k = k0
        · subst hk
          rw [hl0] at hl
          cases Option.some.inj hl
          exact ⟨k, l0.erase i0, by simp [Function.update_apply],
            (List.mem_erase_of_ne hii).mpr hmem⟩
        · exact ⟨k, l, by simp [Function.update_apply, hk, hl], hmem⟩
    · intro k l hl
      simp only [Function.update_apply] at hl
      by_cases hk : k = k0
      · subst hk
        exact hA k l0 hl0
      · rw [if_neg hk] at hl
        exact hA k l hl

/-! ## Reachable states -/

/-- A property of the view that holds at the start of a run and is kept by the effect of
every call of the run holds at its end. -/
theorem run_invariant (allowed : Op → Bool) (P : View → Prop)
    (hstep : ∀ lib lib' op, allowed op = true → step lib op = some lib' →
      P (view lib) → P (view lib')) :
    ∀ (ops : List Op) (lib lib' : Library), ops.all allowed = true → P (view lib) →
      run lib ops = some lib' → P (view lib') := by
  intro ops
  induction ops with
  | nil =>
    intro lib lib' _ hP hrun
    cases Option.some.inj hrun
    exact hP
  | cons op ops ih =>
    intro lib lib' hall hP hrun
    simp only [List.all_cons, Bool.and_eq_true] at hall
    simp only [run] at hrun
    cases hs : step lib op with
    | none => simp [hs] at hrun
    | some lib1 =>
      rw [hs] at hrun
      exact ih lib1 lib' hall.2 (hstep lib lib1 op hall.1 hs hP) hrun

/-- Loans stay within the limit in every reachable state. -/
theorem reachable_withinLimit {lib : Library} (h : Reachable lib) : (view lib).WithinLimit := by
  obtain ⟨ops, hall, hrun⟩ := h
  refine run_invariant (fun _ => true) View.WithinLimit ?_ ops Library.empty lib hall ?_ hrun
  · intro l1 l2 op _ hs hP
    exact (step_effect hs).withinLimit hP
  · intro k l hl
    cases hl

/-- Loans stay exclusive as long as no book is removed. -/
theorem reachable_exclusive {lib : Library}
    (h : ReachableBy (fun op => !op.isRemoveBook) lib) : (view lib).Exclusive := by
  obtain ⟨ops, hall, hrun⟩ := h
  refine run_invariant (fun op => !op.isRemoveBook) View.Exclusive ?_ ops Library.empty lib
    hall ?_ hrun
  · intro l1 l2 op hop hs hP
    have e := step_effect hs
    have hrb : op.isRemoveBook = false := by simpa using hop
    rw [hrb] at e
    exact e.exclusive hP
  · exact ⟨fun k l hl => (by cases hl), fun k l i hl => (by cases hl),
      fun k k' l l' i hl => (by cases hl)⟩

/-- Without removals, loans are exclusive and every unavailable item is held. -/
theorem reachable_held {lib : Library}
    (h : ReachableBy (fun op => !op.isRemoveBook && !op.isRemoveUser) lib) :
    (view lib).Exclusive ∧ (view lib).Held := by
  obtain ⟨ops, hall, hrun⟩ := h
  refine run_invariant (fun op => !op.isRemoveBook && !op.isRemoveUser)
    (fun v => v.Exclusive ∧ v.Held) ?_ ops Library.empty lib hall ?_ hrun
  · intro l1 l2 op hop hs hP
    have e := step_effect hs
    simp only [Bool.and_eq_true, Bool.not_eq_true'] at hop
    rw [hop.1, hop.2] at e
    exact ⟨e.exclusive hP.1, e.held hP.1 hP.2⟩
  · exact ⟨⟨fun k l hl => (by cases hl), fun k l i hl => (by cases hl),
      fun k k' l l' i hl => (by cases hl)⟩, fun i hi => (by cases hi),
      fun k l hl => (by cases hl)⟩

theorem view_loans_of_getAccount {lib : Library} {userID : Int} {account : Account}
    (h : lib.getAccount userID = some account) :
    (view lib).loans userID = some account.loanIDs := by
  simp [view, h]

theorem getAccount_of_view_loans {lib : Library} {userID : Int} {l : List Int}
    (h : (view lib).loans userID = some l) :
    ∃ account, lib.getAccount userID = some account ∧ account.loanIDs = l := by
  simpa [view] using h

theorem view_avail_of_find {lib : Library} {bookID : Int} {book : Book}
    (h : UMap.find lib.books bookID = some book) :
    (view lib).avail bookID = some book.available := by
  simp [view, h]

theorem exclusive_of_view {lib : Library} (h : (view lib).Exclusive) : lib.LoansExclusive := by
  rintro u1 u2 i ⟨a1, h1, m1⟩ ⟨a2, h2, m2⟩
  exact h.2.2 u1 u2 _ _ i (view_loans_of_getAccount h1) (view_loans_of_getAccount h2) m1 m2

theorem matches_of_view {lib : Library} (hx : (view lib).Exclusive) (hh : (view lib).Held) :
    lib.AvailabilityMatchesLoans := by
  intro i book hb
  have hav := view_avail_of_find hb
  constructor
  · intro hfalse
    rw [hfalse] at hav
    obtain ⟨k, l, hl, hmem⟩ := hh.1 i hav
    obtain ⟨account, ha, rfl⟩ := getAccount_of_view_loans hl
    refine ⟨k, ⟨account, ha, hmem⟩, ?_⟩
    intro k' hk'
    exact exclusive_of_view hx k' k i hk' ⟨account, ha, hmem⟩
  · rintro ⟨k, ⟨account, ha, hmem⟩, -⟩
    have := hx.2.1 k _ i (view_loans_of_getAccount ha) hmem
    rw [hav] at this
    exact Option.some.inj this

theorem withinLimit_of_view {lib : Library} (h : (view lib).WithinLimit) :
    lib.LoansWithinLimit := by
  refine ⟨?_, ?_⟩
  · intro k user account hu ha
    have := (h k _ (view_loans_of_getAccount ha)).2 user.getMaxBooks (by simp [view, hu])
    simpa [Account.loanIDs] using this
  · intro k account ha
    exact (h k _ (view_loans_of_getAccount ha)).1

/-! ## C1 – C3: reservation priority and loan term -/

/-- C1 (defect of the code): after item 7 was lent to holder 1, reserved by holders 2 and 4
and returned, it is marked available with holder 4 at the head of its reservation queue;
holder 3, who is not the head, exists, may borrow, has no loan and no fine, and
`borrowBook 3 7` nevertheless returns true and lends the item to holder 3. -/
theorem borrowBook_ignores_reservation_head :
    ∃ lib lib1 : Library,
      run Library.empty reservedScenario = some lib ∧
      (UMap.find lib.books 7).map (fun b => (b.available, b.reservationQueue)) =
        some (true, [4]) ∧
      (UMap.find lib.books 7).map (fun b => b.isAvailableFor 3) = some false ∧
      (UMap.find lib.users 3).map User.canBorrow = some true ∧
      (lib.getAccount 3).map (fun a => (a.currentBorrows, a.totalFine)) = some ([], 0) ∧
      lib.borrowBook 3 7 (hours 48) (hours 48) = some (true, lib1) ∧
      lib1 ≠ lib ∧
      (lib1.getAccount 3).map (fun a => a.currentBorrows.map BorrowRecord.bookID) = some [7] := by
  refine ⟨_, _, rfl, ?_, ?_, ?_, ?_, rfl, ?_, ?_⟩ <;> decide

/-- C2 (defect of the code): holder 1 has item 7 on loan and holder 2 is the only holder in
its reservation queue; `returnBook 1 7` succeeds and leaves the item available, but with an
empty reservation queue: holder 2 has lost the reservation and holder 3 is served as well
as holder 2. -/
theorem returnBook_drops_reservation_head :
    ∃ lib : Library,
      run Library.empty lentReservedScenario = some lib ∧
      (lib.getAccount 1).map (fun a => a.currentBorrows.map BorrowRecord.bookID) = some [7] ∧
      (UMap.find lib.books 7).map Book.reservationQueue = some [2] ∧
      (lib.returnBook 1 7 (hours 24)).1 = true ∧
      (UMap.find (lib.returnBook 1 7 (hours 24)).2.books 7).map
          (fun b => (b.available, b.reservationQueue, b.isAvailableFor 2, b.isAvailableFor 3)) =
        some (true, [], true, true) := by
  refine ⟨_, rfl, ?_, ?_, ?_, ?_⟩ <;> decide

/-- C3 (defect of the code): Student 111, whose `getMaxDays` is 15, borrows item 50 at time
`t`; the loan record starts at `t` and is due at `t` + 30 days, not `t` + 15 days, and
returning the item at `t` + 20 days succeeds without adding any fine. -/
theorem borrowBook_student_due_after_thirty_days (t : Int) :
    run Library.empty (studentScenario t) = some (studentLoanState t) ∧
    (UMap.find (studentLoanState t).users 111).map User.getMaxDays = some 15 ∧
    ((studentLoanState t).getAccount 111).map Account.currentBorrows =
      some [{ bookID := 50, borrowDate := t, dueDate := t + hours (24 * 30) }] ∧
    t + hours (24 * 30) ≠ t + hours (24 * 15) ∧
    ((studentLoanState t).returnBook 111 50 (t + hours (24 * 20))).1 = true ∧
    (((studentLoanState t).returnBook 111 50 (t + hours (24 * 20))).2.getAccount 111).map
        Account.totalFine = some 0 := by
  have hh : hours (24 * 30) ≠ hours (24 * 15) := by decide
  have hlt : ¬ (t + hours (24 * 20) > t + hours (24 * 30)) := by
    have : hours (24 * 20) ≤ hours (24 * 30) := by decide
    omega
  have hret := @Library.returnBook_eval (studentLoanState t) 111 50 _ _ _
    (t + hours (24 * 20)) rfl rfl rfl
  rw [if_pos (by simp), Library.chargeOverdue_of_unique _ _ (r := ⟨50, t, t + hours (24 * 30)⟩)
    (by simp), if_neg hlt] at hret
  refine ⟨rfl, rfl, rfl, fun h => hh (by omega), ?_, ?_⟩
  · rw [hret]
  · rw [hret]
    rfl

/-! ## C4: the overdue fine -/

/-- C5 as stated fails: after holder 1 borrowed item 1 and was removed, the item is
unavailable and no account lists it; after item 1, on loan to holder 1, was removed and
added again, the item is available although exactly one account lists it. -/
theorem availability_matches_loans_counterexample :
    (∃ lib, Reachable lib ∧ run Library.empty orphanLoanScenario = some lib ∧
      (UMap.find lib.books 1).map Book.available = some false ∧
      ¬ lib.exactlyOneHolder 1 ∧ ¬ lib.AvailabilityMatchesLoans) ∧
    (∃ lib, Reachable lib ∧ run Library.empty reAddedBookScenario = some lib ∧
      (UMap.find lib.books 1).map Book.available = some true ∧
      lib.exactlyOneHolder 1 ∧ ¬ lib.AvailabilityMatchesLoans) := by
  have h1 : ∀ lib, run Library.empty orphanLoanScenario = some lib →
      ¬ lib.exactlyOneHolder 1 := by
    intro lib hlib
    cases Option.some.inj hlib
    rintro ⟨k, ⟨account, ha, -⟩, -⟩
    cases ha
  have h2 : ∀ lib, run Library.empty reAddedBookScenario = some lib →
      lib.exactlyOneHolder 1 := by
    intro lib hlib
    cases Option.some.inj hlib
    refine ⟨1, ⟨_, rfl, by decide⟩, ?_⟩
    rintro k ⟨account, ha, -⟩
    by_contra hk
    rw [Library.getAccount_eq_some] at ha
    have hnone : UMap.find [((1 : Int), some (Account.addBorrow (Account.Account 1) 1 0 0))] k
        = none := by
      rw [UMap.find_cons, if_neg hk]
      rfl
    have ha' : UMap.find [((1 : Int), some (Account.addBorrow (Account.Account 1) 1 0 0))] k =
        some (some account) := ha
    rw [hnone] at ha'
    cases ha'
  constructor
  · refine ⟨_, ⟨orphanLoanScenario, rfl, rfl⟩, rfl, by decide, h1 _ rfl, ?_⟩
    intro hm
    exact h1 _ rfl ((hm 1 _ rfl).mp (by decide))
  · refine ⟨_, ⟨reAddedBookScenario, rfl, rfl⟩, rfl, by decide, h2 _ rfl, ?_⟩
    intro hm
    have := (hm 1 _ rfl).mpr (h2 _ rfl)
    revert this
    decide

/-- C5 (amended): in every state reachable from the empty library by calls of `addBook`,
`addUser`, `borrowBook`, `returnBook`, `reserveBook`, `cancelReservation` and `payFine`
(no `removeBook`, no `removeUser`), every item of the catalog is unavailable if and only
if exactly one account lists it among its active loans. -/
theorem availability_matches_loans (lib : Library)
    (h : ReachableBy (fun op => !op.isRemoveBook && !op.isRemoveUser) lib) :
    lib.AvailabilityMatchesLoans := by
  obtain ⟨hx, hh⟩ := reachable_held h
  exact matches_of_view hx hh

/-- C5 (amended) at a concrete state: the state after Student 111 borrowed item 50. -/
theorem availability_matches_loans_witness :
    ReachableBy (fun op => !op.isRemoveBook && !op.isRemoveUser) (studentLoanState 0) ∧
    (studentLoanState 0).AvailabilityMatchesLoans :=
  ⟨⟨studentScenario 0, rfl, rfl⟩,
    availability_matches_loans (studentLoanState 0) ⟨studentScenario 0, rfl, rfl⟩⟩

/-- C6 as stated fails: item 1 is lent to holder 1, removed from the catalog, added again
and lent to holder 2; the accounts of holders 1 and 2 then both list item 1. -/
theorem loans_exclusive_counterexample :
    ∃ lib, Reachable lib ∧ run Library.empty doubleLoanScenario = some lib ∧
      lib.holdsActive 1 1 ∧ lib.holdsActive 2 1 ∧ ¬ lib.LoansExclusive := by
  have h1 : ∀ lib, run Library.empty doubleLoanScenario = some lib → lib.holdsActive 1 1 := by
    intro lib hlib
    cases Option.some.inj hlib
    exact ⟨_, rfl, by decide⟩
  have h2 : ∀ lib, run Library.empty doubleLoanScenario = some lib → lib.holdsActive 2 1 := by
    intro lib hlib
    cases Option.some.inj hlib
    exact ⟨_, rfl, by decide⟩
  refine ⟨_, ⟨doubleLoanScenario, rfl, rfl⟩, rfl, h1 _ rfl, h2 _ rfl, ?_⟩
  intro hx
  have := hx 1 2 1 (h1 _ rfl) (h2 _ rfl)
  revert this
  decide

/-- C6 (amended): in every state reachable from the empty library by calls of `addBook`,
`addUser`, `removeUser`, `borrowBook`, `returnBook`, `reserveBook`, `cancelReservation` and
`payFine` (no `removeBook`), no item id is in the active loans of two different accounts. -/
theorem loans_exclusive (lib : Library)
    (h : ReachableBy (fun op => !op.isRemoveBook) lib) : lib.LoansExclusive :=
  exclusive_of_view (reachable_exclusive h)

/-- C6 (amended) at a concrete state: the state after holder 1 borrowed item 1 and was
removed from the directory. -/
theorem loans_exclusive_witness :
    ∃ lib, run Library.empty orphanLoanScenario = some lib ∧
      ReachableBy (fun op => !op.isRemoveBook) lib ∧ lib.LoansExclusive :=
  ⟨_, rfl, ⟨orphanLoanScenario, rfl, rfl⟩, loans_exclusive _ ⟨orphanLoanScenario, rfl, rfl⟩⟩

/-- C7: in every state reachable from the empty library by any sequence of calls, every
holder with an account has at most `getMaxBooks` active loans (3 for a Student, 5 for
Faculty, 0 for a Librarian), and no account has two active records of the same item. -/
theorem loans_within_limit (lib : Library) (h : Reachable lib) :
    lib.LoansWithinLimit ∧
    (∀ userID user account, UMap.find lib.users userID = some user →
      lib.getAccount userID = some account →
      (user.cls = UserClass.Student → account.currentBorrows.length ≤ 3) ∧
      (user.cls = UserClass.Faculty → account.currentBorrows.length ≤ 5) ∧
      (user.cls = UserClass.Librarian → account.currentBorrows.length = 0)) := by
  have hw := withinLimit_of_view (reachable_withinLimit h)
  refine ⟨hw, ?_⟩
  intro k user account hu ha
  have hle := hw.1 k user account hu ha
  refine ⟨?_, ?_, ?_⟩
  · intro hc
    simpa [User.getMaxBooks, hc] using hle
  · intro hc
    simpa [User.getMaxBooks, hc] using hle
  · intro hc
    have h0 : user.getMaxBooks = 0 := by simp [User.getMaxBooks, hc]
    omega

/-- C7 at a concrete state: the state after Student 111 borrowed item 50. -/
theorem loans_within_limit_witness :
    Reachable (studentLoanState 0) ∧ (studentLoanState 0).LoansWithinLimit :=
  ⟨⟨studentScenario 0, rfl, rfl⟩,
    (loans_within_limit (studentLoanState 0) ⟨studentScenario 0, rfl, rfl⟩).1⟩

/-! ## C8 – C10: the contracts of `borrowBook` and `returnBook` -/

/-- C8: in a state where every holder has an account, `borrowBook` returns false and leaves
the whole library (catalog, directory, ledger) unchanged when the holder or the item is
absent, the holder's role cannot borrow, the item is not available, the holder's active loans
have reached `getMaxBooks`, the holder already has the item, or the holder's fine balance is
greater than zero. -/
theorem borrowBook_rejects (lib : Library) (userID bookID t1 t2 : Int)
    (hacc : ∀ u user, UMap.find lib.users u = some user →
      ∃ a, UMap.find lib.accounts u = some (some a))
    (hcond :
      UMap.find lib.users userID = none ∨
      UMap.find lib.books bookID = none ∨
      (∃ user, UMap.find lib.users userID = some user ∧ user.canBorrow = false) ∨
      (∃ book, UMap.find lib.books bookID = some book ∧ book.available = false) ∨
      (∃ user account, UMap.find lib.users userID = some user ∧
        lib.getAccount userID = some account ∧
        account.currentBorrows.length ≥ user.getMaxBooks) ∨
      (∃ account r, lib.getAccount userID = some account ∧
        r ∈ account.currentBorrows ∧ r.bookID = bookID) ∨
      (∃ account, lib.getAccount userID = some account ∧ account.totalFine > 0)) :
    lib.borrowBook userID bookID t1 t2 = some (false, lib) := by
  cases hu : UMap.find lib.users userID with
  | none => simp [Library.borrowBook, hu]
  | some user =>
    cases hb : UMap.find lib.books bookID with
    | none => simp [Library.borrowBook, hu, hb]
    | some book =>
      obtain ⟨account, ha⟩ := hacc userID user hu
      have hga : lib.getAccount userID = some account := Library.getAccount_eq_some.mpr ha
      rw [Library.borrowBook_eval t1 t2 hu hb ha]
      split_ifs with h1 h2 h3 h4 h5
      · rfl
      · rfl
      · rfl
      · rfl
      · rfl
      · exfalso
        rcases hcond with h | h | ⟨user', hu', hc⟩ | ⟨book', hb', hv⟩ | ⟨user', account', hu', ha', hl⟩ |
          ⟨account', r, ha', hr, hri⟩ | ⟨account', ha', hf⟩
        · rw [hu] at h
          cases h
        · rw [hb] at h
          cases h
        · rw [hu] at hu'
          cases Option.some.inj hu'
          exact h1 hc
        · rw [hb] at hb'
          cases Option.some.inj hb'
          exact h2 hv
        · rw [hu] at hu'
          cases Option.some.inj hu'
          rw [hga] at ha'
          cases Option.some.inj ha'
          exact h3 hl
        · rw [hga] at ha'
          cases Option.some.inj ha'
          apply h4
          rw [List.any_eq_true]
          exact ⟨r, hr, by simp [hri]⟩
        · rw [hga] at ha'
          cases Option.some.inj ha'
          exact h5 hf

/-- C8 at a concrete input: item 50 is on loan to Student 111, so a second `borrowBook` of
it is refused and changes nothing. -/
theorem borrowBook_rejects_witness :
    (∃ book, UMap.find (studentLoanState 0).books 50 = some book ∧ book.available = false) ∧
    (studentLoanState 0).borrowBook 111 50 5 5 = some (false, studentLoanState 0) := by
  have hv : ∃ book, UMap.find (studentLoanState 0).books 50 = some book ∧
      book.available = false := ⟨_, rfl, rfl⟩
  refine ⟨hv, borrowBook_rejects (studentLoanState 0) 111 50 5 5 ?_ (Or.inr (Or.inr (Or.inr (Or.inl hv))))⟩
  intro u user h
  by_cases hu : u = 111
  · subst hu
    exact ⟨_, rfl⟩
  · rw [show (studentLoanState 0).users = [(111, makeUser UserClass.Student 111 "S" "test123" "CS")]
      from rfl, UMap.find_cons, if_neg hu] at h
    cases h

/-- C9: when the holder exists with an account and a role that can borrow, the item exists
and is available for the holder (available and not reserved by another holder), the holder
is below the limit, does not hold the item and has a zero fine balance, `borrowBook` returns
true; the item is marked unavailable with its other fields, among them the reservation
queue, unchanged; the holder's active loans are the old ones followed by one new record for
the item, with history and fine balance unchanged; every other item, every other account
and the directory are unchanged. -/
theorem borrowBook_succeeds (lib : Library) (userID bookID t1 t2 : Int) (user : User)
    (book : Book) (account : Account)
    (hu : UMap.find lib.users userID = some user)
    (ha : lib.getAccount userID = some account)
    (hcan : user.canBorrow = true)
    (hb : UMap.find lib.books bookID = some book)
    (havail : book.isAvailableFor userID = true)
    (hlim : account.currentBorrows.length < user.getMaxBooks)
    (hnot : ∀ r ∈ account.currentBorrows, r.bookID ≠ bookID)
    (hfine : account.totalFine = 0) :
    ∃ lib' r,
      lib.borrowBook userID bookID t1 t2 = some (true, lib') ∧
      r.bookID = bookID ∧
      lib'.books = UMap.update lib.books bookID { book with available := false } ∧
      lib'.accounts = UMap.update lib.accounts userID
        (some { account with currentBorrows := account.currentBorrows ++ [r] }) ∧
      lib'.users = lib.users ∧
      UMap.find lib'.books bookID = some { book with available := false } ∧
      (∀ j, j ≠ bookID → UMap.find lib'.books j = UMap.find lib.books j) ∧
      lib'.getAccount userID =
        some { account with currentBorrows := account.currentBorrows ++ [r] } ∧
      (∀ k, k ≠ userID → UMap.find lib'.accounts k = UMap.find lib.accounts k) := by
  have ha' := Library.getAccount_eq_some.mp ha
  have hv : book.available = true := by
    cases hv : book.available with
    | true => rfl
    | false => simp [Book.isAvailableFor, hv] at havail
  have hany : ¬ (account.currentBorrows.any (fun borrow => borrow.bookID == bookID) = true) := by
    rw [List.any_eq_true]
    rintro ⟨r, hr, hri⟩
    exact hnot r hr (by simpa using hri)
  refine ⟨{ lib with
      books := UMap.update lib.books bookID (book.setAvailable false)
      accounts := UMap.update lib.accounts userID (some (account.addBorrow bookID t1 t2)) },
    { bookID := bookID, borrowDate := t1, dueDate := t2 + hours (24 * 30) }, ?_, rfl,
    rfl, rfl, rfl, ?_, ?_, ?_, ?_⟩
  · rw [Library.borrowBook_eval t1 t2 hu hb ha']
    rw [if_neg (by simp [hcan]), if_neg (by simp [hv]), if_neg (by omega), if_neg hany,
      if_neg (by simp [hfine])]
  · simp [UMap.find_update, hb, Book.setAvailable]
  · intro j hj
    simp [UMap.find_update, hj]
  · rw [Library.getAccount_eq_some]
    simp [UMap.find_update, ha', Account.addBorrow]
  · intro k hk
    simp [UMap.find_update, hk]

/-- C9 at a concrete input: Student 111 with an empty account borrows the available,
unreserved item 50. -/
theorem borrowBook_succeeds_witness :
    UMap.find studentReadyState.users 111 =
      some (makeUser UserClass.Student 111 "S" "test123" "CS") ∧
    studentReadyState.getAccount 111 = some (Account.Account 111) ∧
    UMap.find studentReadyState.books 50 =
      some (Book.Book 50 "Title" "Author" "Publisher" 2020 "ISBN-50") ∧
    ∃ lib' r,
      studentReadyState.borrowBook 111 50 7 7 = some (true, lib') ∧
      r.bookID = 50 ∧
      (lib'.getAccount 111).map Account.currentBorrows = some [r] ∧
      (UMap.find lib'.books 50).map Book.available = some false := by
  refine ⟨rfl, rfl, rfl, ?_⟩
  obtain ⟨lib', r, h1, h2, -, -, -, h6, -, h8, -⟩ :=
    borrowBook_succeeds studentReadyState 111 50 7 7
      (makeUser UserClass.Student 111 "S" "test123" "CS")
      (Book.Book 50 "Title" "Author" "Publisher" 2020 "ISBN-50") (Account.Account 111)
      rfl rfl rfl rfl rfl (by decide) (by simp [Account.Account]) rfl
  exact ⟨lib', r, h1, h2, by rw [h8]; rfl, by rw [h6]; rfl⟩

/-- C10: when the holder and the item exist and `r` is the record of the item in the
holder's active loans (the first one that `find_if` meets), `returnBook` returns true;
afterwards the holder's active loans are the old ones with `r` removed and the other records
in their previous order, the history is the old history followed by `r`, the item is marked
available, and a reservation queue that was empty is still empty. -/
theorem returnBook_succeeds (lib : Library) (userID bookID now : Int) (user : User)
    (book : Book) (account : Account) (r : BorrowRecord)
    (hu : UMap.find lib.users userID = some user)
    (hb : UMap.find lib.books bookID = some book)
    (ha : lib.getAccount userID = some account)
    (hr : account.currentBorrows.find? (fun record => record.bookID == bookID) = some r) :
    ∃ lib' account' book' pre post,
      lib.returnBook userID bookID now = (true, lib') ∧
      lib'.getAccount userID = some account' ∧
      r.bookID = bookID ∧
      account.currentBorrows = pre ++ r :: post ∧
      (∀ x ∈ pre, x.bookID ≠ bookID) ∧
      account'.currentBorrows = pre ++ post ∧
      account'.borrowHistory = account.borrowHistory ++ [r] ∧
      UMap.find lib'.books bookID = some book' ∧
      book'.available = true ∧
      (book.reservationQueue = [] → book'.reservationQueue = []) := by
  have ha' := Library.getAccount_eq_some.mp ha
  obtain ⟨pre, post, hsplit, hpre, hrp, herase⟩ := Library.find?_split _ hr
  have hany : account.currentBorrows.any (fun borrow => borrow.bookID == bookID) = true := by
    rw [List.any_eq_true]
    exact ⟨r, by simp [hsplit], hrp⟩
  have hr1 : (Library.chargeOverdue account user bookID now).currentBorrows.find?
      (fun record => record.bookID == bookID) = some r := by
    rw [Library.chargeOverdue_currentBorrows]
    exact hr
  refine ⟨{ lib with
      books := UMap.update lib.books bookID (Library.releaseBook book)
      accounts := UMap.update lib.accounts userID
        (some ((Library.chargeOverdue account user bookID now).removeBorrow bookID)) },
    (Library.chargeOverdue account user bookID now).removeBorrow bookID,
    Library.releaseBook book, pre, post, ?_, ?_, by simpa using hrp, hsplit, ?_, ?_, ?_, ?_, ?_, ?_⟩
  · rw [Library.returnBook_eval now hu hb ha', if_pos hany]
  · rw [Library.getAccount_eq_some]
    simp [UMap.find_update, ha']
  · intro x hx
    simpa using hpre x hx
  · rw [Library.removeBorrow_of_find hr1]
    simp only [Library.chargeOverdue_currentBorrows]
    exact herase
  · rw [Library.removeBorrow_of_find hr1]
    simp only [Library.chargeOverdue_borrowHistory]
  · simp [UMap.find_update, hb]
  · rw [Library.releaseBook_eq]
  · intro hq
    rw [Library.releaseBook_eq]
    simp [hq]

/-- C10 at a concrete input: Student 111 returns item 50, its only active loan; the record
moves to the history and the unreserved item is available again with an empty queue. -/
theorem returnBook_succeeds_witness :
    UMap.find (studentLoanState 0).users 111 =
      some (makeUser UserClass.Student 111 "S" "test123" "CS") ∧
    (∃ book, UMap.find (studentLoanState 0).books 50 = some book ∧ book.reservationQueue = []) ∧
    ∃ lib' account' book',
      (studentLoanState 0).returnBook 111 50 5 = (true, lib') ∧
      lib'.getAccount 111 = some account' ∧
      account'.currentBorrows = [] ∧
      account'.borrowHistory = [{ bookID := 50, borrowDate := 0, dueDate := 0 + hours (24 * 30) }] ∧
      UMap.find lib'.books 50 = some book' ∧
      book'.available = true ∧ book'.reservationQueue = [] := by
  refine ⟨rfl, ⟨_, rfl, rfl⟩, ?_⟩
  obtain ⟨lib', account', book', pre, post, h1, h2, -, h4, -, h6, h7, h8, h9, h10⟩ :=
    returnBook_succeeds (studentLoanState 0) 111 50 5
      (makeUser UserClass.Student 111 "S" "test123" "CS")
      { bookID := 50, title := "Title", author := "Author", publisher := "Publisher",
        year := 2020, ISBN := "ISBN-50", available := false, reservationQueue := [] }
      { userID := 111
        currentBorrows := [{ bookID := 50, borrowDate := 0, dueDate := 0 + hours (24 * 30) }]
        borrowHistory := []
        totalFine := 0 }
      { bookID := 50, borrowDate := 0, dueDate := 0 + hours (24 * 30) }
      rfl rfl rfl rfl
  have hlen : pre.length + (post.length + 1) = 1 := by
    have := congrArg List.length h4
    simpa using this.symm
  have hpre : pre = [] := List.eq_nil_of_length_eq_zero (by omega)
  have hpost : post = [] := List.eq_nil_of_length_eq_zero (by omega)
  refine ⟨lib', account', book', h1, h2, ?_, ?_, h8, h9, h10 rfl⟩
  · rw [h6, hpre, hpost]
    rfl
  · rw [h7]
    rfl

/-! ## Facts about the reservation queue -/

theorem isReservedBy_iff (book : Book) (userID : Int) :
    book.isReservedBy userID = true ↔ userID ∈ book.reservationQueue := by
  simp [Book.isReservedBy, List.any_eq_true]

theorem isReservedBy_false_iff (book : Book) (userID : Int) :
    book.isReservedBy userID = false ↔ userID ∉ book.reservationQueue := by
  rw [← isReservedBy_iff, Bool.not_eq_true]

/-- A successful `Book::reserve` appends the holder and touches nothing else. -/
theorem reserve_true {book : Book} {userID : Int} (h : (book.reserve userID).1 = true) :
    (book.reserve userID).2 =
      { book with reservationQueue := book.reservationQueue ++ [userID] } := by
  unfold Book.reserve at h ⊢
  split_ifs at h ⊢
  rfl

/-- A refused `Book::reserve` leaves the book as it was. -/
theorem reserve_false {book : Book} {userID : Int} (h : (book.reserve userID).1 = false) :
    (book.reserve userID).2 = book := by
  unfold Book.reserve at h ⊢
  split_ifs at h ⊢ <;> rfl

theorem update_twice {α : Type} (m : List (Int × α)) (k : Int) (v w : α) :
    UMap.update (UMap.update m k v) k w = UMap.update m k w := by
  induction m with
  | nil => rfl
  | cons p m ih =>
    obtain ⟨k0, v0⟩ := p
    by_cases h0 : k0 = k
    · subst h0
      simp [UMap.update]
    · have hb : (k0 == k) = false := by simpa using h0
      simp [UMap.update, hb, ih]

/-! ## The effect of one call on the directory and the ledger -/

namespace Library

theorem chargeOverdue_fine_nonneg (account : Account) (user : User) (bookID now : Int)
    (h : 0 ≤ account.totalFine) : 0 ≤ (chargeOverdue account user bookID now).totalFine := by
  unfold chargeOverdue
  split
  · rename_i borrow hfind
    have hp := List.find?_some hfind
    simp only [Bool.and_eq_true, decide_eq_true_eq] at hp
    have hpos : 0 < now - borrow.dueDate := by omega
    have hh : 0 ≤ durationCastHours (now - borrow.dueDate) := by
      rw [durationCastHours_eq_floor hpos]
      exact Int.ediv_nonneg (le_of_lt hpos) (by decide)
    have hrate : 0 ≤ user.getFineRate := by
      unfold User.getFineRate
      cases user.cls <;> simp
    have hhq : (0 : ℚ) ≤ (durationCastHours (now - borrow.dueDate) : ℚ) := by exact_mod_cast hh
    simp only [Account.addFine]
    exact add_nonneg h (mul_nonneg hhq hrate)
  · exact h

end Library

/-- Every call either leaves the directory and the ledger as they are, adds a holder with a
new empty account, removes a holder with the account, rewrites one present account, or
(a refused `returnBook` for a holder without an account) inserts a null entry. -/
theorem step_ledger {lib lib' : Library} {op : Op} (h : step lib op = some lib') :
    (lib'.users = lib.users ∧ lib'.accounts = lib.accounts) ∨
    (∃ user, UMap.find lib.users user.userID = none ∧
      lib'.users = UMap.assign lib.users user.userID user ∧
      lib'.accounts = UMap.assign lib.accounts user.userID
        (some (Account.Account user.userID))) ∨
    (∃ userID, lib'.users = UMap.erase lib.users userID ∧
      lib'.accounts = UMap.erase lib.accounts userID) ∨
    (∃ userID account account', lib'.users = lib.users ∧
      UMap.find lib.accounts userID = some (some account) ∧
      lib'.accounts = UMap.update lib.accounts userID (some account') ∧
      (0 ≤ account.totalFine → 0 ≤ account'.totalFine)) ∨
    (∃ userID, lib'.users = lib.users ∧ UMap.find lib.users userID ≠ none ∧
      (UMap.find lib.accounts userID = none ∨ UMap.find lib.accounts userID = some none) ∧
      lib'.accounts = UMap.index lib.accounts userID none) := by
  cases op with
  | addBook id title author publisher year isbn =>
    simp only [step, Library.addBook] at h
    cases Option.some.inj h
    left
    split <;> exact ⟨rfl, rfl⟩
  | removeBook bookID =>
    simp only [step, Library.removeBook] at h
    cases Option.some.inj h
    exact Or.inl ⟨rfl, rfl⟩
  | addUser cls id name password department =>
    simp only [step, Library.addUser, User.getUserID] at h
    cases hf : UMap.find lib.users (makeUser cls id name password department).userID with
    | some u =>
      rw [hf] at h
      cases Option.some.inj h
      exact Or.inl ⟨rfl, rfl⟩
    | none =>
      rw [hf] at h
      cases Option.some.inj h
      exact Or.inr (Or.inl ⟨makeUser cls id name password department, hf, rfl, rfl⟩)
  | removeUser userID =>
    simp only [step, Library.removeUser] at h
    cases Option.some.inj h
    exact Or.inr (Or.inr (Or.inl ⟨userID, rfl, rfl⟩))
  | borrowBook userID bookID t1 t2 =>
    simp only [step] at h
    cases hbor : lib.borrowBook userID bookID t1 t2 with
    | none => simp [hbor] at h
    | some res =>
      obtain ⟨b, lib1⟩ := res
      rw [hbor] at h
      cases Option.some.inj h
      cases b with
      | false =>
        rw [Library.borrowBook_false hbor]
        exact Or.inl ⟨rfl, rfl⟩
      | true =>
        obtain ⟨user, book, account, -, -, ha, -, -, -, -, -, hlib⟩ :=
          Library.borrowBook_true hbor
        rw [hlib]
        exact Or.inr (Or.inr (Or.inr (Or.inl
          ⟨userID, account, account.addBorrow bookID t1 t2, rfl, ha, rfl, fun hf => hf⟩)))
  | returnBook userID bookID now =>
    simp only [step] at h
    cases hret : lib.returnBook userID bookID now with
    | mk b lib1 =>
      rw [hret] at h
      cases Option.some.inj h
      cases b with
      | true =>
        obtain ⟨user, book, account, -, -, ha, -, hlib⟩ := Library.returnBook_true hret
        rw [hlib]
        refine Or.inr (Or.inr (Or.inr (Or.inl
          ⟨userID, account, (Library.chargeOverdue account user bookID now).removeBorrow bookID,
            rfl, ha, rfl, ?_⟩)))
        intro hf
        rw [Library.removeBorrow_totalFine]
        exact Library.chargeOverdue_fine_nonneg account user bookID now hf
      | false =>
        cases hu : UMap.find lib.users userID with
        | none =>
          simp [Library.returnBook, hu] at hret
          subst hret
          exact Or.inl ⟨rfl, rfl⟩
        | some user =>
          cases hb : UMap.find lib.books bookID with
          | none =>
            simp [Library.returnBook, hu, hb] at hret
            subst hret
            exact Or.inl ⟨rfl, rfl⟩
          | some book =>
            cases ha : UMap.find lib.accounts userID with
            | none =>
              have hf : UMap.find (UMap.index lib.accounts userID none) userID = some none := by
                simp [UMap.find_index, ha]
              simp only [Library.returnBook, hu, hb, hf] at hret
              cases (Prod.mk.inj hret).2
              exact Or.inr (Or.inr (Or.inr (Or.inr
                ⟨userID, rfl, by simp [hu], Or.inl ha, rfl⟩)))
            | some oa =>
              cases oa with
              | none =>
                simp only [Library.returnBook, hu, hb, UMap.index_eq_self ha, ha] at hret
                cases (Prod.mk.inj hret).2
                exact Or.inl ⟨rfl, rfl⟩
              | some account =>
                rw [Library.returnBook_eval now hu hb ha] at hret
                split_ifs at hret
                · simp at hret
                · cases (Prod.mk.inj hret).2
                  exact Or.inl ⟨rfl, rfl⟩
  | reserveBook userID bookID =>
    simp only [step, Library.reserveBook] at h
    cases Option.some.inj h
    left
    split <;> exact ⟨rfl, rfl⟩
  | cancelReservation userID bookID =>
    simp only [step, Library.cancelReservation] at h
    cases Option.some.inj h
    left
    split <;> exact ⟨rfl, rfl⟩
  | payFine userID amount =>
    simp only [step, Library.payFine] at h
    cases ha : UMap.find lib.accounts userID with
    | none =>
      rw [ha] at h
      cases Option.some.inj h
      exact Or.inl ⟨rfl, rfl⟩
    | some oa =>
      cases oa with
      | none =>
        rw [ha] at h
        simp at h
      | some account =>
        rw [ha] at h
        cases Option.some.inj h
        refine Or.inr (Or.inr (Or.inr (Or.inl
          ⟨userID, account, account.payFine amount, rfl, ha, rfl, fun _ => ?_⟩)))
        simp [Account.payFine]

/-- A property of the library that holds at the start of a run and is kept by every call of
the run holds at its end. -/
theorem run_invariant_lib (P : Library → Prop)
    (hstep : ∀ lib lib' op, step lib op = some lib' → P lib → P lib') :
    ∀ (ops : List Op) (lib lib' : Library), P lib → run lib ops = some lib' → P lib' := by
  intro ops
  induction ops with
  | nil =>
    intro lib lib' hP hrun
    cases Option.some.inj hrun
    exact hP
  | cons op ops ih =>
    intro lib lib' hP hrun
    simp only [run] at hrun
    cases hs : step lib op with
    | none => simp [hs] at hrun
    | some lib1 =>
      rw [hs] at hrun
      exact ih lib1 lib' (hstep lib lib1 op hs hP) hrun

theorem finesNonneg_step {lib lib' : Library} {op : Op} (h : step lib op = some lib')
    (hP : lib.FinesNonneg) : lib'.FinesNonneg := by
  intro k a hk
  rw [Library.getAccount_eq_some] at hk
  rcases step_ledger h with ⟨-, ha⟩ | ⟨user, -, -, ha⟩ | ⟨id, -, ha⟩ |
    ⟨id, account, account', -, hacc, ha, hfine⟩ | ⟨id, -, -, hnull, ha⟩
  · rw [ha] at hk
    exact hP k a (Library.getAccount_eq_some.mpr hk)
  · rw [ha, UMap.find_assign] at hk
    by_cases hid : k = user.userID
    · rw [if_pos hid] at hk
      cases Option.some.inj (Option.some.inj hk)
      exact le_refl _
    · rw [if_neg hid] at hk
      exact hP k a (Library.getAccount_eq_some.mpr hk)
  · rw [ha, UMap.find_erase] at hk
    by_cases hid : k = id
    · rw [if_pos hid] at hk
      cases hk
    · rw [if_neg hid] at hk
      exact hP k a (Library.getAccount_eq_some.mpr hk)
  · rw [ha, UMap.find_update] at hk
    by_cases hid : k = id
    · rw [if_pos hid, hacc] at hk
      cases Option.some.inj (Option.some.inj hk)
      exact hfine (hP id account (Library.getAccount_eq_some.mpr hacc))
    · rw [if_neg hid] at hk
      exact hP k a (Library.getAccount_eq_some.mpr hk)
  · rw [ha, UMap.find_index] at hk
    by_cases hid : k = id
    · rw [if_pos hid] at hk
      rcases hnull with hn | hn <;> rw [hn] at hk <;> cases Option.some.inj hk
    · rw [if_neg hid] at hk
      exact hP k a (Library.getAccount_eq_some.mpr hk)

theorem lockstep_step {lib lib' : Library} {op : Op} (h : step lib op = some lib')
    (hP : lib.Lockstep) : lib'.Lockstep := by
  intro k
  rcases step_ledger h with ⟨hu, ha⟩ | ⟨user, -, hu, ha⟩ | ⟨id, hu, ha⟩ |
    ⟨id, account, account', hu, hacc, ha, -⟩ | ⟨id, -, huser, hnull, -⟩
  · rw [hu, ha]
    exact hP k
  · rw [hu, ha, UMap.find_assign, UMap.find_assign]
    by_cases hid : k = user.userID
    · simp [hid]
    · simp only [if_neg hid]
      exact hP k
  · rw [hu, ha, UMap.find_erase, UMap.find_erase]
    by_cases hid : k = id
    · simp [hid]
    · simp only [if_neg hid]
      exact hP k
  · rw [hu, ha, UMap.find_update]
    by_cases hid : k = id
    · subst hid
      have hk := hP k
      rw [hacc] at hk ⊢
      simpa using hk
    · simp only [if_neg hid]
      exact hP k
  · exfalso
    have hk := hP id
    rcases hnull with hn | hn
    · exact huser (by simpa [hn] using hk.1)
    · exact hk.2 hn

theorem lockstep_empty : Library.empty.Lockstep := by
  intro k
  simp [Library.empty, UMap.find]

/-- With a present account the `accounts[userID]` of `borrowBook` yields it, and the call
returns. -/
theorem borrowBook_ne_none (lib : Library) (userID bookID t1 t2 : Int)
    (hacc : ∀ user, UMap.find lib.users userID = some user →
      ∃ account, UMap.find lib.accounts userID = some (some account)) :
    lib.borrowBook userID bookID t1 t2 ≠ none := by
  cases hu : UMap.find lib.users userID with
  | none => simp [Library.borrowBook, hu]
  | some user =>
    cases hb : UMap.find lib.books bookID with
    | none => simp [Library.borrowBook, hu, hb]
    | some book =>
      obtain ⟨account, ha⟩ := hacc user hu
      rw [Library.borrowBook_eval t1 t2 hu hb ha]
      split_ifs <;> simp

theorem lockstep_account {lib : Library} (hP : lib.Lockstep) {userID : Int} {user : User}
    (hu : UMap.find lib.users userID = some user) :
    ∃ account, UMap.find lib.accounts userID = some (some account) := by
  obtain ⟨h1, h2⟩ := hP userID
  cases ha : UMap.find lib.accounts userID with
  | none => exact absurd ha (h1.mp (by simp [hu]))
  | some oa =>
    cases oa with
    | none => exact absurd ha h2
    | some account => exact ⟨account, rfl⟩

theorem reachable_lockstep {lib : Library} (h : Reachable lib) : lib.Lockstep := by
  obtain ⟨ops, -, hrun⟩ := h
  exact run_invariant_lib Library.Lockstep (fun _ _ _ hs hP => lockstep_step hs hP) ops
    Library.empty lib lockstep_empty hrun

/-! ## C11 – C16: failed returns and the reservation queue -/

/-- C11: in a state where every holder has an account, `returnBook` returns false and leaves
the whole library (catalog, directory, ledger) unchanged when the holder is absent, the item
is absent, or the item is not among the holder's active loans. -/
theorem returnBook_rejects (lib : Library) (userID bookID now : Int)
    (hacc : ∀ u user, UMap.find lib.users u = some user →
      ∃ a, UMap.find lib.accounts u = some (some a))
    (hcond :
      UMap.find lib.users userID = none ∨
      UMap.find lib.books bookID = none ∨
      (∃ account, lib.getAccount userID = some account ∧
        ∀ r ∈ account.currentBorrows, r.bookID ≠ bookID)) :
    lib.returnBook userID bookID now = (false, lib) := by
  cases hu : UMap.find lib.users userID with
  | none => simp [Library.returnBook, hu]
  | some user =>
    cases hb : UMap.find lib.books bookID with
    | none => simp [Library.returnBook, hu, hb]
    | some book =>
      obtain ⟨account, ha⟩ := hacc userID user hu
      rw [Library.returnBook_eval now hu hb ha]
      rcases hcond with h | h | ⟨account', ha', hnot⟩
      · rw [hu] at h
        cases h
      · rw [hb] at h
        cases h
      · rw [Library.getAccount_eq_some.mpr ha] at ha'
        cases Option.some.inj ha'
        rw [if_neg]
        rw [List.any_eq_true]
        rintro ⟨r, hr, hri⟩
        exact hnot r hr (by simpa using hri)

/-- C11 at a concrete input: Student 111 has no active loan, so `returnBook 111 50` is
refused and changes nothing. -/
theorem returnBook_rejects_witness :
    (∃ account, studentReadyState.getAccount 111 = some account ∧
      ∀ r ∈ account.currentBorrows, r.bookID ≠ 50) ∧
    studentReadyState.returnBook 111 50 0 = (false, studentReadyState) := by
  have hno : ∃ account, studentReadyState.getAccount 111 = some account ∧
      ∀ r ∈ account.currentBorrows, r.bookID ≠ 50 :=
    ⟨Account.Account 111, rfl, by simp [Account.Account]⟩
  refine ⟨hno, returnBook_rejects studentReadyState 111 50 0 ?_ (Or.inr (Or.inr hno))⟩
  intro u user h
  by_cases hu : u = 111
  · subst hu
    exact ⟨_, rfl⟩
  · rw [show studentReadyState.users = [(111, makeUser UserClass.Student 111 "S" "test123" "CS")]
      from rfl, UMap.find_cons, if_neg hu] at h
    cases h

/-- C12 as stated fails: item 50 exists, is available and has an empty reservation queue,
and `reserveBook 111 50` returns false and changes nothing. -/
theorem reserveBook_available_counterexample :
    run Library.empty readyScenario = some studentReadyState ∧
    (UMap.find studentReadyState.books 50).map (fun b => (b.available, b.reservationQueue)) =
      some (true, []) ∧
    studentReadyState.reserveBook 111 50 = (false, studentReadyState) := by
  refine ⟨rfl, ?_, ?_⟩ <;> decide

/-- C12 (amended): `reserveBook` rejects a request when the item is absent, when the holder
is already in its reservation queue, or when the item is available; it succeeds exactly for
an existing item that is not available (lent out) and whose queue does not contain the
holder. -/
theorem reserveBook_succeeds_iff (lib : Library) (userID bookID : Int) :
    (lib.reserveBook userID bookID).1 = true ↔
      ∃ book, UMap.find lib.books bookID = some book ∧ book.available = false ∧
        userID ∉ book.reservationQueue := by
  unfold Library.reserveBook
  cases hb : UMap.find lib.books bookID with
  | none => simp
  | some book =>
    simp only [Book.reserve, Book.isReservedBy]
    by_cases hq : userID ∈ book.reservationQueue
    · have hany : book.reservationQueue.any (fun x => x == userID) = true := by
        rw [List.any_eq_true]
        exact ⟨userID, hq, by simp⟩
      simp [hany, hq]
    · have hany : book.reservationQueue.any (fun x => x == userID) = false := by
        rw [Bool.eq_false_iff, Ne, List.any_eq_true]
        rintro ⟨x, hx, hxe⟩
        exact hq (by simpa using (by simpa using hxe : x = userID) ▸ hx)
      cases hv : book.available <;> simp [hany, hq, hv]

/-- C12 (amended) at concrete inputs: holder 5 can reserve item 50 while it is on loan to
Student 111. -/
theorem reserveBook_succeeds_iff_witness :
    ((studentLoanState 0).reserveBook 5 50).1 = true :=
  (reserveBook_succeeds_iff (studentLoanState 0) 5 50).mpr ⟨_, rfl, rfl, by decide⟩

/-- C13: for an existing item, a `reserveBook` that succeeds turns the reservation queue into
the old queue with the holder appended at the end; the item's other fields, among them the
availability flag, every other item, the directory and every account are unchanged. When the
holder is already in the queue, `reserveBook` returns false and changes nothing. -/
theorem reserveBook_appends (lib : Library) (userID bookID : Int) (book : Book)
    (hb : UMap.find lib.books bookID = some book) :
    (∀ lib', lib.reserveBook userID bookID = (true, lib') →
      UMap.find lib'.books bookID =
        some { book with reservationQueue := book.reservationQueue ++ [userID] } ∧
      (∀ j, j ≠ bookID → UMap.find lib'.books j = UMap.find lib.books j) ∧
      lib'.books = UMap.update lib.books bookID
        { book with reservationQueue := book.reservationQueue ++ [userID] } ∧
      lib'.users = lib.users ∧ lib'.accounts = lib.accounts) ∧
    (userID ∈ book.reservationQueue → lib.reserveBook userID bookID = (false, lib)) := by
  constructor
  · intro lib' hres
    have hres' : ((book.reserve userID).1,
        ({ lib with books := UMap.update lib.books bookID (book.reserve userID).2 } : Library)) =
        (true, lib') := by
      simpa [Library.reserveBook, hb] using hres
    obtain ⟨h1, h2⟩ := Prod.mk.inj hres'
    rw [reserve_true h1] at h2
    subst h2
    refine ⟨?_, ?_, rfl, rfl, rfl⟩
    · simp [UMap.find_update, hb]
    · intro j hj
      simp [UMap.find_update, hj]
  · intro hq
    have h1 : (book.reserve userID).1 = false := by
      simp [Book.reserve, (isReservedBy_iff book userID).mpr hq]
    have h2 := reserve_false h1
    simp only [Library.reserveBook, hb]
    rw [h1, h2, UMap.update_eq_self hb]

/-- C13 at concrete inputs: holders 5 and 6 reserve item 50, on loan to Student 111, one
after the other; the queue is `[5, 6]`, and a second request of holder 5 is refused. -/
theorem reserveBook_appends_witness :
    ∃ lib1 lib2,
      (studentLoanState 0).reserveBook 5 50 = (true, lib1) ∧
      lib1.reserveBook 6 50 = (true, lib2) ∧
      (UMap.find lib2.books 50).map (fun b => (b.available, b.reservationQueue)) =
        some (false, [5, 6]) ∧
      lib2.reserveBook 5 50 = (false, lib2) := by
  have hb1 : ∃ b, UMap.find ((studentLoanState 0).reserveBook 5 50).2.books 50 = some b ∧
      b.reservationQueue = [5] := ⟨_, rfl, rfl⟩
  obtain ⟨b1, hb1, hq1⟩ := hb1
  have hb2 : ∃ b, UMap.find ((((studentLoanState 0).reserveBook 5 50).2).reserveBook 6 50).2.books 50
      = some b ∧ b.reservationQueue = [5, 6] ∧ b.available = false := ⟨_, rfl, rfl, rfl⟩
  obtain ⟨b2, hb2, hq2, hv2⟩ := hb2
  refine ⟨((studentLoanState 0).reserveBook 5 50).2,
    ((((studentLoanState 0).reserveBook 5 50).2).reserveBook 6 50).2,
    Prod.ext (by decide) rfl, Prod.ext (by decide) rfl, ?_, ?_⟩
  · rw [hb2]
    simp [hq2, hv2]
  · exact (reserveBook_appends _ 5 50 b2 hb2).2 (by simp [hq2])

/-- C14: for an existing item whose reservation queue contains the holder,
`cancelReservation` returns true; afterwards the queue is the old queue without the holder,
the other ids in their previous order, `isReservedBy` no longer reports the holder, and the
item's other fields, among them the availability flag, every other item, the directory and
the ledger are unchanged. -/
theorem cancelReservation_removes (lib : Library) (userID bookID : Int) (book : Book)
    (hb : UMap.find lib.books bookID = some book)
    (hq : userID ∈ book.reservationQueue) :
    ∃ lib' book',
      lib.cancelReservation userID bookID = (true, lib') ∧
      UMap.find lib'.books bookID = some book' ∧
      book' = { book with
        reservationQueue := book.reservationQueue.filter (fun x => x != userID) } ∧
      book'.reservationQueue.Sublist book.reservationQueue ∧
      (∀ x, x ∈ book'.reservationQueue ↔ x ∈ book.reservationQueue ∧ x ≠ userID) ∧
      book'.isReservedBy userID = false ∧
      book'.available = book.available ∧
      (∀ j, j ≠ bookID → UMap.find lib'.books j = UMap.find lib.books j) ∧
      lib'.users = lib.users ∧ lib'.accounts = lib.accounts := by
  have hr := (isReservedBy_iff book userID).mpr hq
  have hne : book.reservationQueue.isEmpty = false := by
    cases hl : book.reservationQueue with
    | nil =>
      rw [hl] at hq
      cases hq
    | cons a l => rfl
  have hc : book.cancelReservation userID =
      (true, { book with
        reservationQueue := book.reservationQueue.filter (fun x => x != userID) }) := by
    unfold Book.cancelReservation
    rw [if_neg (by simp [hne, hr])]
    have hany : book.reservationQueue.any (fun x => x == userID) = true := hr
    rw [hany]
  refine ⟨{ lib with books := UMap.update lib.books bookID (book.cancelReservation userID).2 },
    (book.cancelReservation userID).2, ?_, ?_, ?_, ?_, ?_, ?_, ?_, ?_, rfl, rfl⟩
  · simp only [Library.cancelReservation, hb]
    rw [hc]
  · simp [UMap.find_update, hb]
  · rw [hc]
  · rw [hc]
    exact List.filter_sublist _
  · intro x
    rw [hc]
    simp [List.mem_filter]
  · rw [hc, isReservedBy_false_iff]
    simp [List.mem_filter]
  · rw [hc]
  · intro j hj
    simp [UMap.find_update, hj]

/-- C14 at a concrete input: item 7 is on loan with holder 2 in its queue;
`cancelReservation 2 7` succeeds and empties the queue. -/
theorem cancelReservation_removes_witness :
    ∃ lib lib',
      run Library.empty lentReservedScenario = some lib ∧
      (UMap.find lib.books 7).map Book.reservationQueue = some [2] ∧
      lib.cancelReservation 2 7 = (true, lib') ∧
      (UMap.find lib'.books 7).map (fun b => (b.available, b.reservationQueue)) =
        some (false, []) := by
  have hrun : ∃ lib, run Library.empty lentReservedScenario = some lib := ⟨_, rfl⟩
  obtain ⟨lib, hlib⟩ := hrun
  have hb : ∃ b, UMap.find lib.books 7 = some b ∧ b.reservationQueue = [2] ∧
      b.available = false := by
    cases Option.some.inj hlib
    exact ⟨_, rfl, rfl, rfl⟩
  obtain ⟨b, hb, hq, hv⟩ := hb
  obtain ⟨lib', b', h1, h2, h3, -, -, -, h7, -, -, -⟩ :=
    cancelReservation_removes lib 2 7 b hb (by simp [hq])
  refine ⟨lib, lib', hlib, by simp [hb, hq], h1, ?_⟩
  rw [h2]
  simp [h7, hv, h3, hq]

/-- C15: when the item is not in the catalog, or its reservation queue is empty, or the
queue does not contain the holder, `cancelReservation` returns false and leaves the whole
library unchanged. -/
theorem cancelReservation_rejects (lib : Library) (userID bookID : Int)
    (hcond :
      UMap.find lib.books bookID = none ∨
      ∃ book, UMap.find lib.books bookID = some book ∧
        (book.reservationQueue = [] ∨ userID ∉ book.reservationQueue)) :
    lib.cancelReservation userID bookID = (false, lib) := by
  rcases hcond with h | ⟨book, hb, hq⟩
  · simp [Library.cancelReservation, h]
  · have hnot : userID ∉ book.reservationQueue := by
      rcases hq with h | h
      · simp [h]
      · exact h
    have hc : book.cancelReservation userID = (false, book) := by
      unfold Book.cancelReservation
      rw [if_pos (by simp [(isReservedBy_false_iff book userID).mpr hnot])]
    simp only [Library.cancelReservation, hb]
    rw [hc, UMap.update_eq_self hb]

/-- C15 at a concrete input: item 50 has an empty reservation queue, so
`cancelReservation 111 50` is refused and changes nothing. -/
theorem cancelReservation_rejects_witness :
    (∃ book, UMap.find studentReadyState.books 50 = some book ∧
      (book.reservationQueue = [] ∨ (111 : Int) ∉ book.reservationQueue)) ∧
    studentReadyState.cancelReservation 111 50 = (false, studentReadyState) := by
  have h : ∃ book, UMap.find studentReadyState.books 50 = some book ∧
      (book.reservationQueue = [] ∨ (111 : Int) ∉ book.reservationQueue) :=
    ⟨_, rfl, Or.inl rfl⟩
  exact ⟨h, cancelReservation_rejects studentReadyState 111 50 (Or.inr h)⟩

/-- C16 as stated fails: after `reservedScenario` item 7 is available and its reservation
queue is exactly `[4]`; `cancelReservation 4 7` succeeds, the following `reserveBook 4 7`
returns false, and the queue is left empty. -/
theorem cancel_then_reserve_counterexample :
    ∃ lib,
      run Library.empty reservedScenario = some lib ∧
      (UMap.find lib.books 7).map (fun b => (b.available, b.reservationQueue)) =
        some (true, [4]) ∧
      (lib.cancelReservation 4 7).1 = true ∧
      ((lib.cancelReservation 4 7).2.reserveBook 4 7).1 = false ∧
      (UMap.find ((lib.cancelReservation 4 7).2.reserveBook 4 7).2.books 7).map
        Book.reservationQueue = some [] := by
  refine ⟨_, rfl, ?_, ?_, ?_, ?_⟩ <;> decide

/-- C16 (amended): for an existing item that is not available (lent out) and whose
reservation queue is exactly `[h]`, `cancelReservation h i` followed by `reserveBook h i`
both succeed and leave the queue `[h]`, of length 1; the library is as before the two
calls. -/
theorem cancel_then_reserve (lib : Library) (userID bookID : Int) (book : Book)
    (hb : UMap.find lib.books bookID = some book)
    (hq : book.reservationQueue = [userID])
    (hv : book.available = false) :
    (lib.cancelReservation userID bookID).1 = true ∧
    ((lib.cancelReservation userID bookID).2.reserveBook userID bookID).1 = true ∧
    (UMap.find ((lib.cancelReservation userID bookID).2.reserveBook userID bookID).2.books
      bookID).map Book.reservationQueue = some [userID] ∧
    ((lib.cancelReservation userID bookID).2.reserveBook userID bookID).2 = lib := by
  have hc : book.cancelReservation userID =
      (true, ({ book with reservationQueue := [] } : Book)) := by
    simp [Book.cancelReservation, Book.isReservedBy, hq]
  have hbk : ({ book with reservationQueue := [userID] } : Book) = book := by
    rw [← hq]
  have hr : ({ book with reservationQueue := [] } : Book).reserve userID = (true, book) := by
    unfold Book.reserve
    rw [if_neg (by simp [Book.isReservedBy]), if_pos (by simp [hv])]
    exact congrArg (Prod.mk true) hbk
  have h1 : lib.cancelReservation userID bookID =
      (true, { lib with
        books := UMap.update lib.books bookID ({ book with reservationQueue := [] } : Book) }) := by
    simp only [Library.cancelReservation, hb]
    rw [hc]
  have hb1 : UMap.find (UMap.update lib.books bookID
      ({ book with reservationQueue := [] } : Book)) bookID =
      some ({ book with reservationQueue := [] } : Book) := by
    simp [UMap.find_update, hb]
  have h2 : ({ lib with
      books := UMap.update lib.books bookID ({ book with reservationQueue := [] } : Book) } :
      Library).reserveBook userID bookID = (true, lib) := by
    simp only [Library.reserveBook, hb1]
    rw [hr, update_twice, UMap.update_eq_self hb]
  rw [h1]
  simp only [h2]
  exact ⟨trivial, trivial, by simp [hb, hq], trivial⟩

/-- C16 (amended) at a concrete input: item 7 is on loan with the queue `[2]`; holder 2
cancels and reserves again, and the queue is `[2]` as before. -/
theorem cancel_then_reserve_witness :
    ∃ lib,
      run Library.empty lentReservedScenario = some lib ∧
      (UMap.find lib.books 7).map (fun b => (b.available, b.reservationQueue)) =
        some (false, [2]) ∧
      (lib.cancelReservation 2 7).1 = true ∧
      ((lib.cancelReservation 2 7).2.reserveBook 2 7).1 = true ∧
      (UMap.find ((lib.cancelReservation 2 7).2.reserveBook 2 7).2.books 7).map
        Book.reservationQueue = some [2] := by
  have hrun : ∃ lib, run Library.empty lentReservedScenario = some lib := ⟨_, rfl⟩
  obtain ⟨lib, hlib⟩ := hrun
  have hb : ∃ b, UMap.find lib.books 7 = some b ∧ b.reservationQueue = [2] ∧
      b.available = false := by
    cases Option.some.inj hlib
    exact ⟨_, rfl, rfl, rfl⟩
  obtain ⟨b, hb, hq, hv⟩ := hb
  obtain ⟨h1, h2, h3, -⟩ := cancel_then_reserve lib 2 7 b hb hq hv
  exact ⟨lib, hlib, by simp [hb, hq, hv], h1, h2, h3⟩

/-! ## Time points of 64 bits agree with the integers on readings in range -/

theorem wrap64_eq_self {x : Int} (h1 : int64Min ≤ x) (h2 : x ≤ int64Max) : wrap64 x = x := by
  unfold wrap64
  unfold int64Min at h1
  unfold int64Max at h2
  omega

theorem addBorrow64_eq (a : Account) (bookID t1 : Int) {t2 : Int} (h0 : 0 ≤ t2)
    (h1 : t2 + hours (24 * 30) ≤ int64Max) :
    a.addBorrow64 bookID t1 t2 = a.addBorrow bookID t1 t2 := by
  unfold Account.addBorrow64 Account.addBorrow
  rw [wrap64_eq_self _ h1]
  unfold int64Min hours ticksPerSecond
  omega

theorem chargeOverdue64_eq (account : Account) (user : User) (bookID : Int) {now : Int}
    (hd : ∀ record ∈ account.currentBorrows, 0 ≤ record.dueDate ∧ record.dueDate ≤ int64Max)
    (h0 : 0 ≤ now) (h1 : now ≤ int64Max) :
    Library.chargeOverdue64 account user bookID now =
      Library.chargeOverdue account user bookID now := by
  unfold Library.chargeOverdue64 Library.chargeOverdue
  cases hf : account.getCurrentBorrows.find?
      (fun borrow => borrow.bookID == bookID && decide (now > borrow.dueDate)) with
  | none => rfl
  | some borrow =>
    obtain ⟨hlo, hhi⟩ := hd borrow (List.mem_of_find?_eq_some hf)
    have hw : wrap64 (now - borrow.dueDate) = now - borrow.dueDate := by
      apply wrap64_eq_self
      · unfold int64Min
        unfold int64Max at hhi
        omega
      · unfold int64Max at h1 ⊢
        omega
    simp only [hw]

theorem borrowBook64_eq (lib : Library) (userID bookID t1 : Int) {t2 : Int} (h0 : 0 ≤ t2)
    (h1 : t2 + hours (24 * 30) ≤ int64Max) :
    lib.borrowBook64 userID bookID t1 t2 = lib.borrowBook userID bookID t1 t2 := by
  unfold Library.borrowBook64 Library.borrowBook
  simp only [fun a => addBorrow64_eq a bookID t1 h0 h1]

theorem returnBook64_eq (lib : Library) (userID bookID : Int) {now : Int}
    (hd : lib.DuesInRange) (h0 : 0 ≤ now) (h1 : now ≤ int64Max) :
    lib.returnBook64 userID bookID now = lib.returnBook userID bookID now := by
  unfold Library.returnBook64 Library.returnBook
  cases hu : UMap.find lib.users userID with
  | none => rfl
  | some user =>
    cases hb : UMap.find lib.books bookID with
    | none => rfl
    | some book =>
      cases ha : UMap.find (UMap.index lib.accounts userID none) userID with
      | none => simp only [ha]
      | some oa =>
        cases oa with
        | none => simp only [ha]
        | some account =>
          have hget : lib.getAccount userID = some account := by
            rw [Library.getAccount_eq_some]
            rw [UMap.find_index, if_pos rfl] at ha
            cases hfind : UMap.find lib.accounts userID with
            | none => simp [hfind] at ha
            | some entry =>
              rw [hfind] at ha
              simpa using ha
          simp only [ha, chargeOverdue64_eq account user bookID (hd userID account hget) h0 h1]

theorem step64_eq {lib : Library} {op : Op} (hd : lib.DuesInRange)
    (hop : op.timesInRange = true) : step64 lib op = step lib op := by
  cases op with
  | borrowBook userID bookID t1 t2 =>
    simp only [Op.timesInRange, Bool.and_eq_true, decide_eq_true_eq] at hop
    simp only [step64, step, borrowBook64_eq lib userID bookID t1 hop.1.2 hop.2]
  | returnBook userID bookID now =>
    simp only [Op.timesInRange, Bool.and_eq_true, decide_eq_true_eq] at hop
    simp only [step64, step, returnBook64_eq lib userID bookID hd hop.1 hop.2]
  | addBook id title author publisher year isbn => rfl
  | removeBook bookID => rfl
  | addUser cls id name password department => rfl
  | removeUser userID => rfl
  | reserveBook userID bookID => rfl
  | cancelReservation userID bookID => rfl
  | payFine userID amount => rfl

/-- Every call either leaves the ledger as it is, adds a new empty account, removes an
account, inserts a null entry, or rewrites one present account: `borrowBook` appends a
record to it, `returnBook` charges the fine and moves a record to the history, `payFine`
changes the balance. -/
theorem step_accounts {lib lib' : Library} {op : Op} (h : step lib op = some lib') :
    lib'.accounts = lib.accounts ∨
    (∃ userID, lib'.accounts = UMap.assign lib.accounts userID
      (some (Account.Account userID))) ∨
    (∃ userID, lib'.accounts = UMap.erase lib.accounts userID) ∨
    (∃ userID account account',
      UMap.find lib.accounts userID = some (some account) ∧
      lib'.accounts = UMap.update lib.accounts userID (some account') ∧
      ((∃ bookID t1 t2, op = Op.borrowBook userID bookID t1 t2 ∧
          account' = account.addBorrow bookID t1 t2) ∨
        (∃ user bookID now,
          account' = (Library.chargeOverdue account user bookID now).removeBorrow bookID) ∨
        (∃ amount, account' = account.payFine amount))) ∨
    (∃ userID, lib'.accounts = UMap.index lib.accounts userID none) := by
  cases op with
  | addBook id title author publisher year isbn =>
    simp only [step, Library.addBook] at h
    cases Option.some.inj h
    left
    split <;> rfl
  | removeBook bookID =>
    simp only [step, Library.removeBook] at h
    cases Option.some.inj h
    exact Or.inl rfl
  | addUser cls id name password department =>
    simp only [step, Library.addUser, User.getUserID] at h
    cases hf : UMap.find lib.users (makeUser cls id name password department).userID with
    | some u =>
      rw [hf] at h
      cases Option.some.inj h
      exact Or.inl rfl
    | none =>
      rw [hf] at h
      cases Option.some.inj h
      exact Or.inr (Or.inl ⟨(makeUser cls id name password department).userID, rfl⟩)
  | removeUser userID =>
    simp only [step, Library.removeUser] at h
    cases Option.some.inj h
    exact Or.inr (Or.inr (Or.inl ⟨userID, rfl⟩))
  | borrowBook userID bookID t1 t2 =>
    simp only [step] at h
    cases hbor : lib.borrowBook userID bookID t1 t2 with
    | none => simp [hbor] at h
    | some res =>
      obtain ⟨b, lib1⟩ := res
      rw [hbor] at h
      cases Option.some.inj h
      cases b with
      | false =>
        rw [Library.borrowBook_false hbor]
        exact Or.inl rfl
      | true =>
        obtain ⟨user, book, account, -, -, ha, -, -, -, -, -, hlib⟩ :=
          Library.borrowBook_true hbor
        rw [hlib]
        exact Or.inr (Or.inr (Or.inr (Or.inl
          ⟨userID, account, account.addBorrow bookID t1 t2, ha, rfl,
            Or.inl ⟨bookID, t1, t2, rfl, rfl⟩⟩)))
  | returnBook userID bookID now =>
    simp only [step] at h
    cases hret : lib.returnBook userID bookID now with
    | mk b lib1 =>
      rw [hret] at h
      cases Option.some.inj h
      cases b with
      | true =>
        obtain ⟨user, book, account, -, -, ha, -, hlib⟩ := Library.returnBook_true hret
        rw [hlib]
        exact Or.inr (Or.inr (Or.inr (Or.inl
          ⟨userID, account, (Library.chargeOverdue account user bookID now).removeBorrow bookID,
            ha, rfl, Or.inr (Or.inl ⟨user, bookID, now, rfl⟩)⟩)))
      | false =>
        cases hu : UMap.find lib.users userID with
        | none =>
          simp [Library.returnBook, hu] at hret
          subst hret
          exact Or.inl rfl
        | some user =>
          cases hb : UMap.find lib.books bookID with
          | none =>
            simp [Library.returnBook, hu, hb] at hret
            subst hret
            exact Or.inl rfl
          | some book =>
            cases ha : UMap.find lib.accounts userID with
            | none =>
              have hf : UMap.find (UMap.index lib.accounts userID none) userID = some none := by
                simp [UMap.find_index, ha]
              simp only [Library.returnBook, hu, hb, hf] at hret
              cases (Prod.mk.inj hret).2
              exact Or.inr (Or.inr (Or.inr (Or.inr ⟨userID, rfl⟩)))
            | some oa =>
              cases oa with
              | none =>
                simp only [Library.returnBook, hu, hb, UMap.index_eq_self ha, ha] at hret
                cases (Prod.mk.inj hret).2
                exact Or.inl rfl
              | some account =>
                rw [Library.returnBook_eval now hu hb ha] at hret
                split_ifs at hret
                · simp at hret
                · cases (Prod.mk.inj hret).2
                  exact Or.inl rfl
  | reserveBook userID bookID =>
    simp only [step, Library.reserveBook] at h
    cases Option.some.inj h
    left
    split <;> rfl
  | cancelReservation userID bookID =>
    simp only [step, Library.cancelReservation] at h
    cases Option.some.inj h
    left
    split <;> rfl
  | payFine userID amount =>
    simp only [step, Library.payFine] at h
    cases ha : UMap.find lib.accounts userID with
    | none =>
      rw [ha] at h
      cases Option.some.inj h
      exact Or.inl rfl
    | some oa =>
      cases oa with
      | none =>
        rw [ha] at h
        simp at h
      | some account =>
        rw [ha] at h
        cases Option.some.inj h
        exact Or.inr (Or.inr (Or.inr (Or.inl
          ⟨userID, account, account.payFine amount, ha, rfl, Or.inr (Or.inr ⟨amount, rfl⟩)⟩)))

theorem duesInRange_step {lib lib' : Library} {op : Op} (h : step lib op = some lib')
    (hop : op.timesInRange = true) (hP : lib.DuesInRange) : lib'.DuesInRange := by
  intro k a hk
  rw [Library.getAccount_eq_some] at hk
  rcases step_accounts h with ha | ⟨id, ha⟩ | ⟨id, ha⟩ |
    ⟨id, account, account', hacc, ha, hform⟩ | ⟨id, ha⟩
  · rw [ha] at hk
    exact hP k a (Library.getAccount_eq_some.mpr hk)
  · rw [ha, UMap.find_assign] at hk
    by_cases hid : k = id
    · rw [if_pos hid] at hk
      cases Option.some.inj (Option.some.inj hk)
      intro record hr
      simp [Account.Account] at hr
    · rw [if_neg hid] at hk
      exact hP k a (Library.getAccount_eq_some.mpr hk)
  · rw [ha, UMap.find_erase] at hk
    by_cases hid : k = id
    · rw [if_pos hid] at hk
      cases hk
    · rw [if_neg hid] at hk
      exact hP k a (Library.getAccount_eq_some.mpr hk)
  · rw [ha, UMap.find_update] at hk
    by_cases hid : k = id
    · rw [if_pos hid, hacc] at hk
      cases Option.some.inj (Option.some.inj hk)
      have hold := hP id account (Library.getAccount_eq_some.mpr hacc)
      rcases hform with ⟨bookID, t1, t2, hopeq, hacc'⟩ | ⟨user, bookID, now, hacc'⟩ |
        ⟨amount, hacc'⟩
      · subst hopeq
        simp only [Op.timesInRange, Bool.and_eq_true, decide_eq_true_eq] at hop
        intro record hr
        rw [hacc'] at hr
        simp only [Account.addBorrow, List.mem_append, List.mem_singleton] at hr
        rcases hr with hr | hr
        · exact hold record hr
        · subst hr
          refine ⟨?_, hop.2⟩
          have := hop.1.2
          show 0 ≤ t2 + hours (24 * 30)
          unfold hours ticksPerSecond
          omega
      · intro record hr
        rw [hacc'] at hr
        apply hold record
        unfold Account.removeBorrow at hr
        split at hr
        · rw [← Library.chargeOverdue_currentBorrows account user bookID now]
          exact List.mem_of_mem_eraseP hr
        · rw [← Library.chargeOverdue_currentBorrows account user bookID now]
          exact hr
      · intro record hr
        rw [hacc'] at hr
        exact hold record hr
    · rw [if_neg hid] at hk
      exact hP k a (Library.getAccount_eq_some.mpr hk)
  · rw [ha, UMap.find_index] at hk
    by_cases hid : k = id
    · rw [if_pos hid] at hk
      have hk' := Option.some.inj hk
      cases hfind : UMap.find lib.accounts id with
      | none => simp [hfind] at hk'
      | some entry =>
        rw [hfind] at hk'
        have hentry : entry = some a := by simpa using hk'
        subst hentry
        subst hid
        exact hP k a (Library.getAccount_eq_some.mpr hfind)
    · rw [if_neg hid] at hk
      exact hP k a (Library.getAccount_eq_some.mpr hk)

theorem duesInRange_empty : Library.empty.DuesInRange := by
  intro k a hk
  rw [Library.getAccount_eq_some] at hk
  simp [Library.empty, UMap.find] at hk

/-- On calls whose clock readings are in range, the run with time points of 64 bits is the
run of the engine on the integers. -/
theorem run64_eq_run : ∀ (ops : List Op) (lib : Library), ops.all Op.timesInRange = true →
    lib.DuesInRange → run64 lib ops = run lib ops := by
  intro ops
  induction ops with
  | nil =>
    intro lib _ _
    rfl
  | cons op ops ih =>
    intro lib hall hd
    simp only [List.all_cons, Bool.and_eq_true] at hall
    simp only [run64, run, step64_eq hd hall.1]
    cases hs : step lib op with
    | none => rfl
    | some lib1 =>
      exact ih lib1 hall.2 (duesInRange_step hs hall.1 hd)

/-- A state whose ledger has an entry exactly for the ids of the directory, none of them
null, has no call that faults. -/
theorem step_isSome {lib : Library} (hP : lib.Lockstep) (op : Op) :
    ∃ lib', step lib op = some lib' := by
  cases op with
  | borrowBook userID bookID t1 t2 =>
    have hne := borrowBook_ne_none lib userID bookID t1 t2
      (fun user hu => lockstep_account hP hu)
    cases hb : lib.borrowBook userID bookID t1 t2 with
    | none => exact absurd hb hne
    | some r => exact ⟨r.2, by simp [step, hb]⟩
  | payFine userID amount =>
    simp only [step, Library.payFine]
    cases ha : UMap.find lib.accounts userID with
    | none => exact ⟨_, rfl⟩
    | some oa =>
      cases oa with
      | none => exact absurd ha (hP userID).2
      | some account => exact ⟨_, rfl⟩
  | addBook id title author publisher year isbn => exact ⟨_, rfl⟩
  | removeBook bookID => exact ⟨_, rfl⟩
  | addUser cls id name password department => exact ⟨_, rfl⟩
  | removeUser userID => exact ⟨_, rfl⟩
  | returnBook userID bookID now => exact ⟨_, rfl⟩
  | reserveBook userID bookID => exact ⟨_, rfl⟩
  | cancelReservation userID bookID => exact ⟨_, rfl⟩

/-- No sequence of calls faults from a state in lockstep. -/
theorem run_isSome : ∀ (ops : List Op) (lib : Library), lib.Lockstep →
    ∃ lib', run lib ops = some lib' := by
  intro ops
  induction ops with
  | nil =>
    intro lib _
    exact ⟨lib, rfl⟩
  | cons op ops ih =>
    intro lib hP
    obtain ⟨lib1, hs⟩ := step_isSome hP op
    obtain ⟨lib', hrun⟩ := ih lib1 (lockstep_step hs hP)
    exact ⟨lib', by simp [run, hs, hrun]⟩

/-! ## C17 – C20: fines and the ledger -/

/-- C17: for a holder whose account has the fine balance `b`, `payFine` with the amount `a`
returns true and sets the balance to `max 0 (b - a)`, hence to exactly 0 when `a ≥ b`; the
account's loans and history, the catalog, the directory and every other account are
unchanged. For an id without an entry in the ledger `payFine` returns false and changes
nothing. -/
theorem payFine_contract (lib : Library) (userID : Int) (amount : ℚ) :
    (∀ account, lib.getAccount userID = some account →
      ∃ lib', lib.payFine userID amount = some (true, lib') ∧
        lib'.getAccount userID =
          some { account with totalFine := max 0 (account.totalFine - amount) } ∧
        (amount ≥ account.totalFine →
          lib'.getAccount userID = some { account with totalFine := 0 }) ∧
        lib'.books = lib.books ∧ lib'.users = lib.users ∧
        (∀ k, k ≠ userID → UMap.find lib'.accounts k = UMap.find lib.accounts k)) ∧
    (UMap.find lib.accounts userID = none →
      lib.payFine userID amount = some (false, lib)) := by
  constructor
  · intro account ha
    have ha' := Library.getAccount_eq_some.mp ha
    have hget : ({ lib with
        accounts := UMap.update lib.accounts userID (some (account.payFine amount)) } :
        Library).getAccount userID =
        some { account with totalFine := max 0 (account.totalFine - amount) } := by
      rw [Library.getAccount_eq_some]
      simp [UMap.find_update, ha', Account.payFine]
    refine ⟨{ lib with
      accounts := UMap.update lib.accounts userID (some (account.payFine amount)) },
      ?_, hget, ?_, rfl, rfl, ?_⟩
    · simp [Library.payFine, ha']
    · intro hge
      rw [hget, max_eq_left (by linarith)]
    · intro k hk
      simp [UMap.find_update, hk]
  · intro hnone
    simp [Library.payFine, hnone]

/-- C17 at concrete inputs: an account that owes 1200 pays 1200 and then owes 0, pays 2000
and owes 0 as well; an id without an account is refused. -/
theorem payFine_contract_witness :
    ∃ lib lib1 lib2 : Library,
      (lib.getAccount 111).map Account.totalFine = some 1200 ∧
      lib.payFine 111 1200 = some (true, lib1) ∧
      (lib1.getAccount 111).map Account.totalFine = some 0 ∧
      lib.payFine 111 2000 = some (true, lib2) ∧
      (lib2.getAccount 111).map Account.totalFine = some 0 ∧
      lib.payFine 5 10 = some (false, lib) := by
  have hacc : ∃ account, ((studentLoanState 0).returnBook 111 50 (hours (24 * 35))).2.getAccount 111
      = some account ∧ account.totalFine = 1200 := by
    refine ⟨_, rfl, ?_⟩
    decide!
  obtain ⟨account, ha, hfine⟩ := hacc
  obtain ⟨hpay1, -⟩ :=
    payFine_contract ((studentLoanState 0).returnBook 111 50 (hours (24 * 35))).2 111 1200
  obtain ⟨hpay2, -⟩ :=
    payFine_contract ((studentLoanState 0).returnBook 111 50 (hours (24 * 35))).2 111 2000
  obtain ⟨lib1, h1, -, h1z, -, -, -⟩ := hpay1 account ha
  obtain ⟨lib2, h2, -, h2z, -, -, -⟩ := hpay2 account ha
  refine ⟨_, lib1, lib2, ?_, h1, ?_, h2, ?_, ?_⟩
  · rw [ha]
    simp [hfine]
  · rw [h1z (by rw [hfine])]
    rfl
  · rw [h2z (by rw [hfine]; norm_num)]
    rfl
  · exact (payFine_contract _ 5 10).2 (by decide)

/-- C19: `addUser` with an id that is already in the directory returns false and leaves the
whole library, and with it the existing record and account, unchanged; with a fresh id it
returns true, stores the holder and creates for the id an account with no active loan, no
history and a zero fine balance, and every other holder and account and the catalog are
unchanged. -/
theorem addUser_contract (lib : Library) (user : User) :
    (∀ u, UMap.find lib.users user.userID = some u → lib.addUser user = (false, lib)) ∧
    (UMap.find lib.users user.userID = none →
      ∃ lib', lib.addUser user = (true, lib') ∧
        UMap.find lib'.users user.userID = some user ∧
        lib'.getAccount user.userID =
          some { userID := user.userID, currentBorrows := [], borrowHistory := [],
                 totalFine := 0 } ∧
        (∀ k, k ≠ user.userID →
          UMap.find lib'.users k = UMap.find lib.users k ∧
          UMap.find lib'.accounts k = UMap.find lib.accounts k) ∧
        lib'.books = lib.books) := by
  constructor
  · intro u hu
    simp [Library.addUser, User.getUserID, hu]
  · intro hnone
    refine ⟨{ lib with
      accounts := UMap.assign lib.accounts user.userID (some (Account.Account user.userID))
      users := UMap.assign lib.users user.userID user }, ?_, ?_, ?_, ?_, rfl⟩
    · simp [Library.addUser, User.getUserID, hnone]
    · simp [UMap.find_assign]
    · rw [Library.getAccount_eq_some]
      simp [UMap.find_assign, Account.Account]
    · intro k hk
      simp [UMap.find_assign, hk]

/-- C19 at concrete inputs: a second `addUser` with the id 111 is refused and changes
nothing, also after Student 111 has borrowed item 50; `addUser` with the fresh id 112
creates an empty account. -/
theorem addUser_contract_witness :
    (studentLoanState 0).addUser (makeUser UserClass.Faculty 111 "F" "pw" "EE") =
      (false, studentLoanState 0) ∧
    ∃ lib', (studentLoanState 0).addUser (makeUser UserClass.Faculty 112 "F" "pw" "EE") =
        (true, lib') ∧
      lib'.getAccount 112 =
        some { userID := 112, currentBorrows := [], borrowHistory := [], totalFine := 0 } ∧
      lib'.getAccount 111 = (studentLoanState 0).getAccount 111 := by
  obtain ⟨h1, -⟩ := addUser_contract (studentLoanState 0)
    (makeUser UserClass.Faculty 111 "F" "pw" "EE")
  obtain ⟨-, h2⟩ := addUser_contract (studentLoanState 0)
    (makeUser UserClass.Faculty 112 "F" "pw" "EE")
  obtain ⟨lib', ha, -, hacc, hother, -⟩ := h2 (by decide)
  refine ⟨h1 _ rfl, lib', ha, hacc, ?_⟩
  have := (hother 111 (by decide)).2
  unfold Library.getAccount
  rw [this]

/-- C18 as stated, on the machine: the reading `lateClock` and the one half a second later
are time points, the due date `lateClock + 30 days` of `addBorrow` leaves the 64 bits and
wraps to a date before the epoch, so the return counts as overdue and the wrapped difference
is -719 hours: the balance of Student 111 is -7190. -/
theorem fines_nonneg_counterexample :
    0 ≤ lateClock ∧ lateClock + 500000000 ≤ int64Max ∧
    ∃ lib, run64 Library.empty overflowScenario = some lib ∧
      (lib.getAccount 111).map Account.totalFine = some (-7190) ∧ ¬ lib.FinesNonneg := by
  have hr : ∃ lib, run64 Library.empty overflowScenario = some lib ∧
      (lib.getAccount 111).map Account.totalFine = some (-7190) := by
    refine ⟨_, rfl, ?_⟩
    decide!
  obtain ⟨lib, hrun, hfine⟩ := hr
  refine ⟨by decide, by decide, lib, hrun, hfine, ?_⟩
  intro hnonneg
  cases hacc : lib.getAccount 111 with
  | none => simp [hacc] at hfine
  | some account =>
    have h0 := hnonneg 111 account hacc
    have hval : account.totalFine = -7190 := by simpa [hacc] using hfine
    rw [hval] at h0
    norm_num at h0

/-- C18, for clock readings in range: take any sequence of addBook, removeBook, addUser,
removeUser, borrowBook, returnBook, reserveBook, cancelReservation and payFine (with any
amount) in which every clock reading is a time point at or after the epoch and the reading
that `borrowBook` adds the 30 days to is at least 30 days before the largest time point
(`Op.timesInRange`). From the empty library
the sequence runs to a state without a fault, the run with time points of 64 bits ends in
the same state as the run on the integers, and in that state every account's fine balance
is greater than or equal to zero. -/
theorem fines_nonneg (ops : List Op) (h : ops.all Op.timesInRange = true) :
    ∃ lib, run64 Library.empty ops = some lib ∧ run Library.empty ops = some lib ∧
      lib.FinesNonneg := by
  obtain ⟨lib, hrun⟩ := run_isSome ops Library.empty lockstep_empty
  refine ⟨lib, ?_, hrun, ?_⟩
  · rw [run64_eq_run ops Library.empty h duesInRange_empty]
    exact hrun
  · refine run_invariant_lib Library.FinesNonneg (fun _ _ _ hs hP => finesNonneg_step hs hP) ops
      Library.empty lib ?_ hrun
    intro k a hk
    cases hk

/-- C18 at a concrete run: the readings of `lateReturnScenario` are in range, and after the
late return (fine 1200), the overpayment of 2000 and the payment of -7 the balance of
Student 111 is 7. -/
theorem fines_nonneg_witness :
    lateReturnScenario.all Op.timesInRange = true ∧
    ∃ lib, run64 Library.empty lateReturnScenario = some lib ∧
      run Library.empty lateReturnScenario = some lib ∧ lib.FinesNonneg ∧
      (lib.getAccount 111).map Account.totalFine = some 7 := by
  have hr : ∃ lib, run Library.empty lateReturnScenario = some lib ∧
      (lib.getAccount 111).map Account.totalFine = some 7 := by
    refine ⟨_, rfl, ?_⟩
    decide!
  obtain ⟨lib0, hrun0, hfine⟩ := hr
  obtain ⟨lib, h64, hrun, hnonneg⟩ := fines_nonneg lateReturnScenario (by decide)
  have heq : lib = lib0 := Option.some.inj (hrun.symm.trans hrun0)
  subst heq
  exact ⟨by decide, lib, h64, hrun, hnonneg, hfine⟩

/-- C20: in every state reachable from the empty library by any sequence of calls, an id
has an account if and only if it is in the directory, and the ledger has no null entry; so
the lookup `accounts[userID]` of `borrowBook` and of `returnBook` finds an account for every
existing holder without inserting anything, `borrowBook` returns, and every call is
defined. -/
theorem ledger_lockstep (lib : Library) (h : Reachable lib) :
    (∀ userID, (∃ user, UMap.find lib.users userID = some user) ↔
      (∃ account, lib.getAccount userID = some account)) ∧
    (∀ userID, (∃ user, UMap.find lib.users userID = some user) ↔
      (∃ entry, UMap.find lib.accounts userID = some entry)) ∧
    (∀ userID, UMap.find lib.accounts userID ≠ some none) ∧
    (∀ userID user, UMap.find lib.users userID = some user →
      UMap.index lib.accounts userID none = lib.accounts ∧
      ∃ account, UMap.find (UMap.index lib.accounts userID none) userID =
        some (some account)) ∧
    (∀ userID bookID t1 t2, lib.borrowBook userID bookID t1 t2 ≠ none) ∧
    (∀ op, step lib op ≠ none) := by
  have hP := reachable_lockstep h
  have hborrow : ∀ userID bookID t1 t2, lib.borrowBook userID bookID t1 t2 ≠ none :=
    fun userID bookID t1 t2 =>
      borrowBook_ne_none lib userID bookID t1 t2 (fun user hu => lockstep_account hP hu)
  refine ⟨?_, ?_, fun k => (hP k).2, ?_, hborrow, ?_⟩
  · intro k
    constructor
    · rintro ⟨user, hu⟩
      obtain ⟨account, ha⟩ := lockstep_account hP hu
      exact ⟨account, Library.getAccount_eq_some.mpr ha⟩
    · rintro ⟨account, ha⟩
      have hne : UMap.find lib.users k ≠ none :=
        (hP k).1.mpr (by simp [Library.getAccount_eq_some.mp ha])
      cases hu : UMap.find lib.users k with
      | none => exact absurd hu hne
      | some user => exact ⟨user, rfl⟩
  · intro k
    constructor
    · rintro ⟨user, hu⟩
      obtain ⟨account, ha⟩ := lockstep_account hP hu
      exact ⟨_, ha⟩
    · rintro ⟨entry, ha⟩
      have hne : UMap.find lib.users k ≠ none := (hP k).1.mpr (by simp [ha])
      cases hu : UMap.find lib.users k with
      | none => exact absurd hu hne
      | some user => exact ⟨user, rfl⟩
  · intro k user hu
    obtain ⟨account, ha⟩ := lockstep_account hP hu
    rw [UMap.index_eq_self ha]
    exact ⟨rfl, account, ha⟩
  · intro op
    cases op with
    | borrowBook userID bookID t1 t2 =>
      have := hborrow userID bookID t1 t2
      cases hb : lib.borrowBook userID bookID t1 t2 with
      | none => exact absurd hb this
      | some r => simp [step, hb]
    | payFine userID amount =>
      simp only [step, Library.payFine]
      cases ha : UMap.find lib.accounts userID with
      | none => simp
      | some oa =>
        cases oa with
        | none => exact absurd ha (hP userID).2
        | some account => simp
    | addBook id title author publisher year isbn => simp [step]
    | removeBook bookID => simp [step]
    | addUser cls id name password department => simp [step]
    | removeUser userID => simp [step]
    | returnBook userID bookID now => simp [step]
    | reserveBook userID bookID => simp [step]
    | cancelReservation userID bookID => simp [step]

/-- C20 at a concrete state: after holder 1 borrowed item 1 and was removed, neither the
directory nor the ledger has the id 1. -/
theorem ledger_lockstep_witness :
    ∃ lib, run Library.empty orphanLoanScenario = some lib ∧ Reachable lib ∧
      UMap.find lib.users 1 = none ∧ UMap.find lib.accounts 1 = none ∧
      ∀ userID, (∃ user, UMap.find lib.users userID = some user) ↔
        (∃ account, lib.getAccount userID = some account) :=
  ⟨_, rfl, ⟨orphanLoanScenario, rfl, rfl⟩, rfl, rfl,
    (ledger_lockstep _ ⟨orphanLoanScenario, rfl, rfl⟩).1⟩

/-! ## Facts about text search -/

theorem stringFind_isSome (needle hay : List Char) (i : Nat) :
    (Library.stringFind needle hay i).isSome = true ↔ needle <:+: hay := by
  induction hay generalizing i with
  | nil =>
    unfold Library.stringFind
    by_cases h : needle.isPrefixOf [] = true
    · rw [if_pos h]
      have hp := List.isPrefixOf_iff_prefix.mp h
      simp [List.infix_nil, List.prefix_nil.mp hp]
    · rw [if_neg h]
      simp only [Option.isSome_none, Bool.false_eq_true, false_iff]
      intro hin
      apply h
      rw [List.infix_nil.mp hin]
      rfl
  | cons c cs ih =>
    unfold Library.stringFind
    rw [List.infix_cons_iff]
    by_cases h : needle.isPrefixOf (c :: cs) = true
    · rw [if_pos h]
      simp [List.isPrefixOf_iff_prefix.mp h]
    · rw [if_neg h, ih (i + 1)]
      constructor
      · exact Or.inr
      · rintro (hp | hin)
        · exact absurd (List.isPrefixOf_iff_prefix.mpr hp) h
        · exact hin

/-! ## Facts about `split` and the loop of `loadAccountInfo` -/

theorem splitAux_cons (delim c : Char) (cs token : List Char) (extracted : Bool) :
    splitAux delim (c :: cs) token extracted =
      if c == delim then String.mk token.reverse :: splitAux delim cs [] false
      else splitAux delim cs (c :: token) true := by
  rw [splitAux]

/-- A token that ends at a delimiter: `getline` returns it and the loop goes on behind the
delimiter. -/
theorem splitAux_token (delim : Char) (pre rest token : List Char) (extracted : Bool)
    (h : delim ∉ pre) :
    splitAux delim (pre ++ delim :: rest) token extracted =
      String.mk (token.reverse ++ pre) :: splitAux delim rest [] false := by
  induction pre generalizing token extracted with
  | nil => simp [splitAux_cons]
  | cons c pre ih =>
    have hc : (c == delim) = false := by
      simp only [List.mem_cons, not_or] at h
      simpa using fun e => h.1 e.symm
    have hpre : delim ∉ pre := fun hm => h (List.mem_cons_of_mem _ hm)
    rw [List.cons_append, splitAux_cons, hc, if_neg (by simp), ih (c :: token) true hpre]
    simp

/-- The last token, which ends at the end of the text: `getline` returns it when it has
extracted a character, and the next `getline` fails. -/
theorem splitAux_last (delim : Char) (pre token : List Char) (extracted : Bool)
    (h : delim ∉ pre) (hne : pre ≠ [] ∨ extracted = true) :
    splitAux delim pre token extracted = [String.mk (token.reverse ++ pre)] := by
  induction pre generalizing token extracted with
  | nil =>
    rcases hne with hne | hne
    · exact absurd rfl hne
    · simp [splitAux, hne]
  | cons c pre ih =>
    have hc : (c == delim) = false := by
      simp only [List.mem_cons, not_or] at h
      simpa using fun e => h.1 e.symm
    have hpre : delim ∉ pre := fun hm => h (List.mem_cons_of_mem _ hm)
    rw [splitAux_cons, hc, if_neg (by simp), ih (c :: token) true hpre (Or.inr rfl)]
    simp

/-- A token that ends at a delimiter with nothing behind it: the empty rest gives no
further token. -/
theorem splitAux_trailing (delim : Char) (pre token : List Char) (extracted : Bool)
    (h : delim ∉ pre) :
    splitAux delim (pre ++ [delim]) token extracted = [String.mk (token.reverse ++ pre)] := by
  rw [splitAux_token delim pre [] token extracted h]
  rfl

/-- A user record with a department that is not empty splits into its four fields. -/
theorem split_userRecord (idText name password department : String)
    (h1 : '|' ∉ idText.data) (h2 : '|' ∉ name.data) (h3 : '|' ∉ password.data)
    (h4 : '|' ∉ department.data) (hne : department.data ≠ []) :
    Library.split (idText ++ "|" ++ name ++ "|" ++ password ++ "|" ++ department) '|' =
      [idText, name, password, department] := by
  unfold Library.split
  have hd : (idText ++ "|" ++ name ++ "|" ++ password ++ "|" ++ department).data =
      idText.data ++ '|' :: (name.data ++ '|' :: (password.data ++ '|' :: department.data)) := by
    simp [String.data_append]
  rw [hd, splitAux_token _ _ _ _ _ h1, splitAux_token _ _ _ _ _ h2, splitAux_token _ _ _ _ _ h3,
    splitAux_last _ _ _ _ h4 (Or.inl hne)]
  rfl

/-- A user record with an empty department splits into three fields only, whatever the
name and the credential are. -/
theorem split_userRecord_empty_department (idText name password : String)
    (h1 : '|' ∉ idText.data) (h2 : '|' ∉ name.data) (h3 : '|' ∉ password.data) :
    Library.split (idText ++ "|" ++ name ++ "|" ++ password ++ "|" ++ "") '|' =
      [idText, name, password] := by
  unfold Library.split
  have hd : (idText ++ "|" ++ name ++ "|" ++ password ++ "|" ++ "").data =
      idText.data ++ '|' :: (name.data ++ '|' :: (password.data ++ ['|'])) := by
    simp [String.data_append]
  rw [hd, splitAux_token _ _ _ _ _ h1, splitAux_token _ _ _ _ _ h2,
    splitAux_trailing _ _ _ _ h3]
  rfl

/-! ## The loop of `loadAccountInfo` and the catalog -/

theorem setAvailable_false_twice (book : Book) :
    (book.setAvailable false).setAvailable false = book.setAvailable false := rfl

/-- One line of an account file changes the catalog only by marking the item it names as an
active loan unavailable; the directory and the ledger stay as they are. -/
theorem loadAccountLine_books {stod : String → Option ℚ} {clock : Nat → Int}
    {st st' : Library × Account × Nat} {line : String}
    (h : Library.loadAccountLine stod clock st line = some st') :
    st'.1.users = st.1.users ∧ st'.1.accounts = st.1.accounts ∧
    ∀ j, UMap.find st'.1.books j = (UMap.find st.1.books j).map
      (fun b => if Library.borrowLineID line = some j then b.setAvailable false else b) := by
  unfold Library.loadAccountLine at h
  unfold Library.borrowLineID
  simp only at h ⊢
  by_cases hlen : (Library.split line '|').length < 2
  · rw [if_pos hlen] at h
    cases Option.some.inj h
    simp [hlen]
  · rw [if_neg hlen] at h
    simp only [if_neg hlen]
    by_cases htag : ((Library.split line '|')[0]? == some "BORROW") = true
    · rw [if_pos htag] at h
      simp only [if_pos htag]
      cases h1 : ((Library.split line '|')[1]?).bind stoi with
      | none => simp [h1] at h
      | some bookID =>
        cases h2 : ((Library.split line '|')[2]?).bind stoll with
        | none => simp [h1, h2] at h
        | some t2 =>
          cases h3 : ((Library.split line '|')[3]?).bind stoll with
          | none => simp [h1, h2, h3] at h
          | some t3 =>
            simp only [h1, h2, h3] at h
            cases Option.some.inj h
            cases hb : st.1.getBook bookID with
            | none =>
              refine ⟨rfl, rfl, ?_⟩
              intro j
              have hb' : UMap.find st.1.books bookID = none := hb
              by_cases hj : j = bookID
              · subst hj
                simp [hb']
              · have hne : ¬ (some bookID = some j) := fun e => hj (Option.some.inj e).symm
                simp [hne]
            | some book =>
              refine ⟨rfl, rfl, ?_⟩
              intro j
              have hb' : UMap.find st.1.books bookID = some book := hb
              simp only [UMap.find_update]
              by_cases hj : j = bookID
              · subst hj
                simp [hb']
              · have hne : ¬ (some bookID = some j) := fun e => hj (Option.some.inj e).symm
                simp [hj, hne]
    · rw [if_neg htag] at h
      simp only [if_neg htag]
      have hsame : st'.1 = st.1 := by
        split_ifs at h
        · split at h
          · cases Option.some.inj h
            rfl
          · cases h
        · split at h
          · cases Option.some.inj h
            rfl
          · cases h
        · cases Option.some.inj h
          rfl
      rw [hsame]
      simp

/-- The lines of an account file change the catalog only by marking the items that they
name as active loans unavailable. -/
theorem foldLines_books {stod : String → Option ℚ} {clock : Nat → Int} (lines : List String) :
    ∀ {st st' : Library × Account × Nat},
      foldLines (Library.loadAccountLine stod clock) st lines = some st' →
      st'.1.users = st.1.users ∧ st'.1.accounts = st.1.accounts ∧
      ∀ j, UMap.find st'.1.books j = (UMap.find st.1.books j).map
        (fun b => if j ∈ lines.filterMap Library.borrowLineID then b.setAvailable false
          else b) := by
  induction lines with
  | nil =>
    intro st st' h
    cases Option.some.inj h
    simp
  | cons line rest ih =>
    intro st st' h
    simp only [foldLines] at h
    cases h1 : Library.loadAccountLine stod clock st line with
    | none => simp [h1] at h
    | some st1 =>
      rw [h1] at h
      obtain ⟨hu1, ha1, hb1⟩ := loadAccountLine_books h1
      obtain ⟨hu2, ha2, hb2⟩ := ih h
      refine ⟨hu2.trans hu1, ha2.trans ha1, ?_⟩
      intro j
      rw [hb2 j, hb1 j, Option.map_map]
      congr 1
      funext b
      simp only [Function.comp]
      cases hl : Library.borrowLineID line with
      | none => simp [List.filterMap_cons, hl]
      | some k =>
        by_cases hk : k = j
        · subst hk
          simp [List.filterMap_cons, hl, setAvailable_false_twice]
        · have hne : ¬ (some k = some j) := fun e => hk (Option.some.inj e)
          have hne' : ¬ j = k := fun e => hk e.symm
          simp [List.filterMap_cons, hl, hk, hne']

/-- One line of an account file leaves the active loans read so far in place: it can only
append a record. -/
theorem loadAccountLine_loans {stod : String → Option ℚ} {clock : Nat → Int}
    {st st' : Library × Account × Nat} {line : String}
    (h : Library.loadAccountLine stod clock st line = some st') :
    ∃ extra, st'.2.1.currentBorrows = st.2.1.currentBorrows ++ extra := by
  unfold Library.loadAccountLine at h
  simp only at h
  split_ifs at h
  · cases Option.some.inj h
    exact ⟨[], by simp⟩
  · split at h
    · cases Option.some.inj h
      exact ⟨_, rfl⟩
    · cases h
  · split at h
    · cases Option.some.inj h
      exact ⟨[], by simp [Account.addToBorrowHistory]⟩
    · cases h
  · split at h
    · cases Option.some.inj h
      exact ⟨[], by simp [Account.addFine]⟩
    · cases h
  · cases Option.some.inj h
    exact ⟨[], by simp⟩

theorem foldLines_loans {stod : String → Option ℚ} {clock : Nat → Int} (lines : List String) :
    ∀ {st st' : Library × Account × Nat},
      foldLines (Library.loadAccountLine stod clock) st lines = some st' →
      ∃ extra, st'.2.1.currentBorrows = st.2.1.currentBorrows ++ extra := by
  induction lines with
  | nil =>
    intro st st' h
    cases Option.some.inj h
    exact ⟨[], by simp⟩
  | cons line rest ih =>
    intro st st' h
    simp only [foldLines] at h
    cases h1 : Library.loadAccountLine stod clock st line with
    | none => simp [h1] at h
    | some st1 =>
      rw [h1] at h
      obtain ⟨e1, he1⟩ := loadAccountLine_loans h1
      obtain ⟨e2, he2⟩ := ih h
      exact ⟨e1 ++ e2, by rw [he2, he1, List.append_assoc]⟩

/-- The account reads back from the library that `loadAccountInfo` returns. -/
theorem loadAccountInfo_account {stod : String → Option ℚ} {clock : Nat → Int} {lib lib' : Library}
    {n n' : Nat} {userID : Int} {text : String}
    (h : Library.loadAccountInfo stod clock lib n userID (some text) = some (lib', n')) :
    ∃ st, foldLines (Library.loadAccountLine stod clock) (lib, Account.Account userID, n)
        (fileLines text) = some st ∧
      lib'.books = st.1.books ∧ lib'.users = st.1.users ∧
      lib'.getAccount userID = some st.2.1 := by
  unfold Library.loadAccountInfo at h
  simp only at h
  cases hf : foldLines (Library.loadAccountLine stod clock) (lib, Account.Account userID, n)
      (fileLines text) with
  | none => simp [hf] at h
  | some st =>
    rw [hf] at h
    cases Option.some.inj h
    refine ⟨st, rfl, rfl, rfl, ?_⟩
    rw [Library.getAccount_eq_some]
    simp [UMap.find_assign]

/-! ## C21 – C23: loading an account file -/

/-- C21 (defect of the code): the account of Student 111 has one active loan of item 50
that started at the time of one hour, a whole number of seconds; `saveState` writes the
record "BORROW|50|3600|2595600" for it. Whenever `loadAccountInfo` reads the account file
back, the first active loan of the loaded account starts at the clock reading of the load
and is due 30 days after it: the saved times are parsed and dropped, and the loaded loans
differ from the saved ones unless the clock reads the old loan-start. -/
theorem loadAccountInfo_restarts_loan (showDouble : ℚ → String) (stod : String → Option ℚ)
    (clock : Nat → Int) (lib lib' : Library) (n n' : Nat)
    (hload : Library.loadAccountInfo stod clock lib n 111
      (some (Library.accountText showDouble savedAccount)) = some (lib', n')) :
    Library.recordLine "BORROW"
      { bookID := 50, borrowDate := hours 1, dueDate := hours 1 + hours (24 * 30) } =
      "BORROW|50|3600|2595600\n" ∧
    ∃ account' rest,
      lib'.getAccount 111 = some account' ∧
      account'.currentBorrows =
        { bookID := 50, borrowDate := clock n, dueDate := clock (n + 1) + hours (24 * 30) } ::
          rest ∧
      (clock n ≠ hours 1 → account'.currentBorrows ≠ savedAccount.currentBorrows) := by
  obtain ⟨st, hfold, -, -, hacc⟩ := loadAccountInfo_account hload
  have hdata : (Library.accountText showDouble savedAccount).data =
      "BORROW|50|3600|2595600".data ++
        lineFeed :: ("FINE|" ++ showDouble 0 ++ String.singleton lineFeed).data := by
    have h1 : String.join (savedAccount.getCurrentBorrows.map (Library.recordLine "BORROW")) =
        "BORROW|50|3600|2595600\n" := by decide
    have h2 : String.join (savedAccount.getBorrowHistory.map (Library.recordLine "HISTORY")) =
        "" := by decide
    have h3 : savedAccount.getTotalFine = 0 := rfl
    have h4 : ("BORROW|50|3600|2595600\n" : String).data =
        "BORROW|50|3600|2595600".data ++ [lineFeed] := by decide
    unfold Library.accountText
    rw [h1, h2, h3]
    simp only [String.data_append, h4]
    simp
    decide
  have hlines : fileLines (Library.accountText showDouble savedAccount) =
      "BORROW|50|3600|2595600" ::
        splitAux lineFeed ("FINE|" ++ showDouble 0 ++ String.singleton lineFeed).data [] false := by
    unfold fileLines Library.split
    rw [hdata, splitAux_token lineFeed _ _ [] false (by decide)]
    rfl
  have hsplit : Library.split "BORROW|50|3600|2595600" '|' =
      ["BORROW", "50", "3600", "2595600"] := by decide
  have hline : Library.loadAccountLine stod clock (lib, Account.Account 111, n)
      "BORROW|50|3600|2595600" =
      some ((match lib.getBook 50 with
          | some book => { lib with books := UMap.update lib.books 50 (book.setAvailable false) }
          | none => lib),
        (Account.Account 111).addBorrow 50 (clock n) (clock (n + 1)), n + 2) := by
    have p1 : stoi "50" = some 50 := by decide
    have p2 : stoll "3600" = some 3600 := by decide
    have p3 : stoll "2595600" = some 2595600 := by decide
    unfold Library.loadAccountLine
    simp [hsplit, p1, p2, p3]
  rw [hlines] at hfold
  simp only [foldLines, hline] at hfold
  obtain ⟨extra, hextra⟩ := foldLines_loans _ hfold
  refine ⟨by decide, st.2.1, extra, hacc, ?_, ?_⟩
  · rw [hextra]
    rfl
  · intro hne heq
    rw [hextra] at heq
    have hhead := congrArg List.head? heq
    have hb : clock n = hours 1 := by
      have := congrArg (Option.map BorrowRecord.borrowDate) hhead
      simpa [Account.addBorrow, Account.Account, savedAccount] using this
    exact hne hb

/-- C21 at concrete inputs: the state is saved after Student 111 borrowed item 50 at the
time of one hour and loaded when the clock reads 100 hours; the loaded loan starts at 100
hours, and the whole path through `saveState` and `loadState` gives the same loan. -/
theorem loadAccountInfo_restarts_loan_witness :
    ((studentLoanState (hours 1)).getAccount 111) = some savedAccount ∧
    ∃ lib' n' account' rest,
      Library.loadAccountInfo (fun _ => some 0) (fun _ => hours 100) studentReadyState 0 111
        (some (Library.accountText (fun _ => "0") savedAccount)) = some (lib', n') ∧
      lib'.getAccount 111 = some account' ∧
      account'.currentBorrows =
        { bookID := 50, borrowDate := hours 100, dueDate := hours 100 + hours (24 * 30) } ::
          rest ∧
      (((studentLoanState (hours 1)).saveState (fun _ => "0")).bind
        (Library.loadState (fun _ => some 0) (fun _ => hours 100))).map
          (fun r => (r.1.getAccount 111).map Account.currentBorrows) =
        some (some [{ bookID := 50, borrowDate := hours 100,
                      dueDate := hours 100 + hours (24 * 30) }]) := by
  have hsome : (Library.loadAccountInfo (fun _ => some 0) (fun _ => hours 100)
      studentReadyState 0 111
      (some (Library.accountText (fun _ => "0") savedAccount))).isSome = true := by decide
  obtain ⟨r, hr⟩ := Option.isSome_iff_exists.mp hsome
  obtain ⟨lib', n'⟩ := r
  obtain ⟨-, account', rest, h1, h2, -⟩ :=
    loadAccountInfo_restarts_loan _ _ _ _ _ _ _ hr
  exact ⟨rfl, lib', n', account', rest, hr, h1, h2, by decide⟩

/-- C22 (defect of the code): `loadAccountInfo` skips a line with fewer than two fields, but
on the account file lines "BORROW|5" and "HISTORY|5|100", whose split record has two and
three fields, it reads `parts[2]` or `parts[3]` past the end of the record, and on
"BORROW|x|1|2" the call `stoi("x")` throws: each of these files makes the load fault, for
every library, holder and clock. -/
theorem loadAccountInfo_faults_on_short_record (stod : String → Option ℚ) (clock : Nat → Int)
    (lib : Library) (n : Nat) (userID : Int) :
    Library.split "BORROW|5" '|' = ["BORROW", "5"] ∧
    Library.loadAccountInfo stod clock lib n userID (some "BORROW|5\n") = none ∧
    Library.split "HISTORY|5|100" '|' = ["HISTORY", "5", "100"] ∧
    Library.loadAccountInfo stod clock lib n userID (some "HISTORY|5|100\n") = none ∧
    stoi "x" = none ∧
    Library.loadAccountInfo stod clock lib n userID (some "BORROW|x|1|2\n") = none ∧
    (Library.loadAccountInfo stod clock lib n userID (some "FINE\n")).isSome = true := by
  have s1 : Library.split "BORROW|5" '|' = ["BORROW", "5"] := by decide
  have s2 : Library.split "HISTORY|5|100" '|' = ["HISTORY", "5", "100"] := by decide
  have s3 : Library.split "BORROW|x|1|2" '|' = ["BORROW", "x", "1", "2"] := by decide
  have s4 : Library.split "FINE" '|' = ["FINE"] := by decide
  have l1 : fileLines "BORROW|5\n" = ["BORROW|5"] := by decide
  have l2 : fileLines "HISTORY|5|100\n" = ["HISTORY|5|100"] := by decide
  have l3 : fileLines "BORROW|x|1|2\n" = ["BORROW|x|1|2"] := by decide
  have l4 : fileLines "FINE\n" = ["FINE"] := by decide
  have hx : stoi "x" = none := by decide
  have h5 : stoi "5" = some 5 := by decide
  refine ⟨s1, ?_, s2, ?_, hx, ?_, ?_⟩
  · simp [Library.loadAccountInfo, l1, foldLines, Library.loadAccountLine, s1, h5]
  · simp [Library.loadAccountInfo, l2, foldLines, Library.loadAccountLine, s2, h5]
  · simp [Library.loadAccountInfo, l3, foldLines, Library.loadAccountLine, s3, hx]
  · simp [Library.loadAccountInfo, l4, foldLines, Library.loadAccountLine, s4]

/-- C23: when `loadAccountInfo` has processed an account file, every item of the catalog
that a `BORROW` line of the file names is marked unavailable and otherwise as before, and
every item that no `BORROW` line names is exactly as before; a `HISTORY` line names no
active loan and leaves the whole library as it is. -/
theorem loadAccountInfo_availability (stod : String → Option ℚ) (clock : Nat → Int)
    (lib lib' : Library) (n n' : Nat) (userID : Int) (text : String)
    (hload : Library.loadAccountInfo stod clock lib n userID (some text) = some (lib', n')) :
    (∀ j book, j ∈ Library.borrowedIDs text → UMap.find lib.books j = some book →
      UMap.find lib'.books j = some (book.setAvailable false)) ∧
    (∀ j, j ∉ Library.borrowedIDs text → UMap.find lib'.books j = UMap.find lib.books j) ∧
    (∀ line, (Library.split line '|')[0]? = some "HISTORY" →
      Library.borrowLineID line = none ∧
      ∀ st st', Library.loadAccountLine stod clock st line = some st' → st'.1 = st.1) := by
  obtain ⟨st, hfold, hbooks, -, -⟩ := loadAccountInfo_account hload
  obtain ⟨-, -, hb⟩ := foldLines_books (fileLines text) hfold
  refine ⟨?_, ?_, ?_⟩
  · intro j book hj hfind
    have hj' : j ∈ (fileLines text).filterMap Library.borrowLineID := hj
    rw [hbooks, hb j, hfind]
    simp [hj']
  · intro j hj
    have hj' : j ∉ (fileLines text).filterMap Library.borrowLineID := hj
    rw [hbooks, hb j]
    simp [hj']
  · intro line htag
    have hnot : ((Library.split line '|')[0]? == some "BORROW") = false := by
      rw [htag]
      decide
    have hhist : ((Library.split line '|')[0]? == some "HISTORY") = true := by
      rw [htag]
      decide
    have hnot' : ¬ ((Library.split line '|')[0]? == some "BORROW") = true := by
      rw [hnot]
      decide
    refine ⟨?_, ?_⟩
    · unfold Library.borrowLineID
      simp only
      by_cases hlen : (Library.split line '|').length < 2
      · rw [if_pos hlen]
      · rw [if_neg hlen, if_neg hnot']
    · intro st st' h
      unfold Library.loadAccountLine at h
      simp only at h
      by_cases hlen : (Library.split line '|').length < 2
      · rw [if_pos hlen] at h
        cases Option.some.inj h
        rfl
      · rw [if_neg hlen, if_neg hnot', if_pos hhist] at h
        split at h
        · cases Option.some.inj h
          rfl
        · cases h

/-- C23 at a concrete input: item 50 is available; the account file has a `BORROW` line and
a `HISTORY` line for item 50 and a `FINE` line; after the load item 50 is unavailable. -/
theorem loadAccountInfo_availability_witness :
    (UMap.find studentReadyState.books 50).map Book.available = some true ∧
    (50 : Int) ∈ Library.borrowedIDs "BORROW|50|1|2\nHISTORY|50|1|2\nFINE|0\n" ∧
    ∃ lib' n',
      Library.loadAccountInfo (fun _ => some 0) (fun _ => 0) studentReadyState 0 111
        (some "BORROW|50|1|2\nHISTORY|50|1|2\nFINE|0\n") = some (lib', n') ∧
      (UMap.find lib'.books 50).map Book.available = some false := by
  have hsome : (Library.loadAccountInfo (fun _ => some 0) (fun _ => 0) studentReadyState 0 111
      (some "BORROW|50|1|2\nHISTORY|50|1|2\nFINE|0\n")).isSome = true := by decide
  obtain ⟨r, hr⟩ := Option.isSome_iff_exists.mp hsome
  obtain ⟨lib', n'⟩ := r
  have hmem : (50 : Int) ∈ Library.borrowedIDs "BORROW|50|1|2\nHISTORY|50|1|2\nFINE|0\n" := by
    decide
  obtain ⟨h1, -, -⟩ := loadAccountInfo_availability _ _ _ _ _ _ _ _ hr
  refine ⟨by decide, hmem, lib', n', hr, ?_⟩
  rw [h1 50 _ hmem rfl]
  rfl

/-! ## C24 – C25: search and payments -/

/-- C24: `searchBooks` returns exactly the entries of the catalog whose lower-cased title
contains the lower-cased query as a contiguous substring, each as often as the catalog has
it (once, the keys of the catalog being distinct) and in the order of the catalog; for the
empty query it returns the whole catalog. It is a `const` method and returns nothing but
this list, so the catalog is as before. -/
theorem searchBooks_spec (lib : Library) (query : String) :
    (∀ entry, entry ∈ lib.searchBooks query ↔
      entry ∈ lib.books ∧
        (Library.toLower query).data <:+: (Library.toLower entry.2.title).data) ∧
    (lib.searchBooks query).Sublist lib.books ∧
    (∀ entry, (lib.searchBooks query).count entry =
      if (Library.toLower query).data <:+: (Library.toLower entry.2.title).data
      then lib.books.count entry else 0) ∧
    (lib.books.Nodup → (lib.searchBooks query).Nodup) ∧
    lib.searchBooks "" = lib.books ∧
    (lib.searchBooks "").length = lib.books.length := by
  have hall : lib.searchBooks "" = lib.books := by
    unfold Library.searchBooks
    apply List.filter_eq_self.mpr
    intro entry _
    rw [stringFind_isSome]
    exact List.nil_infix
  refine ⟨?_, ?_, ?_, ?_, hall, by rw [hall]⟩
  · intro entry
    unfold Library.searchBooks
    rw [List.mem_filter, stringFind_isSome]
    rfl
  · exact List.filter_sublist _
  · intro entry
    unfold Library.searchBooks
    by_cases h : (Library.toLower query).data <:+: (Library.toLower entry.2.title).data
    · rw [if_pos h]
      exact List.count_filter ((stringFind_isSome _ _ 0).mpr h)
    · rw [if_neg h, List.count_eq_zero, List.mem_filter]
      rintro ⟨-, hm⟩
      exact h ((stringFind_isSome _ _ 0).mp hm)
  · intro hnd
    exact hnd.sublist (List.filter_sublist _)

/-- C24 at concrete inputs: the catalog holds "Title": the queries "iT" and "" find it, the
query "x" finds nothing. -/
theorem searchBooks_spec_witness :
    (studentReadyState.searchBooks "iT").map Prod.fst = [50] ∧
    studentReadyState.searchBooks "" = studentReadyState.books ∧
    studentReadyState.searchBooks "x" = [] ∧
    (∀ entry, entry ∈ studentReadyState.searchBooks "iT" ↔
      entry ∈ studentReadyState.books ∧
        (Library.toLower "iT").data <:+: (Library.toLower entry.2.title).data) :=
  ⟨by decide, by decide, by decide, (searchBooks_spec studentReadyState "iT").1⟩

/-- C25 as stated fails: an account that owes 1200 and pays -7 through `handlePayFine` owes
1207 afterwards; and an account with the balance -5 that pays 1 has the balance 0. -/
theorem payFine_increases_counterexample :
    (lateReturnState.getAccount 111).map Account.totalFine = some 1200 ∧
    ((Main.handlePayFine lateReturnState 111 (-7)).bind
      (fun lib => (lib.getAccount 111).map Account.totalFine)) = some 1207 ∧
    (Account.payFine { userID := 1, currentBorrows := [], borrowHistory := [],
                       totalFine := -5 } 1).totalFine = 0 := by
  refine ⟨?_, ?_, ?_⟩ <;> decide!

/-- C25 (amended): for an account with a fine balance `b ≥ 0` and a payment amount `a ≥ 0`
the balance after `payFine` is not greater than `b`; a negative amount is accepted as well
and makes the balance `b - a`, which is greater than `b`. -/
theorem payFine_not_increasing (lib : Library) (userID : Int) (account : Account)
    (amount : ℚ)
    (ha : lib.getAccount userID = some account)
    (hb : 0 ≤ account.totalFine) :
    ∃ lib' account',
      lib.payFine userID amount = some (true, lib') ∧
      lib'.getAccount userID = some account' ∧
      account' = account.payFine amount ∧
      (0 ≤ amount → account'.totalFine ≤ account.totalFine) ∧
      (amount < 0 → account'.totalFine = account.totalFine - amount ∧
        account.totalFine < account'.totalFine) := by
  have ha' := Library.getAccount_eq_some.mp ha
  refine ⟨{ lib with
      accounts := UMap.update lib.accounts userID (some (account.payFine amount)) },
    account.payFine amount, ?_, ?_, rfl, ?_, ?_⟩
  · simp [Library.payFine, ha']
  · rw [Library.getAccount_eq_some]
    simp [UMap.find_update, ha']
  · intro hamount
    simp only [Account.payFine]
    exact max_le hb (by linarith)
  · intro hneg
    simp only [Account.payFine]
    rw [max_eq_right (by linarith)]
    exact ⟨rfl, by linarith⟩

/-- C25 (amended) at concrete inputs: the account that owes 1200 pays 200 and owes 1000. -/
theorem payFine_not_increasing_witness :
    (lateReturnState.getAccount 111).map Account.totalFine = some 1200 ∧
    ∃ lib' account',
      lateReturnState.payFine 111 200 = some (true, lib') ∧
      lib'.getAccount 111 = some account' ∧ account'.totalFine = 1000 := by
  have hacc : ∃ account, lateReturnState.getAccount 111 = some account ∧
      account.totalFine = 1200 := by
    refine ⟨_, rfl, ?_⟩
    decide!
  obtain ⟨account, ha, hfine⟩ := hacc
  obtain ⟨lib', account', h1, h2, h3, -, -⟩ :=
    payFine_not_increasing lateReturnState 111 account 200 ha (by rw [hfine]; norm_num)
  refine ⟨by rw [ha]; simp [hfine], lib', account', h1, h2, ?_⟩
  rw [h3]
  simp only [Account.payFine, hfine]
  norm_num

/-! ## C26: the record of a holder -/

/-- C26 (defect of the code): Student 5 has the name "A", the credential "p" and an empty
department; `saveState` writes the record "5|A|p|", `split` returns for it the three fields
"5", "A", "p", because the `getline` after the last delimiter extracts nothing, the record
fails the 4-field check of the loader, and the directory is empty after `loadState` and
after `initializeLibrary`. -/
theorem userLine_empty_department (showDouble : ℚ → String) (stod : String → Option ℚ)
    (clock : Nat → Int) :
    (UMap.find noDepartmentState.users 5).map
      (fun u => (u.name, u.password, u.department)) = some ("A", "p", "") ∧
    Library.userLine 5 (Student 5 "A" "p") = "5|A|p|\n" ∧
    Library.split "5|A|p|" '|' = ["5", "A", "p"] ∧
    ∃ files, noDepartmentState.saveState showDouble = some files ∧
      files.students = "5|A|p|\n" ∧
      (Library.loadState stod clock files).map (fun r => r.1.users) = some [] ∧
      (Main.initializeLibrary stod clock files Library.empty).map (fun r => r.1.users) =
        some [] := by
  have hr1 : Library.readDataFile "5|A|p|\n" = [["5", "A", "p"]] := by decide
  have hr2 : Main.readDataFile "5|A|p|\n" = [["5", "A", "p"]] := by decide
  have hr3 : Library.readDataFile "" = [] := by decide
  have hr4 : Main.readDataFile "" = [] := by decide
  have hsave : noDepartmentState.saveState showDouble =
      some { books := "", students := "5|A|p|\n", faculty := "", librarians := "",
             accounts := [(5, Library.accountText showDouble (Account.Account 5))] } := by
    have h1 : Library.roleText noDepartmentState.users "Student" = "5|A|p|\n" := by decide
    have h2 : Library.roleText noDepartmentState.users "Faculty" = "" := by decide
    have h3 : Library.roleText noDepartmentState.users "Librarian" = "" := by decide
    have h4 : String.join (noDepartmentState.books.map
        (fun pair => Library.bookLine pair.1 pair.2)) = "" := by decide
    have h5 : Library.saveAccounts showDouble noDepartmentState.accounts [] =
        some [(5, Library.accountText showDouble (Account.Account 5))] := rfl
    unfold Library.saveState
    rw [h5, h1, h2, h3, h4]
  refine ⟨by decide, by decide, by decide, _, hsave, rfl, ?_, ?_⟩
  · simp only [Library.loadState, hr1, hr3, foldLines, Library.loadUserParts]
    rfl
  · simp only [Main.initializeLibrary, hr2, hr4, foldLines, Library.loadUserParts]
    rfl

end LibrarySystem
